import Mathlib

/-!
# Sound extension (`rge_soundEmulation.h`): WAV decoder, playback registry, mixer

Shallow embedding of `jpr::SOUND`.

Modelling conventions
* `float` and `double` values are rationals (`ℚ`); `long` and `int` are `Int`, unsigned fields
  are `Nat`.  Sample values, their sums and products are taken exactly.  Where the rounding to
  `float` decides how the program goes on, in the position update of the mixer and in the time
  step and the clock of the stream loop, a result is rounded to the nearest `float` by `fl32`.
* A `std::istream` is the list of bytes not yet consumed together with its `eofbit` and
  `failbit`; bytes are natural numbers, read modulo 256.
* An access outside an array (sample store, sample buffer, header structure) or a division by
  zero has no defined result: the embedded function yields `none` or `Outcome.undefined`.
* The chunk search of the decoder is a `while` loop without a bound; it runs on fuel, and
  `Outcome.outOfFuel` says that the fuel did not suffice.
* What the sound device answers (`snd_pcm_open`, `snd_pcm_hw_params`, `snd_pcm_writei`) is an
  argument of the embedded function; an exception that leaves a function is an `Except` error.

The cursor navigation of the popup menu (`rge_popUpMenu.h`) follows in the namespace `popup`.
-/

namespace jpr

/-! ## Bytes and little-endian fields -/

/-- Byte `i` of a buffer (as an unsigned char value). -/
def byteAt (b : List Nat) (i : Nat) : Nat := b.getD i 0 % 256

/-- Little-endian `uint16_t` at offset `i`. -/
def le16 (b : List Nat) (i : Nat) : Nat := byteAt b i + 256 * byteAt b (i + 1)

/-- Little-endian `uint32_t` at offset `i`. -/
def le32 (b : List Nat) (i : Nat) : Nat :=
  byteAt b i + 256 * byteAt b (i + 1) + 65536 * byteAt b (i + 2) + 16777216 * byteAt b (i + 3)

/-- The two bytes of a `uint16_t`, low byte first. -/
def bytes16 (v : Nat) : List Nat := [v % 256, v / 256 % 256]

/-- The four bytes of a `uint32_t`, low byte first. -/
def bytes32 (v : Nat) : List Nat := [v % 256, v / 256 % 256, v / 65536 % 256, v / 16777216 % 256]

/-- Value of a `short` stored in the two bytes `b` (two's complement, little-endian). -/
def toShort (b : List Nat) : Int :=
  if le16 b 0 < 32768 then (le16 b 0 : Int) else (le16 b 0 : Int) - 65536

/-- Effect of reading the bytes `got` into the start of the memory area `dst`:
the first `got.length` bytes are replaced, the remainder keeps its previous content. -/
def overwrite (dst got : List Nat) : List Nat := got ++ dst.drop got.length

/-! ## `jpr_WAVEFORMATEX` (packed, 18 bytes) -/

structure jpr_WAVEFORMATEX where
  wFormatTag : Nat
  nChannels : Nat
  nSamplesPerSec : Nat
  nAvgBytesPerSec : Nat
  nBlockAlign : Nat
  wBitsPerSample : Nat
  cbSize : Nat
deriving DecidableEq

/-- Memory image of the packed structure. -/
def jpr_WAVEFORMATEX.toBytes (h : jpr_WAVEFORMATEX) : List Nat :=
  bytes16 h.wFormatTag ++ bytes16 h.nChannels ++ bytes32 h.nSamplesPerSec ++
    bytes32 h.nAvgBytesPerSec ++ bytes16 h.nBlockAlign ++ bytes16 h.wBitsPerSample ++
    bytes16 h.cbSize

/-- The structure held by an 18-byte memory image. -/
def jpr_WAVEFORMATEX.ofBytes (b : List Nat) : jpr_WAVEFORMATEX :=
  { wFormatTag := le16 b 0
    nChannels := le16 b 2
    nSamplesPerSec := le32 b 4
    nAvgBytesPerSec := le32 b 8
    nBlockAlign := le16 b 12
    wBitsPerSample := le16 b 14
    cbSize := le16 b 16 }

/-- Size of the packed structure, `sizeof(jpr_WAVEFORMATEX)`. -/
def sizeofWaveFormat : Nat := 18

/-! ## `std::istream` -/

/-- State of an input stream: the bytes not yet consumed and the state bits.
`seekable` tells whether the underlying stream buffer implements relative seeking
(a file buffer does). -/
structure IStream where
  rest : List Nat
  eofbit : Bool
  failbit : Bool
  seekable : Bool
deriving DecidableEq

/-- A freshly opened binary file stream over `bytes`. -/
def IStream.ofFile (bytes : List Nat) : IStream :=
  { rest := bytes, eofbit := false, failbit := false, seekable := true }

/-- `is.eof()`. -/
def IStream.eof (s : IStream) : Bool := s.eofbit

/-- `is.read(buf, n)`: the bytes delivered and the stream afterwards.  On a stream that is not
`good()` nothing is extracted and `failbit` is set; a short read delivers what is left and sets
`eofbit` and `failbit`. -/
def IStream.read (s : IStream) (n : Nat) : List Nat × IStream :=
  if s.eofbit || s.failbit then ([], { s with failbit := true })
  else if n ≤ s.rest.length then (s.rest.take n, { s with rest := s.rest.drop n })
  else (s.rest, { s with rest := [], eofbit := true, failbit := true })

/-- `is.seekg(off, std::istream::cur)` with a non-negative offset: clears `eofbit`; does nothing
more on a failed stream; otherwise moves forward, or sets `failbit` when the buffer cannot seek. -/
def IStream.seekg (s : IStream) (off : Nat) : IStream :=
  if s.failbit then { s with eofbit := false }
  else if s.seekable then { s with rest := s.rest.drop off, eofbit := false }
  else { s with eofbit := false, failbit := true }

/-! ## Samples -/

/-- `SOUND::AudioSample`.  `fSample` lists the values written into the buffer allocated by the
decoder (its capacity is `nSamples * nChannels`). -/
structure AudioSample where
  wavHeader : jpr_WAVEFORMATEX
  fSample : List ℚ
  nSamples : Int
  nChannels : Int
  bSampleValid : Bool
deriving DecidableEq

/-- `jpr::rcode`. -/
inductive rcode where
  | FAIL
  | OK
deriving DecidableEq

/-- Result of running code that may leave defined behaviour or loop. -/
inductive Outcome (α : Type) where
  | ret (a : α)
  | undefined
  | outOfFuel
deriving DecidableEq

/-- The four-character tags the decoder compares against. -/
def tagRIFF : List Nat := [82, 73, 70, 70]

def tagWAVE : List Nat := [87, 65, 86, 69]

def tagData : List Nat := [100, 97, 116, 97]

/-- `SHRT_MAX`. -/
def SHRT_MAX : Int := 32767

/-- The normalisation `(float)s / (float)(SHRT_MAX)` of a `short`. -/
def normalise (s : Int) : ℚ := (s : ℚ) / (SHRT_MAX : ℚ)

/-- One pass through the body of the innermost conversion loop of `ReadWave`:
`short s = 0; if (!is.eof()) { is.read(&s, 2); *pSample = (float)s / (float)SHRT_MAX; pSample++; }`. -/
def convertOne (st : IStream × List ℚ) : IStream × List ℚ :=
  if st.1.eof then st
  else
    let r := st.1.read 2
    (r.2, st.2 ++ [normalise (toShort (overwrite [0, 0] r.1))])

/-- The conversion loops `for i < nSamples` / `for c < nChannels`. -/
def convertAll (nSamples nChannels : Nat) (st : IStream × List ℚ) : IStream × List ℚ :=
  (convertOne^[nChannels])^[nSamples] st

/-- The chunk search `while (strncmp(dump, "data", 4) != 0) { seekg; read; read; }`.
State: stream, `dump`, and the four bytes of `nChunksize`. -/
def scanChunks : Nat → IStream → List Nat → List Nat → Option (IStream × List Nat × List Nat)
  | 0, _, _, _ => none
  | fuel + 1, s, dump, size =>
    if dump.take 4 = tagData then some (s, dump, size)
    else
      let s1 := s.seekg (le32 size 0)
      let r1 := s1.read 4
      let r2 := r1.2.read 4
      scanChunks fuel r2.2 (overwrite dump r1.1) (overwrite size r2.1)

/-- The lambda `ReadWave` of `AudioSample::LoadFromFile`, run on the object `self`.
`dump0` is the content of the uninitialised local `dump`. -/
def ReadWave (fuel : Nat) (self : AudioSample) (dump0 : List Nat) (s0 : IStream) :
    Outcome (rcode × AudioSample) :=
  let r1 := s0.read 4
  let dump1 := overwrite dump0 r1.1
  if dump1.take 4 ≠ tagRIFF then .ret (.FAIL, self)
  else
    let r2 := r1.2.read 4
    let dump2 := overwrite dump1 r2.1
    let r3 := r2.2.read 4
    let dump3 := overwrite dump2 r3.1
    if dump3.take 4 ≠ tagWAVE then .ret (.FAIL, self)
    else
      let r4 := r3.2.read 4
      let dump4 := overwrite dump3 r4.1
      let r5 := r4.2.read 4
      let nHeaderSize := le32 (overwrite [0, 0, 0, 0] r5.1) 0
      let r6 := r5.2.read nHeaderSize
      if sizeofWaveFormat < r6.1.length then .undefined
      else
        let hdr := jpr_WAVEFORMATEX.ofBytes (overwrite self.wavHeader.toBytes r6.1)
        let self1 := { self with wavHeader := hdr }
        if hdr.wBitsPerSample ≠ 16 ∨ hdr.nSamplesPerSec ≠ 44100 then .ret (.FAIL, self1)
        else
          let r7 := r6.2.read 4
          let dump7 := overwrite dump4 r7.1
          let r8 := r7.2.read 4
          let size8 := overwrite [0, 0, 0, 0] r8.1
          match scanChunks fuel r8.2 dump7 size8 with
          | none => .outOfFuel
          | some (s9, _, size9) =>
            if hdr.nChannels * (hdr.wBitsPerSample >>> 3) = 0 then .undefined
            else
              let nSamples := le32 size9 0 / (hdr.nChannels * (hdr.wBitsPerSample >>> 3))
              let conv := convertAll nSamples hdr.nChannels (s9, [])
              .ret (.OK, { self1 with
                            nSamples := nSamples
                            nChannels := hdr.nChannels
                            fSample := conv.2
                            bSampleValid := true })

/-- A default-constructed `AudioSample`; the header member is left uninitialised by the
constructor, its content `hdr0` is whatever the memory held. -/
def AudioSample.new (hdr0 : jpr_WAVEFORMATEX) : AudioSample :=
  { wavHeader := hdr0, fSample := [], nSamples := 0, nChannels := 0, bSampleValid := false }

/-! ## Playback registry and mixer -/

/-- `SOUND::sCurrentlyPlayingSample`. -/
structure sCurrentlyPlayingSample where
  nAudioSampleID : Int
  nSamplePosition : Int
  bFinished : Bool
  bLoop : Bool
  bFlagForStop : Bool
deriving DecidableEq

/-- The static state of `SOUND` used by the mixer. -/
structure SOUND where
  vecAudioSamples : List AudioSample
  listActiveSamples : List sCurrentlyPlayingSample
  m_bAudioThreadActive : Bool
  funcUserSynth : Option (Int → ℚ → ℚ → ℚ)
  funcUserFilter : Option (Int → ℚ → ℚ → ℚ)

/-- `roundf`: nearest integer, halfway cases away from zero. -/
def roundf (x : ℚ) : Int :=
  if 0 ≤ x then Rat.floor (x + 1 / 2) else -Rat.floor (-x + 1 / 2)

/-- Nearest integer, a value halfway between two integers going to the even one: the rounding
of IEEE arithmetic. -/
def roundEven (x : ℚ) : Int :=
  if x - (Rat.floor x : ℚ) < 1 / 2 then Rat.floor x
  else if 1 / 2 < x - (Rat.floor x : ℚ) then Rat.floor x + 1
  else if Rat.floor x % 2 = 0 then Rat.floor x
  else Rat.floor x + 1

/-- The value of type `float` (IEEE binary32) nearest to `x`: 24 significant bits, with an
exponent not below -126, so that the smallest values are the multiples of `2^-149`.  Values
beyond the largest `float` (about `3.4e38`), where the program gets an infinity, are outside
the model: they are rounded like all others. -/
def fl32 (x : ℚ) : ℚ :=
  if x = 0 then 0
  else (roundEven (x / 2 ^ (max (Int.log 2 |x|) (-126) - 23)) : ℚ) *
    2 ^ (max (Int.log 2 |x|) (-126) - 23)

/-- Conversion of a floating value to `long`: the fractional part is discarded.  Values outside
the range of `long`, for which C++ leaves the conversion undefined, are outside the model. -/
def toLong (x : ℚ) : Int := if 0 ≤ x then Rat.floor x else -Rat.floor (-x)

/-- `vecAudioSamples[id - 1]`. -/
def sampleAt (vec : List AudioSample) (id : Int) : Option AudioSample :=
  if 1 ≤ id then vec[(id - 1).toNat]? else none

/-- `fSample[idx]`. -/
def readSample (a : AudioSample) (idx : Int) : Option ℚ :=
  if 0 ≤ idx then a.fSample[idx.toNat]? else none

namespace SOUND

/-- `SOUND::PlaySample`. -/
def PlaySample (st : SOUND) (id : Int) (bLoop : Bool) : SOUND :=
  { st with listActiveSamples := st.listActiveSamples ++
      [{ nAudioSampleID := id, nSamplePosition := 0, bFinished := false,
         bLoop := bLoop, bFlagForStop := false }] }

/-- The `find_if` / flag assignment of `StopSample` on the list. -/
def stopFirst (id : Int) : List sCurrentlyPlayingSample → List sCurrentlyPlayingSample
  | [] => []
  | s :: rest =>
    if s.nAudioSampleID = id then { s with bFlagForStop := true } :: rest
    else s :: stopFirst id rest

/-- `SOUND::StopSample`. -/
def StopSample (st : SOUND) (id : Int) : SOUND :=
  { st with listActiveSamples := stopFirst id st.listActiveSamples }

/-- `SOUND::StopAll`. -/
def StopAll (st : SOUND) : SOUND :=
  { st with listActiveSamples :=
      st.listActiveSamples.map (fun s => { s with bFlagForStop := true }) }

/-- `roundf((float)nSamplesPerSec * fTimeStep)` of the position update: the number of frames
one call moves an instance on.  `fTimeStep` is a parameter of type `float`; a rational that is
not a `float` stands for the `float` nearest to it. -/
def stepFrames (nSamplesPerSec : Nat) (fTimeStep : ℚ) : Int :=
  roundf (fl32 (fl32 (nSamplesPerSec : ℚ) * fl32 fTimeStep))

/-- `s.nSamplePosition += roundf(...)` with `nSamplePosition` a `long` and the right-hand side
a `float`: the position is converted to `float`, the sum is formed in `float`, and the result
is converted back to `long`. -/
def advance (nSamplesPerSec : Nat) (fTimeStep : ℚ) (nSamplePosition : Int) : Int :=
  toLong (fl32 (fl32 (nSamplePosition : ℚ) + (stepFrames nSamplesPerSec fTimeStep : ℚ)))

/-- Body of the loop of `GetMixerOutput` for one instance with the audio thread active:
the updated instance and the updated accumulator. -/
def mixInstance (vec : List AudioSample) (nChannel : Int) (fTimeStep : ℚ)
    (s : sCurrentlyPlayingSample) (fMixerSample : ℚ) : Option (sCurrentlyPlayingSample × ℚ) :=
  if s.bFlagForStop then
    some ({ s with bLoop := false, bFinished := true }, fMixerSample)
  else
    match sampleAt vec s.nAudioSampleID with
    | none => none
    | some a =>
      let pos := advance a.wavHeader.nSamplesPerSec fTimeStep s.nSamplePosition
      if pos < a.nSamples then
        match readSample a (pos * a.nChannels + nChannel) with
        | none => none
        | some v => some ({ s with nSamplePosition := pos }, fMixerSample + v)
      else if s.bLoop then
        some ({ s with nSamplePosition := 0 }, fMixerSample)
      else
        some ({ s with nSamplePosition := pos, bFinished := true }, fMixerSample)

/-- How the `for (auto &s : listActiveSamples)` loop ends: it runs to completion with the
accumulated value, or leaves the function through `return 0.0f`.  In both cases `l` is the
registry as the loop leaves it. -/
inductive LoopEnd where
  | completed (fMixerSample : ℚ) (l : List sCurrentlyPlayingSample)
  | returned (v : ℚ) (l : List sCurrentlyPlayingSample)

/-- Put an instance already visited in front of the registry of a loop result. -/
def LoopEnd.cons (s : sCurrentlyPlayingSample) : LoopEnd → LoopEnd
  | .completed acc l => .completed acc (s :: l)
  | .returned v l => .returned v (s :: l)

/-- The loop `for (auto &s : listActiveSamples)` of `GetMixerOutput`, from the instance at the
head of the list on, with `fMixerSample` accumulated so far. -/
def mixLoop (vec : List AudioSample) (active : Bool) (nChannel : Int) (fTimeStep : ℚ) :
    List sCurrentlyPlayingSample → ℚ → Option LoopEnd
  | [], fMixerSample => some (.completed fMixerSample [])
  | s :: rest, fMixerSample =>
    if active then
      match mixInstance vec nChannel fTimeStep s fMixerSample with
      | none => none
      | some (s1, acc1) => (mixLoop vec active nChannel fTimeStep rest acc1).map (LoopEnd.cons s1)
    else some (.returned 0 (s :: rest))

/-- `SOUND::GetMixerOutput`: the returned value and the state afterwards. -/
def GetMixerOutput (st : SOUND) (nChannel : Int) (fGlobalTime fTimeStep : ℚ) :
    Option (ℚ × SOUND) :=
  match mixLoop st.vecAudioSamples st.m_bAudioThreadActive nChannel fTimeStep
      st.listActiveSamples 0 with
  | none => none
  | some (.returned v l) => some (v, { st with listActiveSamples := l })
  | some (.completed acc l) =>
    let l1 := l.filter (fun s => !s.bFinished)
    let acc1 := match st.funcUserSynth with
      | some f => acc + f nChannel fGlobalTime fTimeStep
      | none => acc
    let out := match st.funcUserFilter with
      | some g => g nChannel fGlobalTime acc1
      | none => acc1
    some (out, { st with listActiveSamples := l1 })

/-! ### The loop body split into its two effects -/

/-- What one visit of the loop adds to `fMixerSample` for the instance `s`
(`none`: the visit reads outside the sample store or the sample buffer). -/
def contribution (vec : List AudioSample) (nChannel : Int) (fTimeStep : ℚ)
    (s : sCurrentlyPlayingSample) : Option ℚ :=
  if s.bFlagForStop then some 0
  else
    match sampleAt vec s.nAudioSampleID with
    | none => none
    | some a =>
      let pos := advance a.wavHeader.nSamplesPerSec fTimeStep s.nSamplePosition
      if pos < a.nSamples then readSample a (pos * a.nChannels + nChannel) else some 0

/-- The instance as one visit of the loop leaves it. -/
def visit (vec : List AudioSample) (fTimeStep : ℚ) (s : sCurrentlyPlayingSample) :
    sCurrentlyPlayingSample :=
  if s.bFlagForStop then { s with bLoop := false, bFinished := true }
  else
    match sampleAt vec s.nAudioSampleID with
    | none => s
    | some a =>
      let pos := advance a.wavHeader.nSamplesPerSec fTimeStep s.nSamplePosition
      if pos < a.nSamples then { s with nSamplePosition := pos }
      else if s.bLoop then { s with nSamplePosition := 0 }
      else { s with nSamplePosition := pos, bFinished := true }

/-- Sum of the contributions of a list of instances, defined when each of them is. -/
def allContrib (vec : List AudioSample) (nChannel : Int) (fTimeStep : ℚ) :
    List sCurrentlyPlayingSample → Option ℚ
  | [] => some 0
  | s :: rest =>
    match contribution vec nChannel fTimeStep s, allContrib vec nChannel fTimeStep rest with
    | some v, some w => some (v + w)
    | _, _ => none

/-- The registry after a completed loop and the `remove_if` that follows it. -/
def sweep (vec : List AudioSample) (fTimeStep : ℚ) (l : List sCurrentlyPlayingSample) :
    List sCurrentlyPlayingSample :=
  (l.map (visit vec fTimeStep)).filter (fun s => !s.bFinished)

/-- The user hooks applied to the mixed value: synthesiser added, then filter. -/
def applyHooks (st : SOUND) (nChannel : Int) (fGlobalTime fTimeStep : ℚ) (acc : ℚ) : ℚ :=
  let acc1 := match st.funcUserSynth with
    | some f => acc + f nChannel fGlobalTime fTimeStep
    | none => acc
  match st.funcUserFilter with
  | some g => g nChannel fGlobalTime acc1
  | none => acc1

/-! ### Quantities the specification speaks about -/

/-- A sample as the decoder leaves it after a stream with a complete data chunk: flagged valid,
44100 Hz, and every cell of the buffer of `nSamples * nChannels` values written. -/
def Loaded (a : AudioSample) : Prop :=
  a.bSampleValid = true ∧ a.wavHeader.nSamplesPerSec = 44100 ∧
    (a.fSample.length : Int) = a.nSamples * a.nChannels

/-- The sample an id refers to (a blank sample for an id outside the store). -/
def sampleOf (vec : List AudioSample) (id : Int) : AudioSample :=
  (sampleAt vec id).getD (AudioSample.new ⟨0, 0, 0, 0, 0, 0, 0⟩)

/-- The value `frames[idx]` of a sample (zero outside the written buffer). -/
def frameValue (a : AudioSample) (idx : Int) : ℚ := (readSample a idx).getD 0

/-- The position of an instance of a 44100 Hz sample after the position update of one call. -/
def advancedPos (dt : ℚ) (s : sCurrentlyPlayingSample) : Int :=
  advance 44100 dt s.nSamplePosition

/-- The instances that contribute: not stop-flagged and advanced position below `nSamples`. -/
def contributes (vec : List AudioSample) (dt : ℚ) (s : sCurrentlyPlayingSample) : Bool :=
  !s.bFlagForStop && decide (advancedPos dt s < (sampleOf vec s.nAudioSampleID).nSamples)

/-- The frame value `frames[p' * sampleChannels + ch]` an instance points at after advancing. -/
def frameOf (vec : List AudioSample) (ch : Int) (dt : ℚ) (s : sCurrentlyPlayingSample) : ℚ :=
  frameValue (sampleOf vec s.nAudioSampleID)
    (advancedPos dt s * (sampleOf vec s.nAudioSampleID).nChannels + ch)

/-- The mixed value `M`: the sum of `frameOf` over the contributing instances. -/
def mixSum (vec : List AudioSample) (l : List sCurrentlyPlayingSample) (ch : Int) (dt : ℚ) : ℚ :=
  ((l.filter (contributes vec dt)).map (frameOf vec ch dt)).sum

/-- Conditions under which every read of one mixer call is defined: each id names a loaded
sample with more channels than `ch`, and positions and the time step are not negative. -/
def MixReady (st : SOUND) (ch : Int) (dt : ℚ) : Prop :=
  0 ≤ ch ∧ 0 ≤ dt ∧ ∀ s ∈ st.listActiveSamples,
    0 ≤ s.nSamplePosition ∧
      ∃ a, sampleAt st.vecAudioSamples s.nAudioSampleID = some a ∧ Loaded a ∧ ch < a.nChannels

/-! ### Concrete data used to exercise the definitions -/

/-- Header of a mono 16-bit 44100 Hz PCM stream. -/
def monoHeader : jpr_WAVEFORMATEX :=
  { wFormatTag := 1, nChannels := 1, nSamplesPerSec := 44100, nAvgBytesPerSec := 88200,
    nBlockAlign := 2, wBitsPerSample := 16, cbSize := 0 }

/-- A loaded mono sample holding the given frames. -/
def monoSample (frames : List ℚ) : AudioSample :=
  { wavHeader := monoHeader, fSample := frames, nSamples := frames.length, nChannels := 1,
    bSampleValid := true }

/-- An engine with the given store, an empty registry, a running audio thread and no hooks. -/
def engine (vec : List AudioSample) : SOUND :=
  { vecAudioSamples := vec, listActiveSamples := [], m_bAudioThreadActive := true,
    funcUserSynth := none, funcUserFilter := none }

/-! ### Repeated mixer calls -/

/-- The state after `k` successive calls `GetMixerOutput(ch, ts 0, dt)`, ...,
`GetMixerOutput(ch, ts (k-1), dt)` together with the values they returned, in order. -/
def runMixer (ch : Int) (ts : Nat → ℚ) (dt : ℚ) : Nat → SOUND → Option (List ℚ × SOUND)
  | 0, st => some ([], st)
  | k + 1, st =>
    match runMixer ch ts dt k st with
    | none => none
    | some (outs, st1) =>
      match GetMixerOutput st1 ch (ts k) dt with
      | none => none
      | some (v, st2) => some (outs ++ [v], st2)

/-- An instance of sample `id` at position `p`, neither finished nor flagged for stop. -/
def playing (id : Int) (p : Int) (bLoop : Bool) : sCurrentlyPlayingSample :=
  { nAudioSampleID := id, nSamplePosition := p, bFinished := false, bLoop := bLoop,
    bFlagForStop := false }

/-- The engine `engine vec` with the registry replaced by `l`. -/
def engineWith (vec : List AudioSample) (l : List sCurrentlyPlayingSample) : SOUND :=
  { engine vec with listActiveSamples := l }

/-- The sample of the specification scenario: one second of mono silence with the value `v`
at frame 100. -/
def impulseSample (v : ℚ) : AudioSample :=
  monoSample (List.replicate 100 0 ++ v :: List.replicate 43999 0)

/-- A loaded mono sample of `2^24 + 2 = 16777218` frames, a little over 380 seconds of sound at
44100 Hz: silence with the value `1` at frame `2^24 = 16777216`. -/
def longSample : AudioSample :=
  monoSample (List.replicate 16777216 0 ++ 1 :: List.replicate 1 0)

/-- An instance stays in the registry over one mixer call: it is not finished already, not
flagged for stop, and its advanced position is inside the sample or it loops. -/
def survives (vec : List AudioSample) (fTimeStep : ℚ) (s : sCurrentlyPlayingSample) : Bool :=
  !s.bFinished && !s.bFlagForStop &&
    match sampleAt vec s.nAudioSampleID with
    | none => true
    | some a =>
      decide (advance a.wavHeader.nSamplesPerSec fTimeStep s.nSamplePosition < a.nSamples) ||
        s.bLoop

/-- Engine with sample `5, 7, 9` and three instances of it: a looping one flagged for stop, one
playing at frame 0 and one at frame 2 that runs out. -/
def stopEngine : SOUND :=
  engineWith [monoSample [5, 7, 9]]
    [{ playing 1 1 true with bFlagForStop := true }, playing 1 0 false, playing 1 2 false]


/-- Value returned by call number `j` (counting from 0) when a single looping instance of the
sample `a`, started at position 0, is stepped one frame per call: the frame at position
`(j + 1) mod nSamples`, and nothing in the call in which the position wraps to 0. -/
def loopOutput (a : AudioSample) (ch : Int) (j : Nat) : ℚ :=
  if (j + 1) % a.nSamples.toNat = 0 then 0
  else frameValue a ((((j + 1) % a.nSamples.toNat : Nat) : Int) * a.nChannels + ch)

/-- The engine states reachable from a state with an empty registry by `PlaySample` with the
id of a loaded sample, `StopSample`, `StopAll`, and `GetMixerOutput` calls that return, with a
time step that is not negative. -/
inductive Reachable : SOUND → Prop where
  | init (st : SOUND) (h : st.listActiveSamples = []) : Reachable st
  | play (st : SOUND) (id : Int) (bLoop : Bool) (a : AudioSample) (h : Reachable st)
      (ha : sampleAt st.vecAudioSamples id = some a) (hl : Loaded a) :
      Reachable (PlaySample st id bLoop)
  | stop (st : SOUND) (id : Int) (h : Reachable st) : Reachable (StopSample st id)
  | stopAll (st : SOUND) (h : Reachable st) : Reachable (StopAll st)
  | mix (st st1 : SOUND) (ch : Int) (t dt v : ℚ) (h : Reachable st) (hdt : 0 ≤ dt)
      (hm : GetMixerOutput st ch t dt = some (v, st1)) : Reachable st1

/-- A 44-byte WAV file: mono, 16 bit, 44100 Hz, with a data chunk of size 0. -/
def emptyWav : List Nat :=
  [82, 73, 70, 70, 36, 0, 0, 0, 87, 65, 86, 69,
   102, 109, 116, 32, 16, 0, 0, 0,
   1, 0, 1, 0, 68, 172, 0, 0, 136, 88, 1, 0, 2, 0, 16, 0,
   100, 97, 116, 97, 0, 0, 0, 0]

/-- The sample decoded from `emptyWav`: valid, with no frames. -/
def emptySample : AudioSample :=
  { wavHeader := monoHeader, fSample := [], nSamples := 0, nChannels := 1, bSampleValid := true }

/-- The position bound kept by the registry: the instance refers to a stored sample, its
position is not negative, it is below `nSamples` when the sample has a frame, and it is 0 when
the sample has none. -/
def PosInv (vec : List AudioSample) (s : sCurrentlyPlayingSample) : Prop :=
  ∃ a, sampleAt vec s.nAudioSampleID = some a ∧ 0 ≤ s.nSamplePosition ∧
    (0 < a.nSamples → s.nSamplePosition < a.nSamples) ∧
    (a.nSamples ≤ 0 → s.nSamplePosition = 0)



/-! ### Shape of a complete WAV stream -/

/-- A chunk the search skips: its tag and its body. -/
structure SkipChunk where
  tag : List Nat
  body : List Nat

/-- The bytes of a chunk: tag, little-endian size, body. -/
def SkipChunk.bytes (c : SkipChunk) : List Nat := c.tag ++ bytes32 c.body.length ++ c.body

/-- The bytes of a sequence of chunks. -/
def chunkBytes : List SkipChunk → List Nat
  | [] => []
  | c :: cs => c.bytes ++ chunkBytes cs

/-- A stream laid out as the decoder reads it: `RIFF`, four bytes, `WAVE`, a four-byte tag, the
size of the format structure, the structure, chunks to skip, then the `data` tag, the size `B`
and the remainder `tail` of the stream. -/
def wavStream (riffSize fmtTag hdr : List Nat) (chunks : List SkipChunk) (B : Nat)
    (tail : List Nat) : List Nat :=
  tagRIFF ++ (riffSize ++ (tagWAVE ++ (fmtTag ++ (bytes32 hdr.length ++ (hdr ++
    (chunkBytes chunks ++ (tagData ++ (bytes32 B ++ tail))))))))

/-- The `k`-th little-endian signed 16-bit value of a payload. -/
def payloadValue (payload : List Nat) (k : Nat) : Int := toShort (payload.drop (2 * k))

/-- A stream in the good state over the bytes `r`. -/
def goodStream (r : List Nat) (seekable : Bool) : IStream :=
  { rest := r, eofbit := false, failbit := false, seekable := seekable }

/-- The 16-byte format structure of a mono 16-bit 44100 Hz PCM file. -/
def monoHeaderBytes : List Nat := [1, 0, 1, 0, 68, 172, 0, 0, 136, 88, 1, 0, 2, 0, 16, 0]

/-- The tag `fmt `. -/
def tagFmt : List Nat := [102, 109, 116, 32]

/-- A small mono file: a `LIST` chunk of two bytes to skip, then a data chunk of four bytes
holding the values 1 and -32768. -/
def smallWav : List Nat :=
  wavStream [46, 0, 0, 0] tagFmt monoHeaderBytes [⟨[76, 73, 83, 84], [7, 8]⟩] 4 [1, 0, 0, 128]

/-- Every stored value is the normalisation of some `short`. -/
def AllShorts (acc : List ℚ) : Prop :=
  ∀ v ∈ acc, ∃ s : Int, -32768 ≤ s ∧ s ≤ 32767 ∧ v = normalise s


/-! ### The stream loop's conversion to 16-bit PCM (`AudioThread`) -/

/-- Conversion of an integer to `short` as two's complement hardware performs it. -/
def wrapShort (v : Int) : Int := (v + 32768) % 65536 - 32768

/-- The cast `(short)pow(2, 15)`.  The value 32768 is outside the range of `short`, and C++
leaves the conversion of such a floating value undefined; the compiler (g++) evaluates the
constant and clamps it to the range of the type, which is the behaviour embedded here. -/
def clampShort (v : Int) : Int := max (-32768) (min v 32767)

/-- `short nMaxSample = (short)pow(2, (sizeof(short) * 8) - 1) - 1;`: the cast binds tighter
than the subtraction, so 1 is taken off the clamped value 32767. -/
def nMaxSample : Int := wrapShort (clampShort (2 ^ (2 * 8 - 1)) - 1)

/-- `float fMaxSample = (float)nMaxSample;` -/
def fMaxSample : ℚ := (nMaxSample : ℚ)

/-- The lambda `clip` of `AudioThread`. -/
def clip (fSample fMax : ℚ) : ℚ :=
  if fSample ≥ 0 then min fSample fMax else max fSample (-fMax)

/-- The cast `(short)x` of a floating value within the range of `short`: the fractional part
is discarded. -/
def truncShort (x : ℚ) : Int := if 0 ≤ x then Rat.floor x else -Rat.floor (-x)

/-- `nNewSample = (short)(clip(GetMixerOutput(...), 1.0) * fMaxSample)` for the mixer
output `out`. -/
def quantise (out : ℚ) : Int := truncShort (clip out 1 * fMaxSample)

/-- The two bytes of a `short` in memory (two's complement, low byte first). -/
def shortBytes (s : Int) : List Nat := bytes16 (s % 65536).toNat

/-- The 16-bit PCM payload that encodes a buffer of float values: each value quantised as the
stream loop does and written as two bytes. -/
def encodePCM : List ℚ → List Nat
  | [] => []
  | x :: xs => shortBytes (quantise x) ++ encodePCM xs

/-- A stream that starts as the decoder reads it, `RIFF`, four bytes, `WAVE`, a four-byte tag,
the size of the format structure and the structure, and goes on with `rest`. -/
def headerStream (riffSize fmtTag hdr rest : List Nat) : List Nat :=
  tagRIFF ++ (riffSize ++ (tagWAVE ++ (fmtTag ++ (bytes32 hdr.length ++ (hdr ++ rest)))))

/-- The first 36 bytes of a mono 16-bit 44100 Hz file and nothing after them: `RIFF`, a size,
`WAVE`, `fmt `, the format structure, and no chunk at all. -/
def headerOnlyWav : List Nat := headerStream [28, 0, 0, 0] tagFmt monoHeaderBytes []

/-- A mono 16-bit 44100 Hz file whose only chunk after the format chunk is a `LIST` chunk of
two bytes; it has no data chunk. -/
def noDataWav : List Nat :=
  headerStream [38, 0, 0, 0] tagFmt monoHeaderBytes (chunkBytes [⟨[76, 73, 83, 84], [7, 8]⟩])

/-! ### Loading samples into the store -/

/-- `AudioSample::LoadFromFile` run on the object `self`.  `src` is the stream the function
reads: the one over the resource-pack entry, or the opened file; `none` when the file cannot
be opened. -/
def LoadFromFile (fuel : Nat) (self : AudioSample) (dump0 : List Nat) (src : Option IStream) :
    Outcome (rcode × AudioSample) :=
  match src with
  | some s => ReadWave fuel self dump0 s
  | none => .ret (.FAIL, self)

/-- The constructor `AudioSample(sWavFile, pack)`: a default-constructed sample on which
`LoadFromFile` is called, its return code being dropped. -/
def AudioSample.construct (fuel : Nat) (hdr0 : jpr_WAVEFORMATEX) (dump0 : List Nat)
    (src : Option IStream) : Outcome AudioSample :=
  match LoadFromFile fuel (AudioSample.new hdr0) dump0 src with
  | .ret r => .ret r.2
  | .undefined => .undefined
  | .outOfFuel => .outOfFuel

/-- `SOUND::LoadAudioSample`: the returned id and the state afterwards. -/
def LoadAudioSample (fuel : Nat) (st : SOUND) (hdr0 : jpr_WAVEFORMATEX) (dump0 : List Nat)
    (src : Option IStream) : Outcome (Int × SOUND) :=
  match AudioSample.construct fuel hdr0 dump0 src with
  | .ret a =>
    if a.bSampleValid then
      .ret (((st.vecAudioSamples ++ [a]).length : Int),
        { st with vecAudioSamples := st.vecAudioSamples ++ [a] })
    else .ret (-1, st)
  | .undefined => .undefined
  | .outOfFuel => .outOfFuel

/-- One request to load a sample: the prior content of the header member and of `dump`, and
the stream. -/
structure LoadRequest where
  hdr0 : jpr_WAVEFORMATEX
  dump0 : List Nat
  src : Option IStream

/-- A sequence of `LoadAudioSample` calls: the ids they return, in order, and the final
state. -/
def loadAll (fuel : Nat) : SOUND → List LoadRequest → Outcome (List Int × SOUND)
  | st, [] => .ret ([], st)
  | st, q :: qs =>
    match LoadAudioSample fuel st q.hdr0 q.dump0 q.src with
    | .ret r =>
      match loadAll fuel r.2 qs with
      | .ret rs => .ret (r.1 :: rs.1, rs.2)
      | .undefined => .undefined
      | .outOfFuel => .outOfFuel
    | .undefined => .undefined
    | .outOfFuel => .outOfFuel

/-! ### The block fill of `AudioThread` -/

/-- The static members of `SOUND` the stream loop works on: the mixer state, the configuration,
the global clock and the block memory. -/
structure Stream where
  snd : SOUND
  m_nSampleRate : Nat
  m_nChannels : Nat
  m_nBlockSamples : Nat
  m_fGlobalTime : ℚ
  m_pBlockMemory : List Int
  /-- `static float fTimeStep = 1.0f / (float)m_nSampleRate;`, a static local of the thread
  function: it is initialised when the function runs for the first time, from the sample rate
  of that moment, and keeps its value from then on, whatever the sample rate becomes.  A state
  written without this field is a state of that first run.  (A sample rate of 0, for which the
  program gets an infinity, is outside the model.) -/
  fTimeStep : ℚ := fl32 (1 / fl32 (m_nSampleRate : ℚ))

/-- `m_fGlobalTime = m_fGlobalTime + fTimeStep;` on the `float` clock: the new clock value. -/
def tick (fTimeStep fGlobalTime : ℚ) : ℚ := fl32 (fGlobalTime + fTimeStep)

/-- The arguments of one call `GetMixerOutput(nChannel, fGlobalTime, fTimeStep)`. -/
structure MixerCall where
  nChannel : Int
  fGlobalTime : ℚ
  fTimeStep : ℚ

/-- The loop `for (c = ...; c < m_nChannels; c++)` of the block fill at block index `n`, with
`k` channels still to do from channel `c` on; `base` is the offset of the block in the block
memory (`nCurrentBlock` in the Windows back end, 0 in the ALSA back end).  The result lists the
calls made to `GetMixerOutput`, in order, next to the state afterwards. -/
def channelLoop (base n : Nat) : Nat → Nat → Stream → Option (List MixerCall × Stream)
  | 0, _, s => some ([], s)
  | k + 1, c, s =>
    match GetMixerOutput s.snd c s.m_fGlobalTime s.fTimeStep with
    | none => none
    | some (out, snd1) =>
      if base + n + c < s.m_pBlockMemory.length then
        match channelLoop base n k (c + 1)
            { s with snd := snd1
                     m_pBlockMemory := s.m_pBlockMemory.set (base + n + c) (quantise out) } with
        | none => none
        | some (calls, s1) => some (⟨c, s.m_fGlobalTime, s.fTimeStep⟩ :: calls, s1)
      else none

/-- The loop `for (n = ...; n < m_nBlockSamples; n += m_nChannels)` of the block fill, from
index `n` on; it runs on fuel, since it does not advance when `m_nChannels` is 0. -/
def frameLoop (base : Nat) : Nat → Nat → Stream → Outcome (List MixerCall × Stream)
  | 0, n, s => if n < s.m_nBlockSamples then .outOfFuel else .ret ([], s)
  | fuel + 1, n, s =>
    if n < s.m_nBlockSamples then
      match channelLoop base n s.m_nChannels 0 s with
      | none => .undefined
      | some (calls, s1) =>
        match frameLoop base fuel (n + s.m_nChannels)
            { s1 with m_fGlobalTime := tick s1.fTimeStep s1.m_fGlobalTime } with
        | .ret r => .ret (calls ++ r.1, r.2)
        | .undefined => .undefined
        | .outOfFuel => .outOfFuel
    else .ret ([], s)

/-- The block fill of `AudioThread` for one block. -/
def fillBlock (fuel base : Nat) (s : Stream) : Outcome (List MixerCall × Stream) :=
  frameLoop base fuel 0 s

/-- The calls of `F` frames of `C` channels from clock value `t0` on: for each frame the
channels `0, ..., C-1` in order, all with the clock value of the frame, which is `t0` after
as many clock updates as frames went before. -/
def callSeq (C F : Nat) (t0 dt : ℚ) : List MixerCall :=
  (List.range F).flatMap (fun (j : Nat) =>
    (List.range C).map (fun (c : Nat) => ⟨(c : Int), Nat.iterate (tick dt) j t0, dt⟩))

/-- Conditions under which every mixer call of a block fill with `C` channels is defined: the
time step is not negative and every instance has a position that is not negative and refers to
a loaded sample with at least `C` channels. -/
def FrameReady (st : SOUND) (C : Nat) (dt : ℚ) : Prop :=
  0 ≤ dt ∧ ∀ s ∈ st.listActiveSamples,
    0 ≤ s.nSamplePosition ∧
      ∃ a, sampleAt st.vecAudioSamples s.nAudioSampleID = some a ∧ Loaded a ∧
        (C : Int) ≤ a.nChannels

/-- A stream configuration of `C` channels and `B` block samples at 44100 Hz with nothing
loaded and nothing playing, its clock at `t`, and a block buffer of `B` zeroed values (the
`new short[m_nBlockSamples]` of the ALSA initialisation). -/
def idleStream (C B : Nat) (t : ℚ) : Stream :=
  { snd := engine [], m_nSampleRate := 44100, m_nChannels := C, m_nBlockSamples := B,
    m_fGlobalTime := t, m_pBlockMemory := List.replicate B 0 }


/-! ### Decoder inputs with an unusual format chunk -/

/-- A complete 48-byte file that is not a PCM `fmt ` file: the chunk after `WAVE` is tagged
`JUNK` and its structure has `wFormatTag = 3` (IEEE float), one channel, 44100 Hz and 16 bits;
a data chunk of four bytes follows. -/
def junkFloatWav : List Nat :=
  wavStream [40, 0, 0, 0] [74, 85, 78, 75]
    [3, 0, 1, 0, 68, 172, 0, 0, 136, 88, 1, 0, 2, 0, 16, 0] [] 4 [1, 0, 0, 128]


/-! ### A frame of several channel calls -/

/-- A mono 16-bit 44100 Hz file whose data chunk declares four bytes (two values) while the
file ends after the first value. -/
def truncatedWav : List Nat :=
  wavStream [38, 0, 0, 0] tagFmt monoHeaderBytes [] 4 [1, 0]


/-! ### Delivery of a block in the ALSA back end (`AudioThread`) -/

/-- `EAGAIN` of `<errno.h>` (Linux). -/
def EAGAIN : Int := 11

/-- `EPIPE` of `<errno.h>` (Linux). -/
def EPIPE : Int := 32

/-- State of the loop that sends one block to the device: the offset of `pBlockPos` from
`m_pBlockMemory` (counted in `short`s), `nLeft`, the arguments (offset, frame count) of the
`snd_pcm_writei` calls made so far, and the number of `snd_pcm_prepare` calls made so far. -/
structure WriteState where
  pBlockPos : Nat
  nLeft : Nat
  writes : List (Nat × Nat)
  nPrepares : Nat
deriving DecidableEq

/-- One pass through the body of `while (nLeft > 0)`; `rc` is what the call
`snd_pcm_writei(m_pPCM, pBlockPos, nLeft)` returns.  `rc * m_nChannels` is computed in
`unsigned int`, `nLeft -= rc` in `snd_pcm_uframes_t` (64 bits). -/
def writeBody (m_nChannels : Nat) (rc : Int) (s : WriteState) : WriteState :=
  let s1 : WriteState := { s with writes := s.writes ++ [(s.pBlockPos, s.nLeft)] }
  let s2 : WriteState :=
    if rc > 0 then
      { s1 with pBlockPos := s1.pBlockPos + ((rc % 2 ^ 32).toNat * m_nChannels) % 2 ^ 32,
                nLeft := (((s1.nLeft : Int) - rc) % 2 ^ 64).toNat }
    else s1
  if rc = -EAGAIN then s2
  else if rc = -EPIPE then { s2 with nPrepares := s2.nPrepares + 1 }
  else s2

/-- The loop `while (nLeft > 0)` fed with the values the successive `snd_pcm_writei` calls
return: the state in which the loop has exited (`nLeft = 0`) or, when the responses run out
first, in which it makes its next call, together with the responses it has not used. -/
def writeLoop (m_nChannels : Nat) : List Int → WriteState → WriteState × List Int
  | [], s => (s, [])
  | rc :: rest, s =>
    if 0 < s.nLeft then writeLoop m_nChannels rest (writeBody m_nChannels rc s)
    else (s, rc :: rest)

/-- The state set up before the loop: `nLeft = m_nBlockSamples; pBlockPos = m_pBlockMemory`. -/
def writeStart (m_nBlockSamples : Nat) : WriteState :=
  { pBlockPos := 0, nLeft := m_nBlockSamples, writes := [], nPrepares := 0 }

/-- The frames the device accepted in a sequence of responses: the sum of the positive ones. -/
def acceptedFrames : List Int → Nat
  | [] => 0
  | rc :: rest => (if rc > 0 then rc.toNat else 0) + acceptedFrames rest

/-- The responses of the device sink with `left` frames still to deliver: busy (`-EAGAIN`),
underrun (`-EPIPE`), or `r` frames accepted with `1 <= r <= left`. -/
def SinkResponses : Nat → List Int → Prop
  | _, [] => True
  | left, rc :: rest =>
    (rc = -EAGAIN ∧ SinkResponses left rest) ∨ (rc = -EPIPE ∧ SinkResponses left rest) ∨
      (1 ≤ rc ∧ rc ≤ (left : Int) ∧ SinkResponses (left - rc.toNat) rest)

/-! ### Start and shutdown of the ALSA back end -/

/-- The static members `InitialiseAudio` and `DestroyAudio` work on: the mixer state, the
configuration, the block memory (`none` for `nullptr`), whether `m_AudioThread` is joinable
(a thread of execution belongs to it), whether the PCM handle has been opened, and the number
of `snd_pcm_writei` calls made to prime the device. -/
structure AudioSystem where
  snd : SOUND
  m_nSampleRate : Nat
  m_nChannels : Nat
  m_nBlockSamples : Nat
  m_pBlockMemory : Option (List Int)
  threadJoinable : Bool
  pcmOpen : Bool
  nPrimeWrites : Nat

/-- What leaves a function instead of a return value: a `std::system_error` exception, or
the call of `std::terminate`. -/
inductive Thrown where
  | system_error
  | terminate
deriving DecidableEq

/-- The state of the static members before the first `InitialiseAudio`: `m_AudioThread` is
default-constructed, so no thread belongs to it. -/
def AudioSystem.initial : AudioSystem :=
  { snd := { vecAudioSamples := [], listActiveSamples := [], m_bAudioThreadActive := false,
             funcUserSynth := none, funcUserFilter := none },
    m_nSampleRate := 0, m_nChannels := 0, m_nBlockSamples := 0, m_pBlockMemory := none,
    threadJoinable := false, pcmOpen := false, nPrimeWrites := 0 }

/-- `m_AudioThread.join()` as the C++ standard library defines it: on a thread object that is
not joinable it throws `std::system_error` (`invalid_argument`); on a joinable one it returns
when the thread has ended (the stream loop ends once `m_bAudioThreadActive` is false), and the
object is no longer joinable. -/
def threadJoin (sys : AudioSystem) : Except Thrown AudioSystem :=
  if sys.threadJoinable then .ok { sys with threadJoinable := false }
  else .error .system_error

/-- `SOUND::DestroyAudio` of the ALSA back end. -/
def DestroyAudio (sys : AudioSystem) : Except Thrown (Bool × AudioSystem) :=
  let sys1 : AudioSystem := { sys with snd := { sys.snd with m_bAudioThreadActive := false } }
  match threadJoin sys1 with
  | .error e => .error e
  | .ok sys2 => .ok (false, { sys2 with pcmOpen := false })

/-- `SOUND::InitialiseAudio` of the ALSA back end.  `rcOpen` and `rcParams` are the values
returned by `snd_pcm_open` and `snd_pcm_hw_params`.  (`new short[...]` does not return
`nullptr`; the assignment to a joinable `m_AudioThread` calls `std::terminate`.) -/
def InitialiseAudio (sys : AudioSystem) (nSampleRate nChannels nBlocks nBlockSamples : Nat)
    (rcOpen rcParams : Int) : Except Thrown (Bool × AudioSystem) :=
  let sys1 : AudioSystem :=
    { sys with snd := { sys.snd with m_bAudioThreadActive := false },
               m_nSampleRate := nSampleRate, m_nChannels := nChannels,
               m_nBlockSamples := nBlockSamples, m_pBlockMemory := none }
  if rcOpen < 0 then DestroyAudio sys1
  else
    let sys2 : AudioSystem := { sys1 with pcmOpen := true }
    if rcParams < 0 then DestroyAudio sys2
    else
      let sys3 : AudioSystem :=
        { sys2 with snd := { sys2.snd with listActiveSamples := [] },
                    m_pBlockMemory := some (List.replicate nBlockSamples 0) }
      if sys3.threadJoinable then .error .terminate
      else
        .ok (true, { sys3 with snd := { sys3.snd with m_bAudioThreadActive := true },
                               threadJoinable := true,
                               nPrimeWrites := sys3.nPrimeWrites + nBlocks })


end SOUND

/-! ## Popup menu (`rge_popUpMenu.h`): cursor navigation of `jpr::popup::Menu`

`int32_t` values are `Int`, the results of `int32_t` arithmetic are wrapped to 32 bits
(`toInt32`); `size_t` arithmetic is done on `Nat` modulo `2^64`.  The members used only for
drawing and for the lookup of items by name (`itemPointer`, `vPatchSize`, `vCursorPos`) are
left out. -/

namespace popup

/-- `jpr::vi2d`. -/
structure vi2d where
  x : Int
  y : Int
deriving DecidableEq

/-- Conversion of an integer value to `int32_t` (two's complement wrap). -/
def toInt32 (v : Int) : Int := (v + 2 ^ 31) % 2 ^ 32 - 2 ^ 31

/-- Conversion of an `int32_t` to `size_t`. -/
def toSizeT (v : Int) : Nat := (v % 2 ^ 64).toNat

/-- `jpr::popup::Menu`. -/
structure Menu where
  nID : Int
  vCellTable : vi2d
  items : List Menu
  vSizeInPatches : vi2d
  vCellSize : vi2d
  vCellPadding : vi2d
  vCellCursor : vi2d
  nCursorItem : Int
  nTopVisibleRow : Int
  nTotalRows : Int
  sName : String
  bEnabled : Bool

/-- The constructor `Menu(n)` with the default member initialisers. -/
def Menu.new (n : String) : Menu :=
  { nID := -1, vCellTable := ⟨1, 0⟩, items := [], vSizeInPatches := ⟨0, 0⟩,
    vCellSize := ⟨0, 0⟩, vCellPadding := ⟨2, 0⟩, vCellCursor := ⟨0, 0⟩, nCursorItem := 0,
    nTopVisibleRow := 0, nTotalRows := 0, sName := n, bEnabled := true }

/-- `Menu::SetTable`. -/
def Menu.SetTable (m : Menu) (nColumns nRows : Int) : Menu :=
  { m with vCellTable := ⟨nColumns, nRows⟩ }

/-- `Menu::HasChildren`. -/
def Menu.HasChildren (m : Menu) : Bool := !m.items.isEmpty

/-- `Menu::GetSize`. -/
def Menu.GetSize (m : Menu) : vi2d := ⟨toInt32 m.sName.utf8ByteSize, 1⟩

/-- The last statement of `Menu::Build`:
`nTotalRows = (items.size() / vCellTable.x) + (((items.size() % vCellTable.x) > 0) ? 1 : 0)`,
computed in `size_t`; `none` for a division by zero. -/
def totalRows (size : Nat) (cols : Int) : Option Int :=
  if toSizeT cols = 0 then none
  else some (toInt32 ((size / toSizeT cols + (if size % toSizeT cols > 0 then 1 else 0) : Nat)))

mutual

/-- `Menu::Build`. -/
def Menu.Build : Menu → Option Menu
  | ⟨nID, vCellTable, items, _, vCellSize, vCellPadding, vCellCursor, nCursorItem,
      nTopVisibleRow, _, sName, bEnabled⟩ =>
    match buildItems items vCellSize with
    | none => none
    | some (items1, vCellSize1) =>
      match totalRows items1.length vCellTable.x with
      | none => none
      | some rows =>
        some
          { nID := nID, vCellTable := vCellTable, items := items1,
            vSizeInPatches :=
              ⟨toInt32 (vCellTable.x * vCellSize1.x + (vCellTable.x - 1) * vCellPadding.x + 2),
               toInt32 (vCellTable.y * vCellSize1.y + (vCellTable.y - 1) * vCellPadding.y + 2)⟩,
            vCellSize := vCellSize1, vCellPadding := vCellPadding, vCellCursor := vCellCursor,
            nCursorItem := nCursorItem, nTopVisibleRow := nTopVisibleRow, nTotalRows := rows,
            sName := sName, bEnabled := bEnabled }

/-- The loop `for (auto &m : items)` of `Menu::Build`: the items after the loop and the cell
size it has accumulated. -/
def buildItems : List Menu → vi2d → Option (List Menu × vi2d)
  | [], vCellSize => some ([], vCellSize)
  | m :: rest, vCellSize =>
    match (if m.HasChildren then m.Build else some m) with
    | none => none
    | some m1 =>
      match buildItems rest
          ⟨max m1.GetSize.x vCellSize.x, max m1.GetSize.y vCellSize.y⟩ with
      | none => none
      | some (rest1, vCellSize1) => some (m1 :: rest1, vCellSize1)

end

/-- `Menu::ClampCursor`; `none` for a division by zero. -/
def Menu.ClampCursor (m : Menu) : Option Menu :=
  let nCursorItem := toInt32 (m.vCellCursor.y * m.vCellTable.x + m.vCellCursor.x)
  if nCursorItem ≥ toInt32 m.items.length then
    if toSizeT m.vCellTable.x = 0 then none
    else
      some { m with
        vCellCursor :=
          ⟨toInt32 ((((m.items.length % toSizeT m.vCellTable.x : Nat) : Int) - 1) % 2 ^ 64),
           toInt32 ((m.items.length / toSizeT m.vCellTable.x : Nat))⟩,
        nCursorItem := toInt32 (((m.items.length : Int) - 1) % 2 ^ 64) }
  else some { m with nCursorItem := nCursorItem }

/-- `Menu::OnUp`. -/
def Menu.OnUp (m : Menu) : Option Menu :=
  let y := toInt32 (m.vCellCursor.y - 1)
  let y1 := if y < 0 then 0 else y
  let top :=
    if y1 < m.nTopVisibleRow then
      (if toInt32 (m.nTopVisibleRow - 1) < 0 then 0 else toInt32 (m.nTopVisibleRow - 1))
    else m.nTopVisibleRow
  Menu.ClampCursor { m with vCellCursor := ⟨m.vCellCursor.x, y1⟩, nTopVisibleRow := top }

/-- `Menu::OnDown`. -/
def Menu.OnDown (m : Menu) : Option Menu :=
  let y := toInt32 (m.vCellCursor.y + 1)
  let y1 := if y = m.nTotalRows then toInt32 (m.nTotalRows - 1) else y
  let top :=
    if y1 > toInt32 (toInt32 (m.nTopVisibleRow + m.vCellTable.y) - 1) then
      (if toInt32 (m.nTopVisibleRow + 1) > toInt32 (m.nTotalRows - m.vCellTable.y) then
        toInt32 (m.nTotalRows - m.vCellTable.y)
      else toInt32 (m.nTopVisibleRow + 1))
    else m.nTopVisibleRow
  Menu.ClampCursor { m with vCellCursor := ⟨m.vCellCursor.x, y1⟩, nTopVisibleRow := top }

/-- `Menu::OnLeft`. -/
def Menu.OnLeft (m : Menu) : Option Menu :=
  let x := toInt32 (m.vCellCursor.x - 1)
  Menu.ClampCursor { m with vCellCursor := ⟨if x < 0 then 0 else x, m.vCellCursor.y⟩ }

/-- `Menu::OnRight`. -/
def Menu.OnRight (m : Menu) : Option Menu :=
  let x := toInt32 (m.vCellCursor.x + 1)
  Menu.ClampCursor
    { m with vCellCursor :=
        ⟨if x = m.vCellTable.x then toInt32 (m.vCellTable.x - 1) else x, m.vCellCursor.y⟩ }

/-- `items[nCursorItem]`; `none` outside the vector. -/
def Menu.itemAtCursor (m : Menu) : Option Menu :=
  m.items[toSizeT m.nCursorItem]?

/-- `Menu::GetSelectedItem`: the item the returned pointer refers to. -/
def Menu.GetSelectedItem (m : Menu) : Option Menu := m.itemAtCursor

/-- `Menu::OnConfirm`: the menu the returned pointer refers to, the selected item when it has
children and the menu itself otherwise. -/
def Menu.OnConfirm (m : Menu) : Option Menu :=
  match m.itemAtCursor with
  | none => none
  | some it => if it.HasChildren then some it else some m

/-- The four cursor keys. -/
inductive Key where
  | up
  | down
  | left
  | right
deriving DecidableEq

/-- The handler of one key. -/
def Menu.press (m : Menu) : Key → Option Menu
  | .up => m.OnUp
  | .down => m.OnDown
  | .left => m.OnLeft
  | .right => m.OnRight

/-- A sequence of key presses, in order. -/
def Menu.pressAll : Menu → List Key → Option Menu
  | m, [] => some m
  | m, k :: ks =>
    match m.press k with
    | none => none
    | some m1 => m1.pressAll ks

/-- The rows needed for `size` items in `cols` columns: `ceil(size / cols)`. -/
def ceilRows (size cols : Nat) : Nat := (size + cols - 1) / cols

/-- The property the navigation keeps: the cursor cell lies in the table, `nCursorItem` is its
index and names an existing item. -/
def CursorOk (m : Menu) : Prop :=
  0 ≤ m.vCellCursor.x ∧ m.vCellCursor.x < m.vCellTable.x ∧
  0 ≤ m.vCellCursor.y ∧ m.vCellCursor.y < m.nTotalRows ∧
  m.nCursorItem = m.vCellCursor.y * m.vCellTable.x + m.vCellCursor.x ∧
  0 ≤ m.nCursorItem ∧ m.nCursorItem < (m.items.length : Int)

/-- What the navigation keeps on a built menu of `n` items in `c` columns: the table width,
the items and the row count stay as `Build` left them, and the cursor is on an item. -/
def NavInv (n c : Nat) (m : Menu) : Prop :=
  m.vCellTable.x = (c : Int) ∧ m.items.length = n ∧ m.nTotalRows = (ceilRows n c : Int) ∧
    CursorOk m

/-- A menu of five named items in a table of two columns and two visible rows. -/
def sampleMenu : Menu :=
  { Menu.new "main" with
    vCellTable := ⟨2, 2⟩,
    items := [Menu.new "a", Menu.new "b", Menu.new "c", Menu.new "d", Menu.new "e"] }

end popup

/-! ## Theorems -/

namespace SOUND

theorem floor_intCast (n : Int) : Rat.floor (n : ℚ) = n := by
  have : Rat.floor (n : ℚ) = ⌊(n : ℚ)⌋ := rfl
  rw [this, Int.floor_intCast]

theorem roundEven_intCast (n : Int) : roundEven (n : ℚ) = n := by
  unfold roundEven
  rw [floor_intCast]
  simp

theorem roundEven_nonneg (x : ℚ) (hx : 0 ≤ x) : 0 ≤ roundEven x := by
  have hf : 0 ≤ Rat.floor x := by
    have : Rat.floor x = ⌊x⌋ := rfl
    rw [this]
    exact Int.floor_nonneg.mpr hx
  unfold roundEven
  split
  · exact hf
  · split
    · omega
    · split <;> omega

theorem fl32_nonneg (x : ℚ) (hx : 0 ≤ x) : 0 ≤ fl32 x := by
  unfold fl32
  split
  · exact le_refl 0
  · apply mul_nonneg
    · exact_mod_cast roundEven_nonneg _ (div_nonneg hx (by positivity))
    · positivity

theorem int_log_eq (r : ℚ) (z : Int) (h1 : (2 : ℚ) ^ z ≤ r) (h2 : r < (2 : ℚ) ^ (z + 1)) :
    Int.log 2 r = z := by
  have hr : 0 < r := lt_of_lt_of_le (by positivity) h1
  have a : z ≤ Int.log 2 r := (Int.zpow_le_iff_le_log (by norm_num) hr).mp (by exact_mod_cast h1)
  have b : Int.log 2 r < z + 1 := (Int.lt_zpow_iff_log_lt (by norm_num) hr).mp (by exact_mod_cast h2)
  omega


theorem fl32_of_exact (x : ℚ) (m : Int)
    (h : x / 2 ^ (max (Int.log 2 |x|) (-126) - 23) = (m : ℚ)) : fl32 x = x := by
  unfold fl32
  split
  · rename_i h0
    exact h0.symm
  · rw [h, roundEven_intCast, ← h]
    exact div_mul_cancel₀ _ (by positivity)

theorem fl32_intCast (n : Int) (h0 : -16777216 ≤ n) (h1 : n ≤ 16777216) :
    fl32 (n : ℚ) = (n : ℚ) := by
  by_cases hn : n = 0
  · subst hn
    simp [fl32]
  · have habs : |(n : ℚ)| = ((|n| : Int) : ℚ) := (Int.cast_abs).symm
    have h1a : (1 : Int) ≤ |n| := Int.one_le_abs hn
    have h2a : |n| ≤ 16777216 := abs_le.mpr ⟨h0, h1⟩
    have hpos : (0 : ℚ) < |(n : ℚ)| := by rw [habs]; exact_mod_cast (by omega : (0 : Int) < |n|)
    have hL0 : 0 ≤ Int.log 2 |(n : ℚ)| := by
      apply (Int.zpow_le_iff_le_log (by norm_num) hpos).mp
      rw [habs]
      simp only [zpow_zero]
      exact_mod_cast h1a
    have hL1 : Int.log 2 |(n : ℚ)| < 25 := by
      apply (Int.lt_zpow_iff_log_lt (by norm_num) hpos).mp
      rw [habs]
      have : ((|n| : Int) : ℚ) ≤ 16777216 := by exact_mod_cast h2a
      norm_num
      linarith
    have hmax : max (Int.log 2 |(n : ℚ)|) (-126) = Int.log 2 |(n : ℚ)| := max_eq_left (by omega)
    by_cases hL : Int.log 2 |(n : ℚ)| ≤ 23
    · apply fl32_of_exact _ (n * 2 ^ (23 - Int.log 2 |(n : ℚ)|).toNat)
      rw [hmax]
      have hk : Int.log 2 |(n : ℚ)| - 23 = -(((23 - Int.log 2 |(n : ℚ)|).toNat : Nat) : Int) := by
        omega
      rw [hk, zpow_neg, zpow_natCast, div_inv_eq_mul]
      push_cast
      rfl
    · have hL24 : Int.log 2 |(n : ℚ)| = 24 := by omega
      have hlow : (2 : ℚ) ^ (24 : Int) ≤ |(n : ℚ)| := by
        have := Int.zpow_log_le_self (b := 2) (r := |(n : ℚ)|) (by norm_num) hpos
        rw [hL24] at this
        exact_mod_cast this
      rw [habs] at hlow
      have hlow2 : (16777216 : Int) ≤ |n| := by
        have : ((16777216 : Int) : ℚ) ≤ ((|n| : Int) : ℚ) := by
          norm_num at hlow ⊢
          exact hlow
        exact_mod_cast this
      have heq : |n| = 16777216 := by omega
      apply fl32_of_exact _ (n / 2)
      rw [hmax, hL24]
      rcases abs_eq (by norm_num : (0 : Int) ≤ 16777216) |>.mp heq with h | h
      · subst h; norm_num
      · subst h; norm_num

theorem fl32_natCast (n : Nat) (h : n ≤ 16777216) : fl32 (n : ℚ) = (n : ℚ) := by
  have := fl32_intCast (n : Int) (by omega) (by omega)
  simpa using this

theorem fl32_eval (x : ℚ) (z m : Int) (h1 : (2 : ℚ) ^ z ≤ |x|) (h2 : |x| < (2 : ℚ) ^ (z + 1))
    (hz : -126 ≤ z) (hm : roundEven (x / 2 ^ (z - 23)) = m) :
    fl32 x = (m : ℚ) * 2 ^ (z - 23) := by
  have hx : x ≠ 0 := by
    intro h
    rw [h, abs_zero] at h1
    exact absurd h1 (not_le.mpr (by positivity))
  unfold fl32
  rw [if_neg hx, int_log_eq _ z h1 h2, max_eq_left hz, hm]

theorem roundEven_eval (x : ℚ) (f : Int) (h0 : (f : ℚ) ≤ x) (h1 : x < (f : ℚ) + 1 / 2) :
    roundEven x = f := by
  have hf : Rat.floor x = f := by
    have : Rat.floor x = ⌊x⌋ := rfl
    rw [this, Int.floor_eq_iff]
    constructor
    · exact h0
    · linarith
  unfold roundEven
  rw [hf, if_pos (by linarith)]

theorem roundEven_eval_up (x : ℚ) (f : Int) (h0 : (f : ℚ) - 1 / 2 < x) (h1 : x ≤ (f : ℚ)) :
    roundEven x = f := by
  rcases eq_or_lt_of_le h1 with h | h
  · rw [h]; exact roundEven_intCast f
  · have hf : Rat.floor x = f - 1 := by
      have : Rat.floor x = ⌊x⌋ := rfl
      rw [this, Int.floor_eq_iff]
      push_cast
      constructor <;> linarith
    unfold roundEven
    rw [hf, if_neg (by push_cast; linarith), if_pos (by push_cast; linarith)]
    ring

theorem fl32_timeStep : fl32 (1 / 44100) = 12466118 / 549755813888 := by
  rw [fl32_eval (1 / 44100) (-16) 12466118 (by norm_num [abs_of_pos]) (by norm_num [abs_of_pos])
    (by norm_num) (roundEven_eval _ _ (by norm_num) (by norm_num))]
  norm_num

theorem fl32_one_frame : fl32 (44100 * (12466118 / 549755813888)) = 1 := by
  rw [fl32_eval _ (-1) 16777216 (by norm_num [abs_of_pos]) (by norm_num [abs_of_pos])
    (by norm_num) (roundEven_eval_up _ _ (by norm_num) (by norm_num))]
  norm_num

theorem fl32_stall : fl32 (16777216 + 1) = 16777216 := by
  have hm : roundEven ((16777216 + 1 : ℚ) / 2 ^ ((24 : Int) - 23)) = 8388608 := by
    have hf : Rat.floor ((16777216 + 1 : ℚ) / 2 ^ ((24 : Int) - 23)) = 8388608 := by
      have : ∀ z : ℚ, Rat.floor z = ⌊z⌋ := fun _ => rfl
      rw [this, Int.floor_eq_iff]
      norm_num
    unfold roundEven
    rw [hf]
    norm_num
  rw [fl32_eval _ 24 8388608 (by norm_num [abs_of_pos]) (by norm_num [abs_of_pos])
    (by norm_num) hm]
  norm_num

theorem roundf_nonneg (x : ℚ) (hx : 0 ≤ x) : 0 ≤ roundf x := by
  unfold roundf
  rw [if_pos hx]
  apply Rat.le_floor.mpr
  have : (0 : ℚ) ≤ x + 1 / 2 := by linarith
  simpa using this

theorem roundf_one : roundf 1 = 1 := by
  norm_num [roundf, Rat.floor_def']

theorem toLong_intCast (n : Int) : toLong (n : ℚ) = n := by
  unfold toLong
  split
  · exact floor_intCast n
  · rw [← Int.cast_neg, floor_intCast]
    ring

theorem toLong_nonneg (x : ℚ) (hx : 0 ≤ x) : 0 ≤ toLong x := by
  unfold toLong
  rw [if_pos hx]
  exact Rat.le_floor.mpr (by simpa using hx)

theorem stepFrames_nonneg (rate : Nat) (dt : ℚ) (hdt : 0 ≤ dt) : 0 ≤ stepFrames rate dt := by
  unfold stepFrames
  apply roundf_nonneg
  apply fl32_nonneg
  exact mul_nonneg (fl32_nonneg _ (by positivity)) (fl32_nonneg _ hdt)

theorem advance_nonneg (rate : Nat) (dt : ℚ) (p : Int) (hdt : 0 ≤ dt) (hp : 0 ≤ p) :
    0 ≤ advance rate dt p := by
  unfold advance
  apply toLong_nonneg
  apply fl32_nonneg
  have h1 : (0 : ℚ) ≤ fl32 (p : ℚ) := fl32_nonneg _ (by exact_mod_cast hp)
  have h2 : (0 : ℚ) ≤ (stepFrames rate dt : ℚ) := by exact_mod_cast stepFrames_nonneg rate dt hdt
  linarith

/-- As long as the sum does not exceed `2^24`, the position update adds the step exactly. -/
theorem advance_exact (rate : Nat) (dt : ℚ) (p : Int) (hp : 0 ≤ p)
    (hr : 0 ≤ stepFrames rate dt) (h : p + stepFrames rate dt ≤ 16777216) :
    advance rate dt p = p + stepFrames rate dt := by
  unfold advance
  rw [fl32_intCast p (by omega) (by omega), ← Int.cast_add,
    fl32_intCast (p + stepFrames rate dt) (by omega) h, toLong_intCast]

theorem stepFrames_one : stepFrames 44100 (1 / 44100) = 1 := by
  unfold stepFrames
  have h : fl32 ((44100 : ℕ) : ℚ) = 44100 := by
    have := fl32_natCast 44100 (by norm_num)
    simpa using this
  rw [h, fl32_timeStep, fl32_one_frame, roundf_one]

theorem advance_frame (p : Int) (hp : 0 ≤ p) (h : p < 16777216) :
    advance 44100 (1 / 44100) p = p + 1 := by
  rw [advance_exact 44100 (1 / 44100) p hp (by rw [stepFrames_one]; norm_num)
    (by rw [stepFrames_one]; omega), stepFrames_one]

/-- At position `2^24` the sum `2^24 + 1` is not a `float`; it is rounded back to `2^24`. -/
theorem advance_stall : advance 44100 (1 / 44100) 16777216 = 16777216 := by
  unfold advance
  rw [stepFrames_one]
  have h : fl32 ((16777216 : Int) : ℚ) = 16777216 := by
    have := fl32_intCast 16777216 (by norm_num) (by norm_num)
    simpa using this
  rw [h]
  have h2 : ((16777216 : ℚ) + ((1 : Int) : ℚ)) = 16777216 + 1 := by norm_num
  rw [h2, fl32_stall]
  have := toLong_intCast 16777216
  simpa using this

theorem mixInstance_eq (vec : List AudioSample) (ch : Int) (dt : ℚ)
    (s : sCurrentlyPlayingSample) (acc : ℚ) :
    mixInstance vec ch dt s acc =
      (contribution vec ch dt s).map (fun v => (visit vec dt s, acc + v)) := by
  unfold mixInstance contribution visit
  by_cases hs : s.bFlagForStop = true
  · simp [hs]
  · simp only [hs, Bool.false_eq_true, if_false]
    cases hA : sampleAt vec s.nAudioSampleID with
    | none => simp
    | some a =>
      simp only
      by_cases hp : advance a.wavHeader.nSamplesPerSec dt s.nSamplePosition < a.nSamples
      · simp only [hp, if_true]
        cases readSample a
          (advance a.wavHeader.nSamplesPerSec dt s.nSamplePosition * a.nChannels + ch) <;> simp
      · simp only [hp, if_false]
        by_cases hl : s.bLoop = true <;> simp [hl]

theorem mixLoop_active (vec : List AudioSample) (ch : Int) (dt : ℚ)
    (l : List sCurrentlyPlayingSample) (acc : ℚ) :
    mixLoop vec true ch dt l acc =
      (allContrib vec ch dt l).map (fun w => LoopEnd.completed (acc + w) (l.map (visit vec dt))) := by
  induction l generalizing acc with
  | nil => simp [mixLoop, allContrib]
  | cons s rest ih =>
    simp only [mixLoop, if_true, mixInstance_eq, allContrib]
    cases hc : contribution vec ch dt s with
    | none => simp
    | some v =>
      simp only [Option.map_some', ih]
      cases hr : allContrib vec ch dt rest with
      | none => simp
      | some w => simp [LoopEnd.cons, add_assoc]

theorem GetMixerOutput_active (st : SOUND) (ch : Int) (t dt : ℚ)
    (hact : st.m_bAudioThreadActive = true) :
    GetMixerOutput st ch t dt =
      (allContrib st.vecAudioSamples ch dt st.listActiveSamples).map
        (fun w => (applyHooks st ch t dt w,
          { st with listActiveSamples := sweep st.vecAudioSamples dt st.listActiveSamples })) := by
  unfold GetMixerOutput
  rw [hact, mixLoop_active]
  cases allContrib st.vecAudioSamples ch dt st.listActiveSamples with
  | none => simp
  | some w => simp [applyHooks, sweep]

theorem GetMixerOutput_inactive (st st1 : SOUND) (ch : Int) (t dt v : ℚ)
    (hact : st.m_bAudioThreadActive = false)
    (h : GetMixerOutput st ch t dt = some (v, st1)) :
    st1.listActiveSamples = st.listActiveSamples ∧ st1.vecAudioSamples = st.vecAudioSamples := by
  unfold GetMixerOutput at h
  rw [hact] at h
  cases hl : st.listActiveSamples with
  | nil =>
    rw [hl] at h
    simp only [mixLoop, Option.some.injEq, Prod.mk.injEq] at h
    obtain ⟨_, rfl⟩ := h
    simp
  | cons s rest =>
    rw [hl] at h
    simp only [mixLoop, Bool.false_eq_true, if_false, Option.some.injEq, Prod.mk.injEq] at h
    obtain ⟨_, rfl⟩ := h
    simp

theorem readSample_loaded (a : AudioSample) (hl : Loaded a) (ch p : Int)
    (hch0 : 0 ≤ ch) (hch : ch < a.nChannels) (hp0 : 0 ≤ p) (hp : p < a.nSamples) :
    ∃ v, readSample a (p * a.nChannels + ch) = some v := by
  obtain ⟨_, _, hlen⟩ := hl
  have hc : 0 ≤ a.nChannels := by omega
  have h1 : 0 ≤ p * a.nChannels + ch := by positivity
  have h2 : p * a.nChannels + ch < a.nSamples * a.nChannels := by nlinarith
  have h3 : (p * a.nChannels + ch).toNat < a.fSample.length := by
    have : ((p * a.nChannels + ch).toNat : Int) < (a.fSample.length : Int) := by
      rw [Int.toNat_of_nonneg h1, hlen]; exact h2
    exact_mod_cast this
  refine ⟨a.fSample[(p * a.nChannels + ch).toNat], ?_⟩
  unfold readSample
  rw [if_pos h1]
  exact List.getElem?_eq_getElem h3

theorem contribution_ready (vec : List AudioSample) (ch : Int) (dt : ℚ)
    (s : sCurrentlyPlayingSample) (hch0 : 0 ≤ ch) (hdt : 0 ≤ dt) (hp : 0 ≤ s.nSamplePosition)
    (a : AudioSample) (ha : sampleAt vec s.nAudioSampleID = some a) (hl : Loaded a)
    (hch : ch < a.nChannels) :
    contribution vec ch dt s =
      some (if contributes vec dt s = true then frameOf vec ch dt s else 0) := by
  have hrate : a.wavHeader.nSamplesPerSec = 44100 := hl.2.1
  have hso : sampleOf vec s.nAudioSampleID = a := by simp [sampleOf, ha]
  unfold contribution contributes frameOf advancedPos
  rw [hso]
  by_cases hs : s.bFlagForStop = true
  · simp [hs]
  · simp only [hs, Bool.false_eq_true, if_false, ha, hrate]
    have hr : 0 ≤ advance 44100 dt s.nSamplePosition := advance_nonneg _ dt _ hdt hp
    by_cases hlt : advance 44100 dt s.nSamplePosition < a.nSamples
    · obtain ⟨v, hv⟩ := readSample_loaded a hl ch (advance 44100 dt s.nSamplePosition)
        hch0 hch hr hlt
      simp [hlt, frameValue, hv]
    · simp [hlt]

theorem allContrib_ready (vec : List AudioSample) (ch : Int) (dt : ℚ)
    (l : List sCurrentlyPlayingSample) (hch0 : 0 ≤ ch) (hdt : 0 ≤ dt)
    (h : ∀ s ∈ l, 0 ≤ s.nSamplePosition ∧
      ∃ a, sampleAt vec s.nAudioSampleID = some a ∧ Loaded a ∧ ch < a.nChannels) :
    allContrib vec ch dt l = some (mixSum vec l ch dt) := by
  induction l with
  | nil => simp [allContrib, mixSum]
  | cons s rest ih =>
    have hs := h s (List.mem_cons_self _ _)
    obtain ⟨hp, a, ha, hl, hch⟩ := hs
    have hrest := ih (fun x hx => h x (List.mem_cons_of_mem _ hx))
    simp only [allContrib, contribution_ready vec ch dt s hch0 hdt hp a ha hl hch, hrest]
    unfold mixSum
    by_cases hc : contributes vec dt s = true
    · simp [List.filter_cons, hc]
    · simp [List.filter_cons, hc]

theorem roundf_one_frame : roundf (44100 * (1 / 44100)) = 1 := by
  norm_num [roundf, Rat.floor_def']

theorem PlaySample_engine (vec : List AudioSample) (id : Int) (b : Bool) :
    PlaySample (engine vec) id b = engineWith vec [playing id 0 b] := rfl

theorem GetMixerOutput_empty (vec : List AudioSample) (ch : Int) (t dt : ℚ) :
    GetMixerOutput (engineWith vec []) ch t dt = some (0, engineWith vec []) := by
  rw [GetMixerOutput_active _ _ _ _ rfl]
  simp [engineWith, engine, allContrib, applyHooks, sweep]

theorem GetMixerOutput_step (vec : List AudioSample) (id : Int) (a : AudioSample) (ch : Int)
    (t dt : ℚ) (b : Bool) (p : Int) (hdt : 0 ≤ dt) (hp : 0 ≤ p) (ha : sampleAt vec id = some a)
    (hl : Loaded a) (hch0 : 0 ≤ ch) (hch : ch < a.nChannels) :
    GetMixerOutput (engineWith vec [playing id p b]) ch t dt =
      some (if advance 44100 dt p < a.nSamples then
          frameValue a (advance 44100 dt p * a.nChannels + ch) else 0,
        engineWith vec (if advance 44100 dt p < a.nSamples then
            [playing id (advance 44100 dt p) b]
          else if b = true then [playing id 0 true] else [])) := by
  have hso : sampleOf vec id = a := by simp [sampleOf, ha]
  have hrate : a.wavHeader.nSamplesPerSec = 44100 := hl.2.1
  rw [GetMixerOutput_active _ _ _ _ rfl]
  have hc := allContrib_ready vec ch dt [playing id p b] hch0 hdt
    (by
      intro s hs
      simp only [List.mem_singleton] at hs
      subst hs
      exact ⟨hp, a, ha, hl, hch⟩)
  simp only [engineWith, engine] at hc ⊢
  rw [hc]
  simp only [Option.map_some', Option.some.injEq, Prod.mk.injEq]
  constructor
  · have hadv : advancedPos dt (playing id p b) = advance 44100 dt p := rfl
    have hfr : frameOf vec ch dt (playing id p b) =
        frameValue a (advance 44100 dt p * a.nChannels + ch) := by
      unfold frameOf
      rw [hadv]
      simp [playing, hso]
    have hcon : contributes vec dt (playing id p b) =
        decide (advance 44100 dt p < a.nSamples) := by
      unfold contributes
      rw [hadv]
      simp [playing, hso]
    unfold applyHooks mixSum
    by_cases h : advance 44100 dt p < a.nSamples
    · simp only [List.filter_cons, hcon, h, decide_True, if_true, List.filter_nil,
        List.map_cons, List.map_nil, List.sum_cons, List.sum_nil, hfr, add_zero]
    · simp only [List.filter_cons, hcon, h, decide_False, if_false, List.filter_nil,
        List.map_nil, List.sum_nil, Bool.false_eq_true]
  · simp only [sweep, visit, playing, ha, hrate, List.map_cons, List.map_nil]
    by_cases h : advance 44100 dt p < a.nSamples
    · simp [h]
    · by_cases hb : b = true
      · simp [h, hb]
      · simp [h, hb]

theorem GetMixerOutput_single (vec : List AudioSample) (id : Int) (a : AudioSample) (ch : Int)
    (t : ℚ) (b : Bool) (p : Int) (hp : 0 ≤ p) (hp24 : p < 16777216)
    (ha : sampleAt vec id = some a) (hl : Loaded a)
    (hch0 : 0 ≤ ch) (hch : ch < a.nChannels) :
    GetMixerOutput (engineWith vec [playing id p b]) ch t (1 / 44100) =
      some (if p + 1 < a.nSamples then frameValue a ((p + 1) * a.nChannels + ch) else 0,
        engineWith vec (if p + 1 < a.nSamples then [playing id (p + 1) b]
          else if b = true then [playing id 0 true] else [])) := by
  rw [GetMixerOutput_step vec id a ch t (1 / 44100) b p (by norm_num) hp ha hl hch0 hch,
    advance_frame p hp hp24]

/-- An instance at position `2^24` of a sample with more frames than that: the call reads
frame `2^24` again and leaves the position where it was. -/
theorem GetMixerOutput_stalled (vec : List AudioSample) (id : Int) (a : AudioSample) (ch : Int)
    (t : ℚ) (b : Bool) (ha : sampleAt vec id = some a) (hl : Loaded a)
    (hch0 : 0 ≤ ch) (hch : ch < a.nChannels) (hn : 16777216 < a.nSamples) :
    GetMixerOutput (engineWith vec [playing id 16777216 b]) ch t (1 / 44100) =
      some (frameValue a (16777216 * a.nChannels + ch),
        engineWith vec [playing id 16777216 b]) := by
  rw [GetMixerOutput_step vec id a ch t (1 / 44100) b 16777216 (by norm_num) (by norm_num) ha hl
    hch0 hch, advance_stall, if_pos hn, if_pos hn]

theorem runMixer_succ (ch : Int) (ts : Nat → ℚ) (dt : ℚ) (k : Nat) (st st1 st2 : SOUND)
    (outs : List ℚ) (v : ℚ) (h1 : runMixer ch ts dt k st = some (outs, st1))
    (h2 : GetMixerOutput st1 ch (ts k) dt = some (v, st2)) :
    runMixer ch ts dt (k + 1) st = some (outs ++ [v], st2) := by
  simp [runMixer, h1, h2]

theorem runMixer_first (ch : Int) (ts : Nat → ℚ) (dt : ℚ) (k : Nat) (st : SOUND) :
    runMixer ch ts dt (k + 1) st =
      match GetMixerOutput st ch (ts 0) dt with
      | none => none
      | some (v, st1) =>
        match runMixer ch (fun i => ts (i + 1)) dt k st1 with
        | none => none
        | some (outs, st2) => some (v :: outs, st2) := by
  induction k with
  | zero =>
    simp only [runMixer]
    cases GetMixerOutput st ch (ts 0) dt with
    | none => rfl
    | some r => simp
  | succ k ih =>
    rw [runMixer, ih]
    cases GetMixerOutput st ch (ts 0) dt with
    | none => rfl
    | some r =>
      obtain ⟨v, st1⟩ := r
      simp only [runMixer]
      cases runMixer ch (fun i => ts (i + 1)) dt k st1 with
      | none => rfl
      | some r2 =>
        obtain ⟨outs, st2⟩ := r2
        simp only
        cases GetMixerOutput st2 ch (ts (k + 1)) dt with
        | none => rfl
        | some r3 => simp

theorem runMixer_once (vec : List AudioSample) (id : Int) (a : AudioSample) (ch : Int)
    (ts : Nat → ℚ) (ha : sampleAt vec id = some a) (hl : Loaded a)
    (hch0 : 0 ≤ ch) (hch : ch < a.nChannels) (k : Nat)
    (h24 : (k : Int) ≤ 16777216 ∨ a.nSamples ≤ 16777216) :
    runMixer ch ts (1 / 44100) k (engineWith vec [playing id 0 false]) =
      some ((List.range k).map (fun (j : Nat) =>
          if (j : Int) + 1 < a.nSamples then frameValue a (((j : Int) + 1) * a.nChannels + ch)
          else 0),
        engineWith vec (if k = 0 ∨ (k : Int) < a.nSamples then [playing id k false] else [])) := by
  induction k with
  | zero => simp [runMixer]
  | succ k ih =>
    have ih := ih (by
      rcases h24 with h | h
      · left; push_cast at h; omega
      · right; exact h)
    by_cases hk : k = 0 ∨ (k : Int) < a.nSamples
    · rw [if_pos hk] at ih
      have hk24 : (k : Int) < 16777216 := by
        rcases h24 with h | h
        · push_cast at h; omega
        · rcases hk with h0 | h1
          · subst h0; norm_num
          · omega
      have hstep := GetMixerOutput_single vec id a ch (ts k) false k (by positivity) hk24 ha hl
        hch0 hch
      rw [runMixer_succ ch ts _ k _ _ _ _ _ ih hstep, List.range_succ, List.map_append]
      by_cases hn : (k : Int) + 1 < a.nSamples
      · have h2 : (k + 1 = 0 ∨ ((k + 1 : ℕ) : Int) < a.nSamples) := Or.inr (by push_cast; exact hn)
        simp [hn, h2]
      · have h2 : ¬ (k + 1 = 0 ∨ ((k + 1 : ℕ) : Int) < a.nSamples) := by
          rintro (h | h)
          · omega
          · push_cast at h; exact hn h
        simp [hn, h2]
    · rw [if_neg hk] at ih
      have hstep := GetMixerOutput_empty vec ch (ts k) (1 / 44100)
      rw [runMixer_succ ch ts _ k _ _ _ _ _ ih hstep, List.range_succ, List.map_append]
      have hk2 : ¬ ((k : Int) < a.nSamples) := fun h => hk (Or.inr h)
      have hn : ¬ ((k : Int) + 1 < a.nSamples) := by omega
      have h2 : ¬ (k + 1 = 0 ∨ ((k + 1 : ℕ) : Int) < a.nSamples) := by
        rintro (h | h)
        · omega
        · push_cast at h; exact hn h
      simp [hn, h2]

/-- A single instance of a sample with more than `2^24` frames, stepped one frame per call: the
position counts up to `2^24` and stays there, and from then on every call returns the frame at
position `2^24`. -/
theorem runMixer_long (vec : List AudioSample) (id : Int) (a : AudioSample) (ch : Int)
    (ts : Nat → ℚ) (b : Bool) (ha : sampleAt vec id = some a) (hl : Loaded a)
    (hch0 : 0 ≤ ch) (hch : ch < a.nChannels) (hn : 16777216 < a.nSamples) (k : Nat) :
    runMixer ch ts (1 / 44100) k (engineWith vec [playing id 0 b]) =
      some ((List.range k).map (fun (j : Nat) =>
          frameValue a (((min (j + 1) 16777216 : Nat) : Int) * a.nChannels + ch)),
        engineWith vec [playing id ((min k 16777216 : Nat) : Int) b]) := by
  induction k with
  | zero => simp [runMixer]
  | succ k ih =>
    by_cases hk : k < 16777216
    · have e1 : min k 16777216 = k := Nat.min_eq_left (by omega)
      have e2 : min (k + 1) 16777216 = k + 1 := Nat.min_eq_left (by omega)
      rw [e1] at ih
      have hstep := GetMixerOutput_single vec id a ch (ts k) b k (by positivity) (by omega) ha hl
        hch0 hch
      have hlt : (k : Int) + 1 < a.nSamples := by omega
      rw [if_pos hlt, if_pos hlt] at hstep
      rw [runMixer_succ ch ts _ k _ _ _ _ _ ih hstep, List.range_succ, List.map_append, e2]
      simp only [List.map_cons, List.map_nil, e2]
      simp
    · have e1 : min k 16777216 = 16777216 := Nat.min_eq_right (by omega)
      have e2 : min (k + 1) 16777216 = 16777216 := Nat.min_eq_right (by omega)
      rw [e1] at ih
      have hstep := GetMixerOutput_stalled vec id a ch (ts k) b ha hl hch0 hch hn
      rw [runMixer_succ ch ts _ k _ _ _ _ _ ih hstep, List.range_succ, List.map_append, e2]
      simp only [List.map_cons, List.map_nil, e2]
      simp

theorem monoSample_loaded (frames : List ℚ) : Loaded (monoSample frames) := by
  simp [Loaded, monoSample, monoHeader]

theorem frameValue_monoSample (frames : List ℚ) (i : Nat) :
    frameValue (monoSample frames) (i : Int) = frames.getD i 0 := by
  simp [frameValue, readSample, monoSample, List.getD_eq_getElem?_getD]


theorem impulse_getD (m n : Nat) (v : ℚ) (i : Nat) :
    (List.replicate m (0 : ℚ) ++ v :: List.replicate n 0).getD i 0 =
      if i = m then v else 0 := by
  rw [List.getD_eq_getElem?_getD]
  rcases Nat.lt_trichotomy i m with h | h | h
  · rw [List.getElem?_append_left (by simpa using h)]
    simp [List.getElem?_replicate, h, Nat.ne_of_lt h]
  · subst h
    rw [List.getElem?_append_right (by simp)]
    simp
  · rw [List.getElem?_append_right (by simp; omega)]
    obtain ⟨j, rfl⟩ : ∃ j, i = m + 1 + j := ⟨i - (m + 1), by omega⟩
    have : m + 1 + j - (List.replicate m (0 : ℚ)).length = j + 1 := by simp; omega
    rw [this]
    have h2 : ¬ (m + 1 + j = m) := by omega
    simp only [List.getElem?_cons_succ, h2, if_false, List.getElem?_replicate]
    split <;> rfl

theorem impulse_length (m n : Nat) (v : ℚ) :
    (List.replicate m (0 : ℚ) ++ v :: List.replicate n 0).length = m + n + 1 := by
  simp only [List.length_append, List.length_replicate, List.length_cons]
  omega

theorem monoSample_nSamples (frames : List ℚ) :
    (monoSample frames).nSamples = (frames.length : Int) := rfl

theorem impulseSample_nSamples (v : ℚ) : (impulseSample v).nSamples = 44100 := by
  unfold impulseSample
  rw [monoSample_nSamples, impulse_length]
  rfl

theorem impulse_outputs (v : ℚ) :
    (List.range 101).map (fun (j : Nat) =>
        if (j : Int) + 1 < (impulseSample v).nSamples then
          frameValue (impulseSample v) (((j : Int) + 1) * (impulseSample v).nChannels + 0)
        else 0) = List.replicate 99 0 ++ [v, 0] := by
  have hf : ∀ j : Nat, (if (j : Int) + 1 < (impulseSample v).nSamples then
          frameValue (impulseSample v) (((j : Int) + 1) * (impulseSample v).nChannels + 0)
        else 0) = if j = 99 then v else 0 := by
    intro j
    have hc : (impulseSample v).nChannels = 1 := rfl
    have h1 : (((j : Int) + 1) * (impulseSample v).nChannels + 0) = ((j + 1 : ℕ) : Int) := by
      rw [hc]; push_cast; ring
    rw [h1, impulseSample_nSamples]
    unfold impulseSample
    rw [frameValue_monoSample, impulse_getD]
    by_cases h : j = 99
    · subst h; norm_num
    · have : ¬ (j + 1 = 100) := by omega
      rw [if_neg this, if_neg h]
      split <;> rfl
  simp only [hf]
  rfl


theorem longSample_loaded : Loaded longSample := monoSample_loaded _

theorem longSample_nSamples : longSample.nSamples = 16777218 := by
  unfold longSample
  rw [monoSample_nSamples, impulse_length]
  norm_num

theorem frameValue_longSample (i : Nat) :
    frameValue longSample ((i : Int) * longSample.nChannels + 0) =
      if i = 16777216 then 1 else 0 := by
  have h : (i : Int) * longSample.nChannels + 0 = (i : Int) := by
    show (i : Int) * 1 + 0 = (i : Int)
    ring
  rw [h]
  unfold longSample
  rw [frameValue_monoSample, impulse_getD]

theorem longSample_run (ts : Nat → ℚ) (b : Bool) (k : Nat) :
    runMixer 0 ts (1 / 44100) k (PlaySample (engine [longSample]) 1 b) =
      some ((List.range k).map (fun (j : Nat) => if j + 1 < 16777216 then (0 : ℚ) else 1),
        engineWith [longSample] [playing 1 ((min k 16777216 : Nat) : Int) b]) := by
  have e : ∀ j : Nat, frameValue longSample
      (((min (j + 1) 16777216 : Nat) : Int) * longSample.nChannels + 0) =
        if j + 1 < 16777216 then (0 : ℚ) else 1 := by
    intro j
    rw [frameValue_longSample]
    by_cases h : j + 1 < 16777216
    · rw [if_pos h, if_neg (by omega)]
    · rw [if_neg h, if_pos (by omega)]
  rw [PlaySample_engine, runMixer_long [longSample] 1 longSample 0 ts b rfl longSample_loaded
    (le_refl 0) (by show (0 : Int) < 1; norm_num) (by rw [longSample_nSamples]; norm_num) k]
  simp only [e]

theorem longSample_stalled (t : ℚ) (b : Bool) :
    GetMixerOutput (engineWith [longSample] [playing 1 16777216 b]) 0 t (1 / 44100) =
      some (1, engineWith [longSample] [playing 1 16777216 b]) := by
  rw [GetMixerOutput_stalled [longSample] 1 longSample 0 t b rfl longSample_loaded
    (le_refl 0) (by show (0 : Int) < 1; norm_num) (by rw [longSample_nSamples]; norm_num)]
  have h := frameValue_longSample 16777216
  rw [if_pos rfl] at h
  have e : ((16777216 : Nat) : Int) = 16777216 := by norm_num
  rw [e] at h
  rw [h]

/-- C1 (code at the failing input). `longSample` is a loaded mono sample of `2^24 + 2` frames
holding `1` at frame `2^24` and `0` at frame `2^24 + 1`.  After `PlaySample` and `2^24` calls
with time step 1/44100 its instance is at position `2^24`.  For the next call the advanced
position of the specification is `2^24 + round(44100 * (1/44100)) = 2^24 + 1`, below the frame
count, and the mixed value is frame `2^24 + 1`, the value 0.  The program forms the sum in
`float`, where `2^24 + 1` is rounded to `2^24`: the call reads frame `2^24` and returns 1, and
it leaves the position at `2^24`, so every further call does the same. -/
theorem C1_position_stalls_at_2pow24 :
    Loaded longSample ∧ longSample.nSamples = 16777218 ∧ longSample.nChannels = 1 ∧
    frameValue longSample (((16777216 : Nat) : Int) * longSample.nChannels + 0) = 1 ∧
    frameValue longSample (((16777217 : Nat) : Int) * longSample.nChannels + 0) = 0 ∧
    (16777216 : Int) + roundf (44100 * (1 / 44100)) = 16777217 ∧
    (∀ ts : Nat → ℚ,
      (runMixer 0 ts (1 / 44100) 16777216 (PlaySample (engine [longSample]) 1 false)).map
        (fun r => r.2.listActiveSamples) = some [playing 1 16777216 false]) ∧
    ∀ t : ℚ, GetMixerOutput (engineWith [longSample] [playing 1 16777216 false]) 0 t
        (1 / 44100) = some (1, engineWith [longSample] [playing 1 16777216 false]) := by
  refine ⟨longSample_loaded, longSample_nSamples, rfl, ?_, ?_, ?_, ?_,
    fun t => longSample_stalled t false⟩
  · rw [frameValue_longSample, if_pos rfl]
  · rw [frameValue_longSample, if_neg (by norm_num)]
  · rw [roundf_one_frame]
    norm_num
  · intro ts
    rw [longSample_run ts false 16777216]
    rfl

theorem small_run :
    (runMixer 0 (fun _ => 0) (1 / 44100) 1
      (PlaySample (engine [monoSample [5, 7, 9]]) 1 false)).map Prod.fst = some [7] := by
  rw [PlaySample_engine, runMixer_once [monoSample [5, 7, 9]] 1 (monoSample [5, 7, 9]) 0 _ rfl
    (monoSample_loaded _) (le_refl 0) (by simp [monoSample]) 1 (Or.inl (by norm_num))]
  simp [monoSample, frameValue, readSample, List.range_succ]

theorem impulse_run (v : ℚ) (ts : Nat → ℚ) :
    (runMixer 0 ts (1 / 44100) 101
      (PlaySample (engine [impulseSample v]) 1 false)).map Prod.fst =
        some (List.replicate 99 0 ++ [v, 0]) := by
  rw [PlaySample_engine, runMixer_once [impulseSample v] 1 (impulseSample v) 0 ts rfl
    (monoSample_loaded _) (le_refl 0) (by show (0 : Int) < 1; norm_num) 101
    (Or.inl (by norm_num)), Option.map_some', impulse_outputs]

/-- C2 (counterexample). After `PlaySample`, call number 0 returns frame 1 of the sample, not
frame 0: for the frames `5, 7, 9` it returns `7`.  In the scenario of the specification with
impulse value `1` at frame 100, the 101 calls return the impulse at step 99 and `0` at
step 100. -/
theorem C2_counterexample :
    ¬ (∀ (frames : List ℚ) (k : Nat), k < frames.length →
        (runMixer 0 (fun _ => 0) (1 / 44100) (k + 1)
          (PlaySample (engine [monoSample frames]) 1 false)).map (fun r => r.1[k]?) =
            some (frames[k]?)) ∧
      (runMixer 0 (fun _ => 0) (1 / 44100) 101
        (PlaySample (engine [impulseSample 1]) 1 false)).map Prod.fst =
          some (List.replicate 99 0 ++ [1, 0]) := by
  refine ⟨fun h => ?_, impulse_run 1 _⟩
  have h0 := h [5, 7, 9] 0 (by decide)
  have h1 := small_run
  cases hr : runMixer 0 (fun _ => 0) (1 / 44100) (0 + 1)
      (PlaySample (engine [monoSample [5, 7, 9]]) 1 false) with
  | none => rw [hr] at h0; simp at h0
  | some r =>
    rw [hr] at h0 h1
    simp only [Option.map_some', Option.some.injEq] at h0 h1
    rw [h1] at h0
    norm_num at h0

/-- C2 (amended). For a loaded mono sample, after `PlaySample(id)` on an empty registry with no
loop, no hooks and the audio thread active, call number `j` (counting from 0) of
`GetMixerOutput(0, ., 1/44100)` returns frame `j + 1` of the sample while `j + 1 < frameCount`
and `0` afterwards.  This is stated for the range in which the `float` arithmetic of the
position update is exact: the first `k <= 2^24 = 16777216` calls, or every number of calls when
the sample has at most `2^24` frames.  In the scenario of the specification (44100 frames, all
zero except the value `v` at frame 100) 101 calls return `0` for steps 0 to 98, `v` at step 99
and `0` at step 100. -/
theorem C2_playback_outputs (vec : List AudioSample) (id : Int) (a : AudioSample)
    (ts : Nat → ℚ) (k : Nat) (ha : sampleAt vec id = some a) (hl : Loaded a)
    (hmono : a.nChannels = 1) (h24 : (k : Int) ≤ 16777216 ∨ a.nSamples ≤ 16777216) :
    (runMixer 0 ts (1 / 44100) k (PlaySample (engine vec) id false)).map Prod.fst =
        some ((List.range k).map (fun (j : Nat) =>
          if (j : Int) + 1 < a.nSamples then frameValue a ((j : Int) + 1) else 0)) ∧
      ∀ v : ℚ, (runMixer 0 ts (1 / 44100) 101
        (PlaySample (engine [impulseSample v]) 1 false)).map Prod.fst =
          some (List.replicate 99 0 ++ [v, 0]) := by
  refine ⟨?_, fun v => impulse_run v ts⟩
  rw [PlaySample_engine, runMixer_once vec id a 0 ts ha hl (le_refl 0) (by omega) k h24]
  simp [hmono]

/-- C2 (witness). The sample `5, 7, 9`: three calls after `PlaySample` return `7, 9, 0`. -/
theorem C2_playback_outputs_witness :
    (((3 : Nat) : Int) ≤ 16777216 ∨ (monoSample [5, 7, 9]).nSamples ≤ 16777216) ∧
    (runMixer 0 (fun _ => 0) (1 / 44100) 3
      (PlaySample (engine [monoSample [5, 7, 9]]) 1 false)).map Prod.fst = some [7, 9, 0] := by
  refine ⟨Or.inl (by norm_num), ?_⟩
  rw [(C2_playback_outputs [monoSample [5, 7, 9]] 1 (monoSample [5, 7, 9]) (fun _ => 0) 3 rfl
    (monoSample_loaded _) rfl (Or.inl (by norm_num))).1]
  simp [monoSample, frameValue, readSample, List.range_succ]


theorem contribution_flagged (vec : List AudioSample) (ch : Int) (dt : ℚ)
    (s : sCurrentlyPlayingSample) (hs : s.bFlagForStop = true) :
    contribution vec ch dt s = some 0 := by
  simp [contribution, hs]

theorem visit_flagged (vec : List AudioSample) (dt : ℚ) (s : sCurrentlyPlayingSample)
    (hs : s.bFlagForStop = true) :
    visit vec dt s = { s with bLoop := false, bFinished := true } := by
  simp [visit, hs]

theorem visit_flag (vec : List AudioSample) (dt : ℚ) (s : sCurrentlyPlayingSample) :
    (visit vec dt s).bFlagForStop = s.bFlagForStop := by
  unfold visit
  split
  · rfl
  · split
    · rfl
    · dsimp only
      split
      · rfl
      · split <;> rfl

theorem visit_finished (vec : List AudioSample) (dt : ℚ) (s : sCurrentlyPlayingSample) :
    (!(visit vec dt s).bFinished) = survives vec dt s := by
  unfold visit survives
  by_cases hs : s.bFlagForStop = true
  · simp [hs]
  · simp only [hs, Bool.false_eq_true, if_false]
    cases hA : sampleAt vec s.nAudioSampleID with
    | none => simp
    | some a =>
      dsimp only
      by_cases hp : advance a.wavHeader.nSamplesPerSec dt s.nSamplePosition < a.nSamples
      · simp [hp]
      · by_cases hl : s.bLoop = true <;> simp [hp, hl]

theorem sweep_eq (vec : List AudioSample) (dt : ℚ) (l : List sCurrentlyPlayingSample) :
    sweep vec dt l = (l.filter (survives vec dt)).map (visit vec dt) := by
  unfold sweep
  rw [List.filter_map]
  congr 1
  apply List.filter_congr
  intro s _
  simp only [Function.comp_apply]
  exact visit_finished vec dt s

theorem survives_not_flagged (vec : List AudioSample) (dt : ℚ) (s : sCurrentlyPlayingSample)
    (h : survives vec dt s = true) : s.bFlagForStop = false := by
  unfold survives at h
  simp only [Bool.and_eq_true, Bool.not_eq_true'] at h
  exact h.1.2

theorem sweep_filter_stop (vec : List AudioSample) (dt : ℚ) (l : List sCurrentlyPlayingSample) :
    sweep vec dt (l.filter (fun s => !s.bFlagForStop)) = sweep vec dt l := by
  rw [sweep_eq, sweep_eq, List.filter_filter]
  congr 1
  apply List.filter_congr
  intro s _
  by_cases h : survives vec dt s = true
  · simp [h, survives_not_flagged vec dt s h]
  · simp [h]

theorem allContrib_filter_stop (vec : List AudioSample) (ch : Int) (dt : ℚ)
    (l : List sCurrentlyPlayingSample) :
    allContrib vec ch dt (l.filter (fun s => !s.bFlagForStop)) = allContrib vec ch dt l := by
  induction l with
  | nil => rfl
  | cons s rest ih =>
    by_cases hs : s.bFlagForStop = true
    · simp only [List.filter_cons, hs, Bool.not_true, Bool.false_eq_true, if_false, ih, allContrib,
        contribution_flagged vec ch dt s hs]
      cases allContrib vec ch dt rest <;> simp
    · simp only [List.filter_cons, hs, Bool.not_false, if_true, allContrib, ih, Bool.not_eq_true,
        Bool.not_eq_true']


theorem GetMixerOutput_filter_stop (st : SOUND) (ch : Int) (t dt : ℚ)
    (hact : st.m_bAudioThreadActive = true) :
    GetMixerOutput { st with listActiveSamples :=
        st.listActiveSamples.filter (fun s => !s.bFlagForStop) } ch t dt =
      GetMixerOutput st ch t dt := by
  have h2 := GetMixerOutput_active
    { st with listActiveSamples := List.filter (fun s => !s.bFlagForStop) st.listActiveSamples }
    ch t dt hact
  rw [GetMixerOutput_active st ch t dt hact, h2]
  simp only [allContrib_filter_stop, sweep_filter_stop]
  rfl

theorem GetMixerOutput_ready (st : SOUND) (ch : Int) (t dt : ℚ)
    (hact : st.m_bAudioThreadActive = true) (hr : MixReady st ch dt) :
    (GetMixerOutput st ch t dt).isSome = true := by
  rw [GetMixerOutput_active st ch t dt hact,
    allContrib_ready _ ch dt _ hr.1 hr.2.1 hr.2.2]
  rfl

theorem stopFirst_not_finished (id : Int) (l : List sCurrentlyPlayingSample)
    (h : ∀ x ∈ l, x.bFinished = false) : ∀ x ∈ stopFirst id l, x.bFinished = false := by
  induction l with
  | nil => intro x hx; simp [stopFirst] at hx
  | cons y rest ih =>
    intro x hx
    unfold stopFirst at hx
    split at hx
    · rcases List.mem_cons.mp hx with rfl | hx
      · exact h y (List.mem_cons_self _ _)
      · exact h x (List.mem_cons_of_mem _ hx)
    · rcases List.mem_cons.mp hx with rfl | hx
      · exact h x (List.mem_cons_self _ _)
      · exact ih (fun z hz => h z (List.mem_cons_of_mem _ hz)) x hx

theorem reachable_not_finished (st : SOUND) (h : Reachable st) :
    ∀ s ∈ st.listActiveSamples, s.bFinished = false := by
  induction h with
  | init st h => intro s hs; rw [h] at hs; simp at hs
  | play st id b a _ _ _ ih =>
    intro s hs
    simp only [PlaySample, List.mem_append, List.mem_singleton] at hs
    rcases hs with hs | rfl
    · exact ih s hs
    · rfl
  | stop st id _ ih => exact stopFirst_not_finished id _ ih
  | stopAll st _ ih =>
    intro s hs
    simp only [StopAll, List.mem_map] at hs
    obtain ⟨y, hy, rfl⟩ := hs
    exact ih y hy
  | mix st st1 ch t dt v _ _ hm ih =>
    intro s hs
    by_cases hact : st.m_bAudioThreadActive = true
    · rw [GetMixerOutput_active st ch t dt hact] at hm
      cases hc : allContrib st.vecAudioSamples ch dt st.listActiveSamples with
      | none => simp [hc] at hm
      | some w =>
        simp only [hc, Option.map_some', Option.some.injEq, Prod.mk.injEq] at hm
        obtain ⟨_, rfl⟩ := hm
        simp only [sweep, List.mem_filter] at hs
        simpa using hs.2
    · have hact' : st.m_bAudioThreadActive = false := by simpa using hact
      obtain ⟨h1, _⟩ := GetMixerOutput_inactive st st1 ch t dt v hact' hm
      rw [h1] at hs
      exact ih s hs

/-- C3. With the audio thread active, for every registry state: a `GetMixerOutput` call gives
the same value and the same registry as on the state without its stop-flagged instances, so
they add nothing to the value; the loop leaves a stop-flagged instance with its position
unchanged, its loop flag cleared and marked finished; and when the call returns, the registry
holds exactly the visited instances that were not finished, not stop-flagged and not run
past their end without looping, in their previous order, none of them stop-flagged.  The
call returns when every read is in bounds, and no entry of a reachable registry is finished
before the call. -/
theorem C3_stop_flag_removal (st : SOUND) (ch : Int) (t dt : ℚ)
    (hact : st.m_bAudioThreadActive = true) :
    GetMixerOutput st ch t dt =
        GetMixerOutput { st with listActiveSamples :=
          st.listActiveSamples.filter (fun s => !s.bFlagForStop) } ch t dt ∧
      (∀ acc l, mixLoop st.vecAudioSamples true ch dt st.listActiveSamples 0 =
          some (.completed acc l) →
        l = st.listActiveSamples.map (visit st.vecAudioSamples dt) ∧
        ∀ s ∈ st.listActiveSamples, s.bFlagForStop = true →
          visit st.vecAudioSamples dt s = { s with bLoop := false, bFinished := true }) ∧
      (∀ v st1, GetMixerOutput st ch t dt = some (v, st1) →
        st1.listActiveSamples =
          (st.listActiveSamples.filter (survives st.vecAudioSamples dt)).map
            (visit st.vecAudioSamples dt) ∧
        ∀ x ∈ st1.listActiveSamples, x.bFlagForStop = false) ∧
      (MixReady st ch dt → (GetMixerOutput st ch t dt).isSome = true) ∧
      (Reachable st → ∀ s ∈ st.listActiveSamples, s.bFinished = false) := by
  refine ⟨(GetMixerOutput_filter_stop st ch t dt hact).symm, ?_, ?_,
    GetMixerOutput_ready st ch t dt hact, reachable_not_finished st⟩
  · intro acc l h
    rw [mixLoop_active] at h
    refine ⟨?_, fun s _ hs => visit_flagged _ dt s hs⟩
    cases hc : allContrib st.vecAudioSamples ch dt st.listActiveSamples with
    | none => rw [hc] at h; simp at h
    | some w =>
      rw [hc] at h
      simp only [Option.map_some', Option.some.injEq, LoopEnd.completed.injEq] at h
      exact h.2.symm
  · intro v st1 h
    rw [GetMixerOutput_active st ch t dt hact] at h
    cases hc : allContrib st.vecAudioSamples ch dt st.listActiveSamples with
    | none => rw [hc] at h; simp at h
    | some w =>
      rw [hc] at h
      simp only [Option.map_some', Option.some.injEq, Prod.mk.injEq] at h
      obtain ⟨_, rfl⟩ := h
      refine ⟨sweep_eq _ dt _, ?_⟩
      intro x hx
      simp only [sweep_eq, List.mem_map, List.mem_filter] at hx
      obtain ⟨s, ⟨_, hsv⟩, rfl⟩ := hx
      rw [visit_flag]
      exact survives_not_flagged _ dt s hsv

theorem allContrib_append (vec : List AudioSample) (ch : Int) (dt : ℚ)
    (l1 l2 : List sCurrentlyPlayingSample) :
    allContrib vec ch dt (l1 ++ l2) =
      match allContrib vec ch dt l1, allContrib vec ch dt l2 with
      | some v, some w => some (v + w)
      | _, _ => none := by
  induction l1 with
  | nil =>
    simp only [List.nil_append, allContrib]
    cases allContrib vec ch dt l2 <;> simp
  | cons s rest ih =>
    rw [List.cons_append]
    simp only [allContrib]
    rw [ih]
    cases contribution vec ch dt s <;> cases allContrib vec ch dt rest <;>
      cases allContrib vec ch dt l2 <;> simp [add_assoc]

theorem allContrib_erase (vec : List AudioSample) (ch : Int) (dt : ℚ)
    (l1 l2 : List sCurrentlyPlayingSample) (s : sCurrentlyPlayingSample)
    (hs : contribution vec ch dt s = some 0) :
    allContrib vec ch dt (l1 ++ s :: l2) = allContrib vec ch dt (l1 ++ l2) := by
  rw [allContrib_append, allContrib_append]
  simp only [allContrib, hs]
  cases allContrib vec ch dt l1 <;> cases allContrib vec ch dt l2 <;> simp

theorem sweep_erase (vec : List AudioSample) (dt : ℚ)
    (l1 l2 : List sCurrentlyPlayingSample) (s : sCurrentlyPlayingSample)
    (hs : survives vec dt s = false) :
    sweep vec dt (l1 ++ s :: l2) = sweep vec dt (l1 ++ l2) := by
  simp [sweep_eq, List.filter_cons, hs]

theorem GetMixerOutput_erase (st : SOUND) (ch : Int) (t dt : ℚ)
    (l1 l2 : List sCurrentlyPlayingSample) (s : sCurrentlyPlayingSample)
    (hact : st.m_bAudioThreadActive = true)
    (hc : contribution st.vecAudioSamples ch dt s = some 0)
    (hs : survives st.vecAudioSamples dt s = false) :
    GetMixerOutput { st with listActiveSamples := l1 ++ s :: l2 } ch t dt =
      GetMixerOutput { st with listActiveSamples := l1 ++ l2 } ch t dt := by
  have h1 := GetMixerOutput_active { st with listActiveSamples := l1 ++ s :: l2 } ch t dt hact
  have h2 := GetMixerOutput_active { st with listActiveSamples := l1 ++ l2 } ch t dt hact
  rw [h1, h2]
  simp only [allContrib_erase st.vecAudioSamples ch dt l1 l2 s hc,
    sweep_erase st.vecAudioSamples dt l1 l2 s hs]
  rfl


theorem stopFirst_split (id : Int) (l1 l2 : List sCurrentlyPlayingSample)
    (s : sCurrentlyPlayingSample) (hfirst : ∀ x ∈ l1, x.nAudioSampleID ≠ id)
    (hs : s.nAudioSampleID = id) :
    stopFirst id (l1 ++ s :: l2) = l1 ++ { s with bFlagForStop := true } :: l2 := by
  induction l1 with
  | nil => simp [stopFirst, hs]
  | cons x rest ih =>
    have hx : x.nAudioSampleID ≠ id := hfirst x (List.mem_cons_self _ _)
    rw [List.cons_append]
    simp only [stopFirst, hx, if_false]
    rw [ih (fun y hy => hfirst y (List.mem_cons_of_mem _ hy))]
    rfl

theorem stopped_run :
    GetMixerOutput (StopSample (PlaySample (engine [monoSample [5, 7, 9]]) 1 false) 1) 0 0
      (1 / 44100) = some (0, engineWith [monoSample [5, 7, 9]] []) := by
  rw [GetMixerOutput_active _ _ _ _ rfl]
  simp [StopSample, stopFirst, PlaySample, engineWith, engine, allContrib, contribution,
    applyHooks, sweep, visit]

theorem unstopped_run :
    (GetMixerOutput (PlaySample (engine [monoSample [5, 7, 9]]) 1 false) 0 0
      (1 / 44100)).map Prod.fst = some 7 := by
  rw [PlaySample_engine, GetMixerOutput_single [monoSample [5, 7, 9]] 1 (monoSample [5, 7, 9]) 0 0
    false 0 (le_refl 0) (by norm_num) rfl (monoSample_loaded _) (le_refl 0)
    (by simp [monoSample])]
  simp [frameValue, readSample, monoSample]

theorem stopped_run3 :
    (runMixer 0 (fun _ => 0) (1 / 44100) 3
      (StopSample (PlaySample (engine [monoSample [5, 7, 9]]) 1 false) 1)).map Prod.fst =
        some [0, 0, 0] := by
  have h1 := runMixer_succ 0 (fun _ => 0) (1 / 44100) 0 _ _ _ [] 0 rfl stopped_run
  have h2 := runMixer_succ 0 (fun _ => 0) (1 / 44100) 1 _ _ _ _ 0 h1
    (GetMixerOutput_empty [monoSample [5, 7, 9]] 0 0 (1 / 44100))
  have h3 := runMixer_succ 0 (fun _ => 0) (1 / 44100) 2 _ _ _ _ 0 h2
    (GetMixerOutput_empty [monoSample [5, 7, 9]] 0 0 (1 / 44100))
  rw [h3]
  rfl

/-- C4 (counterexample). An instance of the sample `5, 7, 9` is played and then flagged by
`StopSample`; its next positions 1 and 2 are in bounds (without the stop the next call returns
frame 1, the value 7).  The next `GetMixerOutput` call returns 0 and leaves the registry
empty, and the three calls after the stop return `0, 0, 0`: the flagged instance contributes
to no further call, not to one. -/
theorem C4_counterexample :
    GetMixerOutput (StopSample (PlaySample (engine [monoSample [5, 7, 9]]) 1 false) 1) 0 0
        (1 / 44100) = some (0, engineWith [monoSample [5, 7, 9]] []) ∧
      (runMixer 0 (fun _ => 0) (1 / 44100) 3
        (StopSample (PlaySample (engine [monoSample [5, 7, 9]]) 1 false) 1)).map Prod.fst =
          some [0, 0, 0] ∧
      (GetMixerOutput (PlaySample (engine [monoSample [5, 7, 9]]) 1 false) 0 0
        (1 / 44100)).map Prod.fst = some 7 :=
  ⟨stopped_run, stopped_run3, unstopped_run⟩

/-- C4 (amended). `StopSample(id)` flags the first instance `s` of sample `id` in the
registry `l1 ++ s :: l2`, and the next `GetMixerOutput` call (audio thread active) returns the
value and the registry it would return had `s` not been in the registry at all; so does every
sequence of calls that follows: the flagged instance contributes to no further call and is
removed by the very next one. -/
theorem C4_stop_takes_effect_next_call (st : SOUND) (id ch : Int) (t dt : ℚ)
    (l1 l2 : List sCurrentlyPlayingSample) (s : sCurrentlyPlayingSample)
    (hact : st.m_bAudioThreadActive = true) (hl : st.listActiveSamples = l1 ++ s :: l2)
    (hfirst : ∀ x ∈ l1, x.nAudioSampleID ≠ id) (hs : s.nAudioSampleID = id) :
    (StopSample st id).listActiveSamples = l1 ++ { s with bFlagForStop := true } :: l2 ∧
      GetMixerOutput (StopSample st id) ch t dt =
        GetMixerOutput { st with listActiveSamples := l1 ++ l2 } ch t dt ∧
      ∀ (ts : Nat → ℚ) (k : Nat), runMixer ch ts dt (k + 1) (StopSample st id) =
        runMixer ch ts dt (k + 1) { st with listActiveSamples := l1 ++ l2 } := by
  have hsplit : (StopSample st id).listActiveSamples =
      l1 ++ { s with bFlagForStop := true } :: l2 := by
    simp only [StopSample, hl]
    exact stopFirst_split id l1 l2 s hfirst hs
  have key : ∀ t', GetMixerOutput (StopSample st id) ch t' dt =
      GetMixerOutput { st with listActiveSamples := l1 ++ l2 } ch t' dt := by
    intro t'
    have h := GetMixerOutput_erase st ch t' dt l1 l2 { s with bFlagForStop := true } hact
      (contribution_flagged _ ch dt _ rfl) (by simp [survives])
    rw [← h]
    simp only [StopSample, hl]
    rw [stopFirst_split id l1 l2 s hfirst hs]
  refine ⟨hsplit, key t, ?_⟩
  intro ts k
  rw [runMixer_first, runMixer_first, key (ts 0)]

/-- C4 (witness). The sample `5, 7, 9` played and stopped at once: the next call is the call on
the empty registry. -/
theorem C4_stop_takes_effect_next_call_witness :
    GetMixerOutput (StopSample (PlaySample (engine [monoSample [5, 7, 9]]) 1 false) 1) 0 0
        (1 / 44100) = GetMixerOutput (engineWith [monoSample [5, 7, 9]] []) 0 0 (1 / 44100) :=
  (C4_stop_takes_effect_next_call (PlaySample (engine [monoSample [5, 7, 9]]) 1 false) 1 0 0
    (1 / 44100) [] [] (playing 1 0 false) rfl rfl (by simp) rfl).2.1

theorem contribution_ended (vec : List AudioSample) (ch : Int) (dt : ℚ)
    (s : sCurrentlyPlayingSample) (a : AudioSample) (ha : sampleAt vec s.nAudioSampleID = some a)
    (hend : a.nSamples ≤ advance a.wavHeader.nSamplesPerSec dt s.nSamplePosition) :
    contribution vec ch dt s = some 0 := by
  unfold contribution
  split
  · rfl
  · simp only [ha]
    rw [if_neg (by omega)]

theorem survives_ended (vec : List AudioSample) (dt : ℚ)
    (s : sCurrentlyPlayingSample) (a : AudioSample) (ha : sampleAt vec s.nAudioSampleID = some a)
    (hloop : s.bLoop = false)
    (hend : a.nSamples ≤ advance a.wavHeader.nSamplesPerSec dt s.nSamplePosition) :
    survives vec dt s = false := by
  have : ¬ (advance a.wavHeader.nSamplesPerSec dt s.nSamplePosition < a.nSamples) := by
    omega
  simp [survives, ha, hloop, this]

theorem advance_last_579 : (monoSample [5, 7, 9]).nSamples ≤
    advance (monoSample [5, 7, 9]).wavHeader.nSamplesPerSec (1 / 44100)
      (playing 1 2 false).nSamplePosition := by
  show (3 : Int) ≤ advance 44100 (1 / 44100) 2
  rw [advance_frame 2 (by norm_num) (by norm_num)]
  norm_num

theorem single_579 (t : ℚ) :
    GetMixerOutput (engineWith [monoSample [5, 7, 9]] [playing 1 0 false]) 0 t (1 / 44100) =
      some (7, engineWith [monoSample [5, 7, 9]] [playing 1 1 false]) := by
  have h3 := GetMixerOutput_single [monoSample [5, 7, 9]] 1 (monoSample [5, 7, 9]) 0 t false 0
    (le_refl 0) (by norm_num) rfl (monoSample_loaded _) (le_refl 0) (by simp [monoSample])
  have hn : (0 : Int) + 1 < (monoSample [5, 7, 9]).nSamples := by simp [monoSample]
  rw [if_pos hn, if_pos hn] at h3
  exact h3.trans (by simp [frameValue, readSample, monoSample])

theorem run_out_579 (t : ℚ) :
    GetMixerOutput (engineWith [monoSample [5, 7, 9]] [playing 1 2 false, playing 1 0 false])
        0 t (1 / 44100) =
      some (7, engineWith [monoSample [5, 7, 9]] [playing 1 1 false]) := by
  have h2 := GetMixerOutput_erase (engineWith [monoSample [5, 7, 9]] []) 0 t (1 / 44100)
    [] [playing 1 0 false] (playing 1 2 false) rfl
    (contribution_ended _ 0 _ _ (monoSample [5, 7, 9]) rfl advance_last_579)
    (survives_ended _ _ _ (monoSample [5, 7, 9]) rfl rfl advance_last_579)
  exact h2.trans (single_579 t)

/-- C3 (witness). A registry with a flagged looping instance, a playing one and one running out:
the call returns frame 1 of the playing instance and keeps only that instance. -/
theorem C3_stop_flag_removal_witness :
    GetMixerOutput stopEngine 0 0 (1 / 44100) =
      some (7, engineWith [monoSample [5, 7, 9]] [playing 1 1 false]) := by
  have h := (C3_stop_flag_removal stopEngine 0 0 (1 / 44100) rfl).1
  have hend : (monoSample [5, 7, 9]).nSamples ≤
      advance (monoSample [5, 7, 9]).wavHeader.nSamplesPerSec (1 / 44100)
        (playing 1 2 false).nSamplePosition := by
    show (3 : Int) ≤ advance 44100 (1 / 44100) 2
    rw [advance_frame 2 (by norm_num) (by norm_num)]
    norm_num
  have h2 := GetMixerOutput_erase (engineWith [monoSample [5, 7, 9]] []) 0 0 (1 / 44100)
    [playing 1 0 false] [] (playing 1 2 false) rfl
    (contribution_ended _ 0 _ _ (monoSample [5, 7, 9]) rfl hend)
    (survives_ended _ _ _ (monoSample [5, 7, 9]) rfl rfl hend)
  have h3 := GetMixerOutput_single [monoSample [5, 7, 9]] 1 (monoSample [5, 7, 9]) 0 0 false 0
    (le_refl 0) (by norm_num) rfl (monoSample_loaded _) (le_refl 0) (by simp [monoSample])
  have hn : (0 : Int) + 1 < (monoSample [5, 7, 9]).nSamples := by simp [monoSample]
  rw [if_pos hn, if_pos hn] at h3
  rw [h]
  exact h2.trans (h3.trans (by simp [frameValue, readSample, monoSample]))

/-- C6. A non-looping instance `s` of a sample with `nSamples` frames sits in the registry
`l1 ++ s :: l2`, and in this call its advanced position, the position the update of the loop
body computes, is `>= nSamples`.  Then the call gives the value and the registry it gives for
the registry `l1 ++ l2`: nothing is added for `s`, and the loop marks it finished.  When the
reads of the other instances are in bounds, the call returns, its value is the hooks applied
to the mix of the other instances alone, and the registry afterwards consists of the
instances of `l1 ++ l2` that stay, none of them marked finished: `s` is absent.  Hence every
sequence of calls from here on gives the outputs it gives without `s`. -/
theorem C6_run_out_instance_removed (st : SOUND) (ch : Int) (t dt : ℚ)
    (l1 l2 : List sCurrentlyPlayingSample) (s : sCurrentlyPlayingSample) (a : AudioSample)
    (hact : st.m_bAudioThreadActive = true) (hl : st.listActiveSamples = l1 ++ s :: l2)
    (hloop : s.bLoop = false)
    (ha : sampleAt st.vecAudioSamples s.nAudioSampleID = some a)
    (hend : a.nSamples ≤ advance a.wavHeader.nSamplesPerSec dt s.nSamplePosition) :
    GetMixerOutput st ch t dt =
        GetMixerOutput { st with listActiveSamples := l1 ++ l2 } ch t dt ∧
      contribution st.vecAudioSamples ch dt s = some 0 ∧
      (visit st.vecAudioSamples dt s).bFinished = true ∧
      (MixReady { st with listActiveSamples := l1 ++ l2 } ch dt →
        ∃ st1, GetMixerOutput st ch t dt =
            some (applyHooks st ch t dt (mixSum st.vecAudioSamples (l1 ++ l2) ch dt), st1) ∧
          st1.listActiveSamples =
            ((l1 ++ l2).filter (survives st.vecAudioSamples dt)).map
              (visit st.vecAudioSamples dt) ∧
          ∀ x ∈ st1.listActiveSamples, x.bFinished = false) ∧
      ∀ (ts : Nat → ℚ) (k : Nat), runMixer ch ts dt (k + 1) st =
        runMixer ch ts dt (k + 1) { st with listActiveSamples := l1 ++ l2 } := by
  have hst : st = { st with listActiveSamples := l1 ++ s :: l2 } := by
    rw [← hl]
  have hc := contribution_ended st.vecAudioSamples ch dt s a ha hend
  have hsv := survives_ended st.vecAudioSamples dt s a ha hloop hend
  have key : ∀ t', GetMixerOutput st ch t' dt =
      GetMixerOutput { st with listActiveSamples := l1 ++ l2 } ch t' dt := by
    intro t'
    have h := GetMixerOutput_erase st ch t' dt l1 l2 s hact hc hsv
    rw [← h, ← hst]
  refine ⟨key t, hc, ?_, ?_, ?_⟩
  · have := visit_finished st.vecAudioSamples dt s
    rw [hsv] at this
    simpa using this
  · intro hr
    have h2 := GetMixerOutput_active { st with listActiveSamples := l1 ++ l2 } ch t dt hact
    have h3 := allContrib_ready st.vecAudioSamples ch dt (l1 ++ l2) hr.1 hr.2.1 hr.2.2
    simp only [h3, Option.map_some'] at h2
    refine ⟨_, (key t).trans h2, sweep_eq _ dt _, ?_⟩
    intro x hx
    simp only [sweep, List.mem_filter] at hx
    simpa using hx.2
  · intro ts k
    rw [runMixer_first, runMixer_first, key (ts 0)]

/-- C6 (witness). An instance at the last frame of `5, 7, 9` next to one at frame 0: the call
returns frame 1 of the second instance alone and keeps only that instance. -/
theorem C6_run_out_instance_removed_witness :
    MixReady (engineWith [monoSample [5, 7, 9]] [playing 1 0 false]) 0 (1 / 44100) ∧
    (monoSample [5, 7, 9]).nSamples ≤
      advance (monoSample [5, 7, 9]).wavHeader.nSamplesPerSec (1 / 44100)
        (playing 1 2 false).nSamplePosition ∧
    GetMixerOutput (engineWith [monoSample [5, 7, 9]] [playing 1 2 false, playing 1 0 false])
        0 0 (1 / 44100) =
      some (7, engineWith [monoSample [5, 7, 9]] [playing 1 1 false]) := by
  have hend : (monoSample [5, 7, 9]).nSamples ≤
      advance (monoSample [5, 7, 9]).wavHeader.nSamplesPerSec (1 / 44100)
        (playing 1 2 false).nSamplePosition := by
    show (3 : Int) ≤ advance 44100 (1 / 44100) 2
    rw [advance_frame 2 (by norm_num) (by norm_num)]
    norm_num
  have hready : MixReady (engineWith [monoSample [5, 7, 9]] [playing 1 0 false]) 0
      (1 / 44100) := by
    refine ⟨le_refl 0, by norm_num, ?_⟩
    intro x hx
    simp only [engineWith, engine, List.mem_singleton] at hx
    subst hx
    exact ⟨le_refl 0, monoSample [5, 7, 9], rfl, monoSample_loaded _, by simp [monoSample]⟩
  have h1 := (C6_run_out_instance_removed
    (engineWith [monoSample [5, 7, 9]] [playing 1 2 false, playing 1 0 false]) 0 0
    (1 / 44100) [] [playing 1 0 false] (playing 1 2 false) (monoSample [5, 7, 9]) rfl rfl rfl rfl
    hend).1
  have h3 := GetMixerOutput_single [monoSample [5, 7, 9]] 1 (monoSample [5, 7, 9]) 0 0 false 0
    (le_refl 0) (by norm_num) rfl (monoSample_loaded _) (le_refl 0) (by simp [monoSample])
  have hn : (0 : Int) + 1 < (monoSample [5, 7, 9]).nSamples := by simp [monoSample]
  rw [if_pos hn, if_pos hn] at h3
  refine ⟨hready, hend, ?_⟩
  rw [h1]
  exact h3.trans (by simp [frameValue, readSample, monoSample])


theorem succ_mod_cases (k N : Nat) (hN : 0 < N) :
    (k + 1) % N = if k % N + 1 < N then k % N + 1 else 0 := by
  have hp : k % N < N := Nat.mod_lt k hN
  have hk : k + 1 = N * (k / N) + (k % N + 1) := by
    have := Nat.div_add_mod k N
    omega
  by_cases h : k % N + 1 < N
  · rw [if_pos h, hk, Nat.mul_add_mod, Nat.mod_eq_of_lt h]
  · rw [if_neg h]
    have h2 : k % N + 1 = N := by omega
    rw [hk]
    conv_lhs => rw [h2]
    rw [Nat.mul_add_mod, Nat.mod_self]

theorem runMixer_loop (vec : List AudioSample) (id : Int) (a : AudioSample) (ch : Int)
    (ts : Nat → ℚ) (ha : sampleAt vec id = some a) (hl : Loaded a)
    (hch0 : 0 ≤ ch) (hch : ch < a.nChannels) (hn : 1 ≤ a.nSamples)
    (h24 : a.nSamples ≤ 16777216) (k : Nat) :
    runMixer ch ts (1 / 44100) k (engineWith vec [playing id 0 true]) =
      some ((List.range k).map (loopOutput a ch),
        engineWith vec [playing id ((k % a.nSamples.toNat : Nat) : Int) true]) := by
  have hN : ((a.nSamples.toNat : Nat) : Int) = a.nSamples := Int.toNat_of_nonneg (by omega)
  have hN0 : 0 < a.nSamples.toNat := by omega
  induction k with
  | zero => simp [runMixer]
  | succ k ih =>
    have hp : k % a.nSamples.toNat < a.nSamples.toNat := Nat.mod_lt k hN0
    have hstep := GetMixerOutput_single vec id a ch (ts k) true
      ((k % a.nSamples.toNat : Nat) : Int) (by positivity) (by omega) ha hl hch0 hch
    rw [runMixer_succ ch ts _ k _ _ _ _ _ ih hstep, List.range_succ, List.map_append]
    have hmod := succ_mod_cases k a.nSamples.toNat hN0
    by_cases h : k % a.nSamples.toNat + 1 < a.nSamples.toNat
    · have h' : ((k % a.nSamples.toNat : Nat) : Int) + 1 < a.nSamples := by omega
      rw [if_pos h] at hmod
      have hne : ¬ ((k + 1) % a.nSamples.toNat = 0) := by omega
      simp only [if_pos h', loopOutput, hmod, List.map_cons, List.map_nil]
      rw [if_neg (by omega)]
      push_cast
      rfl
    · have h' : ¬ (((k % a.nSamples.toNat : Nat) : Int) + 1 < a.nSamples) := by omega
      rw [if_neg h] at hmod
      simp only [if_neg h', loopOutput, hmod, List.map_cons, List.map_nil, if_true]
      rfl

/-- C5 (code at the failing input). `longSample`, a loaded mono sample of `n = 2^24 + 2`
frames with the value 1 at frame `2^24`, is played with `loop = true` and stepped on channel 0
with time step 1/44100.  After `k` calls its instance is at position `min k 2^24`, and call
number `j` returned 0 for `j + 1 < 2^24` and 1 from then on: at position `2^24` every call
returns frame `2^24` and leaves the position where it is.  So the advanced position never
reaches `n`, the instance never restarts at position 0, and the contributions do not have
period `n`: call 0 returns 0 and call `0 + n` returns 1. -/
theorem C5_long_loop_never_wraps :
    Loaded longSample ∧ longSample.nSamples = 16777218 ∧
    (∀ (ts : Nat → ℚ) (k : Nat),
      runMixer 0 ts (1 / 44100) k (PlaySample (engine [longSample]) 1 true) =
        some ((List.range k).map (fun (j : Nat) => if j + 1 < 16777216 then (0 : ℚ) else 1),
          engineWith [longSample] [playing 1 ((min k 16777216 : Nat) : Int) true])) ∧
    (∀ t : ℚ, GetMixerOutput (engineWith [longSample] [playing 1 16777216 true]) 0 t
        (1 / 44100) = some (1, engineWith [longSample] [playing 1 16777216 true])) ∧
    ∀ ts : Nat → ℚ,
      (runMixer 0 ts (1 / 44100) (16777218 + 1) (PlaySample (engine [longSample]) 1 true)).map
        (fun r => (r.1[0]?, r.1[0 + 16777218]?)) = some (some 0, some 1) := by
  refine ⟨longSample_loaded, longSample_nSamples, fun ts k => longSample_run ts true k,
    fun t => longSample_stalled t true, ?_⟩
  intro ts
  rw [longSample_run ts true (16777218 + 1)]
  simp only [Option.map_some', Option.some.injEq, Prod.mk.injEq]
  constructor
  · rw [List.getElem?_map, List.getElem?_range (by norm_num)]
    simp
  · rw [List.getElem?_map, List.getElem?_range (by norm_num)]
    simp


theorem emptyWav_decodes :
    ReadWave 1 (AudioSample.new ⟨0, 0, 0, 0, 0, 0, 0⟩) [0, 0, 0, 0] (IStream.ofFile emptyWav) =
      .ret (.OK, emptySample) := by
  decide

theorem visit_posInv (vec : List AudioSample) (dt : ℚ) (hdt : 0 ≤ dt)
    (s : sCurrentlyPlayingSample) (h : PosInv vec s) (hsv : survives vec dt s = true) :
    PosInv vec (visit vec dt s) := by
  obtain ⟨a, ha, h0, h1, h2⟩ := h
  have hr : 0 ≤ advance a.wavHeader.nSamplesPerSec dt s.nSamplePosition :=
    advance_nonneg _ dt _ hdt h0
  have hflag := survives_not_flagged vec dt s hsv
  unfold survives at hsv
  simp only [ha, Bool.and_eq_true, Bool.not_eq_true', Bool.or_eq_true, decide_eq_true_eq] at hsv
  unfold visit
  simp only [hflag, Bool.false_eq_true, if_false, ha]
  by_cases hp : advance a.wavHeader.nSamplesPerSec dt s.nSamplePosition < a.nSamples
  · simp only [hp, if_true]
    exact ⟨a, ha, hr, fun _ => hp, fun hn => by simp only; omega⟩
  · have hloop : s.bLoop = true := by
      rcases hsv.2 with h | h
      · exact absurd h hp
      · exact h
    simp only [hp, if_false, hloop, if_true]
    exact ⟨a, ha, le_refl 0, fun hn => hn, fun _ => rfl⟩

theorem reachable_posInv (st : SOUND) (h : Reachable st) :
    ∀ s ∈ st.listActiveSamples, PosInv st.vecAudioSamples s := by
  induction h with
  | init st h => intro s hs; rw [h] at hs; simp at hs
  | play st id b a _ ha _ ih =>
    intro s hs
    simp only [PlaySample, List.mem_append, List.mem_singleton] at hs
    rcases hs with hs | rfl
    · exact ih s hs
    · exact ⟨a, ha, le_refl 0, fun hn => hn, fun _ => rfl⟩
  | stop st id _ ih =>
    intro s hs
    simp only [StopSample] at hs ⊢
    have key : ∀ l : List sCurrentlyPlayingSample, (∀ x ∈ l, PosInv st.vecAudioSamples x) →
        ∀ x ∈ stopFirst id l, PosInv st.vecAudioSamples x := by
      intro l
      induction l with
      | nil => intro _ x hx; simp [stopFirst] at hx
      | cons y rest ihl =>
        intro hall x hx
        unfold stopFirst at hx
        split at hx
        · rcases List.mem_cons.mp hx with rfl | hx
          · exact hall y (List.mem_cons_self _ _)
          · exact hall x (List.mem_cons_of_mem _ hx)
        · rcases List.mem_cons.mp hx with rfl | hx
          · exact hall x (List.mem_cons_self _ _)
          · exact ihl (fun z hz => hall z (List.mem_cons_of_mem _ hz)) x hx
    exact key _ ih s hs
  | stopAll st _ ih =>
    intro s hs
    simp only [StopAll, List.mem_map] at hs ⊢
    obtain ⟨y, hy, rfl⟩ := hs
    exact ih y hy
  | mix st st1 ch t dt v _ hdt hm ih =>
    intro s hs
    by_cases hact : st.m_bAudioThreadActive = true
    · rw [GetMixerOutput_active st ch t dt hact] at hm
      cases hc : allContrib st.vecAudioSamples ch dt st.listActiveSamples with
      | none => simp [hc] at hm
      | some w =>
        simp only [hc, Option.map_some', Option.some.injEq, Prod.mk.injEq] at hm
        obtain ⟨_, rfl⟩ := hm
        simp only [sweep_eq, List.mem_map, List.mem_filter] at hs ⊢
        obtain ⟨y, ⟨hy, hsv⟩, rfl⟩ := hs
        exact visit_posInv _ dt hdt y (ih y hy) hsv
    · have hact' : st.m_bAudioThreadActive = false := by simpa using hact
      obtain ⟨h1, h2⟩ := GetMixerOutput_inactive st st1 ch t dt v hact' hm
      rw [h1] at hs
      rw [h2]
      exact ih s hs


theorem emptySample_loaded : Loaded emptySample := by
  simp [Loaded, emptySample, monoHeader]

/-- C7 (counterexample). The 44-byte file `emptyWav` (data chunk of size 0) decodes to a valid
sample with `nSamples = 0`; after `PlaySample` of its id the registry, reachable from the empty
one, holds an instance at position 0, which is not below `nSamples = 0`. -/
theorem C7_counterexample :
    ReadWave 1 (AudioSample.new ⟨0, 0, 0, 0, 0, 0, 0⟩) [0, 0, 0, 0] (IStream.ofFile emptyWav) =
        .ret (.OK, emptySample) ∧
      Reachable (PlaySample (engine [emptySample]) 1 false) ∧
      ¬ (∀ s ∈ (PlaySample (engine [emptySample]) 1 false).listActiveSamples,
          ∃ a, sampleAt [emptySample] s.nAudioSampleID = some a ∧
            0 ≤ s.nSamplePosition ∧ s.nSamplePosition < a.nSamples) := by
  refine ⟨emptyWav_decodes, ?_, ?_⟩
  · exact Reachable.play (engine [emptySample]) 1 false emptySample
      (Reachable.init _ rfl) rfl emptySample_loaded
  · intro h
    obtain ⟨a, ha, _, hlt⟩ := h (playing 1 0 false) (by simp [PlaySample, engine, playing])
    have : a = emptySample := by
      have h2 : sampleAt [emptySample] (playing 1 0 false).nAudioSampleID = some emptySample := rfl
      rw [h2] at ha
      exact (Option.some.inj ha).symm
    subst this
    simp [playing, emptySample] at hlt

/-- C7 (amended). In every registry state reachable from the empty registry by `PlaySample`
(with ids of loaded samples), `StopSample`, `StopAll` and `GetMixerOutput` calls with
`timeStep >= 0`, every instance present refers to a stored sample and has
`0 <= nSamplePosition`, with `nSamplePosition < nSamples` whenever that sample has at least one
frame; an instance of a sample without frames sits at position 0. -/
theorem C7_position_invariant (st : SOUND) (h : Reachable st) :
    ∀ s ∈ st.listActiveSamples,
      ∃ a, sampleAt st.vecAudioSamples s.nAudioSampleID = some a ∧ 0 ≤ s.nSamplePosition ∧
        (0 < a.nSamples → s.nSamplePosition < a.nSamples) ∧
        (a.nSamples ≤ 0 → s.nSamplePosition = 0) :=
  reachable_posInv st h

/-- C7 (witness). The state after `PlaySample` and one mixer call on the sample `5, 7, 9` is
reachable and keeps the bound. -/
theorem C7_position_invariant_witness :
    Reachable (engineWith [monoSample [5, 7, 9]] [playing 1 1 false]) ∧
      ∀ s ∈ (engineWith [monoSample [5, 7, 9]] [playing 1 1 false]).listActiveSamples,
        ∃ a, sampleAt [monoSample [5, 7, 9]] s.nAudioSampleID = some a ∧ 0 ≤ s.nSamplePosition ∧
          (0 < a.nSamples → s.nSamplePosition < a.nSamples) ∧
          (a.nSamples ≤ 0 → s.nSamplePosition = 0) := by
  have hr : Reachable (engineWith [monoSample [5, 7, 9]] [playing 1 1 false]) := by
    have hplay : Reachable (PlaySample (engine [monoSample [5, 7, 9]]) 1 false) :=
      Reachable.play (engine [monoSample [5, 7, 9]]) 1 false (monoSample [5, 7, 9])
        (Reachable.init _ rfl) rfl (monoSample_loaded _)
    have hstep := GetMixerOutput_single [monoSample [5, 7, 9]] 1 (monoSample [5, 7, 9]) 0 0
      false 0 (le_refl 0) (by norm_num) rfl (monoSample_loaded _) (le_refl 0)
      (by simp [monoSample])
    rw [if_pos (by simp [monoSample]), if_pos (by simp [monoSample])] at hstep
    exact Reachable.mix _ _ 0 0 (1 / 44100) _ hplay (by norm_num) hstep
  exact ⟨hr, C7_position_invariant _ hr⟩


theorem read_good (xs r : List Nat) (sk : Bool) (n : Nat) (hn : xs.length = n) :
    (goodStream (xs ++ r) sk).read n = (xs, goodStream r sk) := by
  subst hn
  simp [IStream.read, goodStream]

theorem seekg_good (xs r : List Nat) (n : Nat) (hn : xs.length = n) :
    (goodStream (xs ++ r) true).seekg n = goodStream r true := by
  subst hn
  simp [IStream.seekg, goodStream]

theorem byteAt_lt (b : List Nat) (i : Nat) : byteAt b i < 256 := by
  unfold byteAt
  omega

theorem le32_bytes32 (v : Nat) (hv : v < 2 ^ 32) (r : List Nat) : le32 (bytes32 v ++ r) 0 = v := by
  simp [le32, bytes32, byteAt]
  omega

theorem take_overwrite (dst got : List Nat) (n : Nat) (h : got.length = n) :
    (overwrite dst got).take n = got := by
  subst h
  simp [overwrite]

theorem le32_overwrite (sizeP : List Nat) (v : Nat) (hv : v < 2 ^ 32) :
    le32 (overwrite sizeP (bytes32 v)) 0 = v := by
  unfold overwrite
  exact le32_bytes32 v hv _

theorem scanChunks_finds (B : Nat) (hB : B < 2 ^ 32) (tail : List Nat) (sk : Bool)
    (chunks : List SkipChunk)
    (hch : ∀ c ∈ chunks, c.tag.length = 4 ∧ c.tag ≠ tagData ∧ c.body.length < 2 ^ 32)
    (hsk : chunks ≠ [] → sk = true) (fuel : Nat) (hfuel : chunks.length < fuel)
    (dumpP sizeP : List Nat) :
    ∃ dump size,
      scanChunks fuel
          (((goodStream (chunkBytes chunks ++ (tagData ++ (bytes32 B ++ tail))) sk).read 4).2.read
            4).2
          (overwrite dumpP
            ((goodStream (chunkBytes chunks ++ (tagData ++ (bytes32 B ++ tail))) sk).read 4).1)
          (overwrite sizeP
            (((goodStream (chunkBytes chunks ++ (tagData ++ (bytes32 B ++ tail))) sk).read 4).2.read
              4).1) = some (goodStream tail sk, dump, size) ∧
        le32 size 0 = B := by
  induction chunks generalizing fuel dumpP sizeP with
  | nil =>
    obtain ⟨f, rfl⟩ : ∃ f, fuel = f + 1 := ⟨fuel - 1, by simp at hfuel; omega⟩
    simp only [chunkBytes, List.nil_append]
    rw [read_good tagData _ sk 4 rfl]
    simp only
    rw [read_good (bytes32 B) tail sk 4 rfl]
    simp only [scanChunks, take_overwrite dumpP tagData 4 rfl, if_true]
    exact ⟨_, _, rfl, le32_overwrite sizeP B hB⟩
  | cons c cs ih =>
    obtain ⟨f, rfl⟩ : ∃ f, fuel = f + 1 := ⟨fuel - 1, by simp at hfuel; omega⟩
    obtain ⟨ht, hne, hb⟩ := hch c (List.mem_cons_self _ _)
    have hsk' : sk = true := hsk (by simp)
    subst hsk'
    have hshape : chunkBytes (c :: cs) ++ (tagData ++ (bytes32 B ++ tail)) =
        c.tag ++ (bytes32 c.body.length ++ (c.body ++
          (chunkBytes cs ++ (tagData ++ (bytes32 B ++ tail))))) := by
      simp [chunkBytes, SkipChunk.bytes, List.append_assoc]
    rw [hshape, read_good c.tag _ true 4 ht]
    simp only
    rw [read_good (bytes32 c.body.length) _ true 4 rfl]
    simp only [scanChunks, take_overwrite dumpP c.tag 4 ht, hne, if_false,
      le32_overwrite sizeP c.body.length hb]
    rw [seekg_good c.body _ c.body.length rfl]
    exact ih (fun x hx => hch x (List.mem_cons_of_mem _ hx)) (fun _ => rfl) f
      (by simp at hfuel; omega) _ _


theorem toShort_take (r : List Nat) (h : 2 ≤ r.length) :
    toShort (overwrite [0, 0] (r.take 2)) = toShort r := by
  match r, h with
  | a :: b :: rest, _ => simp [overwrite, toShort, le16, byteAt]

theorem convertOne_good (r : List Nat) (sk : Bool) (acc : List ℚ) (h : 2 ≤ r.length) :
    convertOne (goodStream r sk, acc) =
      (goodStream (r.drop 2) sk, acc ++ [normalise (toShort r)]) := by
  unfold convertOne
  have hr : (goodStream r sk).read 2 = (r.take 2, goodStream (r.drop 2) sk) := by
    simp [IStream.read, goodStream, h]
  simp only [IStream.eof, goodStream, Bool.false_eq_true, if_false] at hr ⊢
  rw [hr]
  simp only [toShort_take r h]

theorem convert_iterate (r : List Nat) (sk : Bool) (acc : List ℚ) (m : Nat)
    (h : 2 * m ≤ r.length) :
    convertOne^[m] (goodStream r sk, acc) =
      (goodStream (r.drop (2 * m)) sk,
        acc ++ (List.range m).map (fun k => normalise (payloadValue r k))) := by
  induction m with
  | zero => simp
  | succ m ih =>
    rw [Function.iterate_succ_apply', ih (by omega),
      convertOne_good _ sk _ (by rw [List.length_drop]; omega)]
    simp only [List.drop_drop, List.range_succ, List.map_append, List.map_cons, List.map_nil,
      List.append_assoc, payloadValue]
    rw [show 2 * (m + 1) = 2 * m + 2 by ring]

theorem convertAll_good (r : List Nat) (sk : Bool) (n c : Nat) (h : 2 * (n * c) ≤ r.length) :
    (convertAll n c (goodStream r sk, [])).2 =
      (List.range (n * c)).map (fun k => normalise (payloadValue r k)) := by
  unfold convertAll
  rw [← Function.iterate_mul, Nat.mul_comm c n, convert_iterate r sk [] (n * c) h]
  simp


theorem ReadWave_wavStream (fuel : Nat) (self : AudioSample) (dump0 : List Nat) (sk : Bool)
    (riffSize fmtTag hdr : List Nat) (chunks : List SkipChunk) (B : Nat) (tail : List Nat)
    (h1 : riffSize.length = 4) (h2 : fmtTag.length = 4) (h3 : hdr.length ≤ 18)
    (hbits : (jpr_WAVEFORMATEX.ofBytes (overwrite self.wavHeader.toBytes hdr)).wBitsPerSample = 16)
    (hrate : (jpr_WAVEFORMATEX.ofBytes
      (overwrite self.wavHeader.toBytes hdr)).nSamplesPerSec = 44100)
    (hc : 1 ≤ (jpr_WAVEFORMATEX.ofBytes (overwrite self.wavHeader.toBytes hdr)).nChannels)
    (hch : ∀ c ∈ chunks, c.tag.length = 4 ∧ c.tag ≠ tagData ∧ c.body.length < 2 ^ 32)
    (hsk : chunks ≠ [] → sk = true) (hfuel : chunks.length < fuel)
    (hB : B < 2 ^ 32) (hpresent : B ≤ tail.length) :
    ReadWave fuel self dump0 (goodStream (wavStream riffSize fmtTag hdr chunks B tail) sk) =
      .ret (.OK,
        { wavHeader := jpr_WAVEFORMATEX.ofBytes (overwrite self.wavHeader.toBytes hdr)
          fSample := (List.range (B /
              ((jpr_WAVEFORMATEX.ofBytes (overwrite self.wavHeader.toBytes hdr)).nChannels * 2) *
              (jpr_WAVEFORMATEX.ofBytes (overwrite self.wavHeader.toBytes hdr)).nChannels)).map
            (fun k => normalise (payloadValue tail k))
          nSamples := ((B /
            ((jpr_WAVEFORMATEX.ofBytes (overwrite self.wavHeader.toBytes hdr)).nChannels * 2)
              : Nat) : Int)
          nChannels := (((jpr_WAVEFORMATEX.ofBytes
            (overwrite self.wavHeader.toBytes hdr)).nChannels : Nat) : Int)
          bSampleValid := true }) := by
  unfold ReadWave wavStream
  simp only []
  rw [read_good tagRIFF _ sk 4 rfl]
  simp only [take_overwrite dump0 tagRIFF 4 rfl, ne_eq, not_true_eq_false, if_false]
  rw [read_good riffSize _ sk 4 h1]
  simp only []
  rw [read_good tagWAVE _ sk 4 rfl]
  simp only [take_overwrite _ tagWAVE 4 rfl, ne_eq, not_true_eq_false, if_false]
  rw [read_good fmtTag _ sk 4 h2]
  simp only []
  rw [read_good (bytes32 hdr.length) _ sk 4 rfl]
  simp only [le32_overwrite [0, 0, 0, 0] hdr.length (by omega)]
  rw [read_good hdr _ sk hdr.length rfl]
  simp only [sizeofWaveFormat, not_lt.mpr h3, if_false, hbits, hrate, ne_eq, not_true_eq_false,
    or_self]
  obtain ⟨dump, size, hscan, hle⟩ := scanChunks_finds B hB tail sk chunks hch hsk fuel hfuel
    (overwrite (overwrite (overwrite (overwrite dump0 tagRIFF) riffSize) tagWAVE) fmtTag)
    [0, 0, 0, 0]
  rw [hscan]
  have h16 : (16 : Nat) >>> 3 = 2 := by decide
  simp only [hle, h16]
  rw [if_neg (by omega)]
  have hconv := convertAll_good tail sk
    (B / ((jpr_WAVEFORMATEX.ofBytes (overwrite self.wavHeader.toBytes hdr)).nChannels * 2))
    (jpr_WAVEFORMATEX.ofBytes (overwrite self.wavHeader.toBytes hdr)).nChannels
    (by
      have := Nat.div_mul_le_self B
        ((jpr_WAVEFORMATEX.ofBytes (overwrite self.wavHeader.toBytes hdr)).nChannels * 2)
      nlinarith)
  rw [hconv]


theorem toShort_range (b : List Nat) : -32768 ≤ toShort b ∧ toShort b ≤ 32767 := by
  unfold toShort le16
  have h0 := byteAt_lt b 0
  have h1 := byteAt_lt b (0 + 1)
  split <;> constructor <;> omega

theorem normalise_range (s : Int) (h0 : -32768 ≤ s) (h1 : s ≤ 32767) :
    -32768 / 32767 ≤ normalise s ∧ normalise s ≤ 1 := by
  unfold normalise SHRT_MAX
  have h0' : (-32768 : ℚ) ≤ (s : ℚ) := by exact_mod_cast h0
  have h1' : (s : ℚ) ≤ 32767 := by exact_mod_cast h1
  push_cast
  constructor
  · exact div_le_div_of_nonneg_right h0' (by norm_num)
  · rw [div_le_one (by norm_num)]
    exact h1'

theorem convertOne_allShorts (st : IStream × List ℚ) (h : AllShorts st.2) :
    AllShorts (convertOne st).2 := by
  unfold convertOne
  split
  · exact h
  · intro v hv
    simp only [List.mem_append, List.mem_singleton] at hv
    rcases hv with hv | rfl
    · exact h v hv
    · exact ⟨_, (toShort_range _).1, (toShort_range _).2, rfl⟩

theorem iterate_allShorts (f : IStream × List ℚ → IStream × List ℚ)
    (hf : ∀ st, AllShorts st.2 → AllShorts (f st).2) (m : Nat) (st : IStream × List ℚ)
    (h : AllShorts st.2) : AllShorts (f^[m] st).2 := by
  induction m generalizing st with
  | zero => exact h
  | succ m ih =>
    rw [Function.iterate_succ_apply]
    exact ih (f st) (hf st h)

theorem convertAll_allShorts (n c : Nat) (s : IStream) : AllShorts (convertAll n c (s, [])).2 := by
  unfold convertAll
  apply iterate_allShorts
  · intro st hst
    exact iterate_allShorts convertOne convertOne_allShorts c st hst
  · intro v hv
    simp at hv

theorem ReadWave_ok_fSample (fuel : Nat) (self : AudioSample) (dump0 : List Nat) (s0 : IStream)
    (a : AudioSample) (h : ReadWave fuel self dump0 s0 = .ret (.OK, a)) :
    ∃ n c s, a.fSample = (convertAll n c (s, [])).2 := by
  unfold ReadWave at h
  simp only [] at h
  split at h
  · cases h
  · split at h
    · cases h
    · split at h
      · cases h
      · split at h
        · cases h
        · split at h
          · cases h
          · split at h
            · cases h
            · simp only [Outcome.ret.injEq, Prod.mk.injEq, true_and] at h
              subst h
              exact ⟨_, _, _, rfl⟩


theorem smallWav_decodes :
    ReadWave 2 (AudioSample.new ⟨0, 0, 0, 0, 0, 0, 0⟩) [0, 0, 0, 0] (goodStream smallWav true) =
      .ret (.OK, { wavHeader := monoHeader, fSample := [1 / 32767, -32768 / 32767],
                   nSamples := 2, nChannels := 1, bSampleValid := true }) := by
  have h := ReadWave_wavStream 2 (AudioSample.new ⟨0, 0, 0, 0, 0, 0, 0⟩) [0, 0, 0, 0] true
    [46, 0, 0, 0] tagFmt monoHeaderBytes [⟨[76, 73, 83, 84], [7, 8]⟩] 4 [1, 0, 0, 128]
    rfl rfl (by decide) (by decide) (by decide) (by decide)
    (by
      intro x hx
      simp only [List.mem_singleton] at hx
      subst hx
      exact ⟨rfl, by decide, by decide⟩)
    (fun _ => rfl) (by decide) (by decide) (by decide)
  have hh : jpr_WAVEFORMATEX.ofBytes
      (overwrite (AudioSample.new ⟨0, 0, 0, 0, 0, 0, 0⟩).wavHeader.toBytes monoHeaderBytes) =
        monoHeader := by decide
  rw [hh] at h
  unfold smallWav
  rw [h]
  have hv0 : payloadValue [1, 0, 0, 128] 0 = 1 := by decide
  have hv1 : payloadValue [1, 0, 0, 128] 1 = -32768 := by decide
  simp [monoHeader, List.range_succ, hv0, hv1, normalise, SHRT_MAX]

/-- C9 (counterexample). The file `smallWav` is accepted by the decoder and its second payload
value is the `short` -32768; the value stored for it is `-32768/32767`, which is below -1. -/
theorem C9_counterexample :
    ∃ a, ReadWave 2 (AudioSample.new ⟨0, 0, 0, 0, 0, 0, 0⟩) [0, 0, 0, 0]
        (goodStream smallWav true) = .ret (.OK, a) ∧
      a.fSample[1]? = some ((-32768 : ℚ) / 32767) ∧ ¬ ((-1 : ℚ) ≤ -32768 / 32767) :=
  ⟨_, smallWav_decodes, by simp, by norm_num⟩

/-- C9 (amended). For every byte stream that the decoder accepts, every stored sample value is
`s / 32767` for a signed 16-bit value `s` and lies in `[-32768/32767, 1]`; it lies in
`[-1, 1]` whenever `s` is not -32768. -/
theorem C9_stored_value_range (fuel : Nat) (self : AudioSample) (dump0 : List Nat)
    (s0 : IStream) (a : AudioSample) (h : ReadWave fuel self dump0 s0 = .ret (.OK, a)) :
    ∀ v ∈ a.fSample, ∃ s : Int, -32768 ≤ s ∧ s ≤ 32767 ∧ v = (s : ℚ) / 32767 ∧
      -32768 / 32767 ≤ v ∧ v ≤ 1 ∧ (s ≠ -32768 → -1 ≤ v) := by
  obtain ⟨n, c, s, hf⟩ := ReadWave_ok_fSample fuel self dump0 s0 a h
  intro v hv
  rw [hf] at hv
  obtain ⟨x, hx0, hx1, rfl⟩ := convertAll_allShorts n c s v hv
  have hr := normalise_range x hx0 hx1
  refine ⟨x, hx0, hx1, by simp [normalise, SHRT_MAX], hr.1, hr.2, ?_⟩
  intro hne
  have hx2 : (-32767 : ℚ) ≤ (x : ℚ) := by
    have : -32767 ≤ x := by omega
    exact_mod_cast this
  unfold normalise SHRT_MAX
  rw [le_div_iff₀ (by norm_num)]
  push_cast
  linarith

/-- C9 (witness). The two values stored for the file `smallWav`. -/
theorem C9_stored_value_range_witness :
    ReadWave 2 (AudioSample.new ⟨0, 0, 0, 0, 0, 0, 0⟩) [0, 0, 0, 0] (goodStream smallWav true) =
        .ret (.OK, { wavHeader := monoHeader, fSample := [1 / 32767, -32768 / 32767],
                     nSamples := 2, nChannels := 1, bSampleValid := true }) ∧
      ∀ v ∈ ([1 / 32767, -32768 / 32767] : List ℚ), ∃ s : Int, -32768 ≤ s ∧ s ≤ 32767 ∧
        v = (s : ℚ) / 32767 ∧ -32768 / 32767 ≤ v ∧ v ≤ 1 ∧ (s ≠ -32768 → -1 ≤ v) :=
  ⟨smallWav_decodes,
    C9_stored_value_range 2 (AudioSample.new ⟨0, 0, 0, 0, 0, 0, 0⟩) [0, 0, 0, 0]
      (goodStream smallWav true) _ smallWav_decodes⟩

theorem nMaxSample_eq : nMaxSample = 32766 := by decide

theorem fMaxSample_eq : fMaxSample = 32766 := by
  simp [fMaxSample, nMaxSample_eq]

theorem truncShort_bound (y : ℚ) (M : Int) (h0 : -(M : ℚ) ≤ y) (h1 : y ≤ (M : ℚ)) :
    -M ≤ truncShort y ∧ truncShort y ≤ M := by
  unfold truncShort
  have hf : ∀ z : ℚ, Rat.floor z = ⌊z⌋ := fun _ => rfl
  split
  · rename_i hy
    rw [hf]
    constructor
    · have : (0 : Int) ≤ ⌊y⌋ := Int.floor_nonneg.mpr hy
      have hM : (0 : ℚ) ≤ M := by linarith
      have hM' : (0 : Int) ≤ M := by exact_mod_cast hM
      omega
    · have := Int.floor_le y
      have h3 : ((⌊y⌋ : Int) : ℚ) ≤ (M : ℚ) := by linarith
      exact_mod_cast h3
  · rename_i hy
    rw [hf]
    have hy' : 0 ≤ -y := by linarith
    constructor
    · have := Int.floor_le (-y)
      have h3 : ((⌊-y⌋ : Int) : ℚ) ≤ (M : ℚ) := by linarith
      have h4 : ⌊-y⌋ ≤ M := by exact_mod_cast h3
      omega
    · have : (0 : Int) ≤ ⌊-y⌋ := Int.floor_nonneg.mpr hy'
      have hM : (0 : ℚ) ≤ M := by linarith
      have hM' : (0 : Int) ≤ M := by exact_mod_cast hM
      omega

theorem clip_one_bound (x : ℚ) : -1 ≤ clip x 1 ∧ clip x 1 ≤ 1 := by
  unfold clip
  split
  · rename_i h
    constructor
    · have : (0 : ℚ) ≤ min x 1 := le_min h (by norm_num)
      linarith
    · exact min_le_right _ _
  · rename_i h
    constructor
    · exact le_max_right _ _
    · have : max x (-1) ≤ 0 := max_le (by linarith [not_le.mp h]) (by norm_num)
      linarith

theorem quantise_range (x : ℚ) : -32766 ≤ quantise x ∧ quantise x ≤ 32766 := by
  unfold quantise
  rw [fMaxSample_eq]
  have hb := clip_one_bound x
  exact truncShort_bound (clip x 1 * 32766) 32766 (by push_cast; linarith) (by push_cast; linarith)

theorem toShort_shortBytes (s : Int) (h0 : -32768 ≤ s) (h1 : s ≤ 32767) (r : List Nat) :
    toShort (shortBytes s ++ r) = s := by
  simp only [shortBytes, bytes16, toShort, le16, byteAt, List.cons_append, List.nil_append,
    List.getD_cons_zero, List.getD_cons_succ, zero_add]
  split <;> omega

theorem truncShort_eq (y : ℚ) : truncShort y = if 0 ≤ y then ⌊y⌋ else ⌈y⌉ := by
  unfold truncShort
  have hf : ∀ z : ℚ, Rat.floor z = ⌊z⌋ := fun _ => rfl
  split
  · exact hf y
  · rw [hf, Int.floor_neg, neg_neg]

theorem quantise_eq (x : ℚ) :
    quantise x = (if 0 ≤ x then ⌊min x 1 * 32766⌋ else ⌈max x (-1) * 32766⌉) := by
  unfold quantise
  rw [fMaxSample_eq, truncShort_eq]
  unfold clip
  by_cases hx : 0 ≤ x
  · have h1 : (0 : ℚ) ≤ min x 1 * 32766 :=
      mul_nonneg (le_min hx (by norm_num)) (by norm_num)
    simp only [ge_iff_le, hx, if_true, h1]
  · have hx' : x < 0 := not_le.mp hx
    have h1 : ¬ ((0 : ℚ) ≤ max x (-1) * 32766) := by
      have : max x (-1) < 0 := max_lt hx' (by norm_num)
      nlinarith
    simp only [ge_iff_le, hx, if_false, h1]

theorem quantise_near_one : quantise (131071 / 131072) = 32765 := by
  rw [quantise_eq, if_pos (by norm_num), min_eq_left (by norm_num), Int.floor_eq_iff]
  norm_num

/-- C10 (code at the failing input). The value `x = 131071/131072 = 1 - 2^-17` lies in
`[-1, 1]`.  The stream loop scales by `fMaxSample = 32766`, not 32767, so it quantises `x` to
`trunc(x * 32766) = 32765`; the decoder's `s / 32767` gives `32765/32767`, which is more than
`1/32767` away from `x`.  The mono file whose data chunk holds the quantised value decodes to
a sample with exactly that stored value. -/
theorem C10_roundtrip_exceeds_one_step :
    -1 ≤ (131071 / 131072 : ℚ) ∧ (131071 / 131072 : ℚ) ≤ 1 ∧
    fMaxSample = 32766 ∧ quantise (131071 / 131072) = 32765 ∧
    1 / 32767 < |normalise (quantise (131071 / 131072)) - 131071 / 131072| ∧
    ReadWave 1 (AudioSample.new ⟨0, 0, 0, 0, 0, 0, 0⟩) [0, 0, 0, 0]
        (IStream.ofFile (wavStream [38, 0, 0, 0] tagFmt monoHeaderBytes [] 2
          (encodePCM [131071 / 131072]))) =
      .ret (.OK, { wavHeader := monoHeader, fSample := [32765 / 32767], nSamples := 1,
                   nChannels := 1, bSampleValid := true }) := by
  refine ⟨by norm_num, by norm_num, fMaxSample_eq, quantise_near_one, ?_, ?_⟩
  · rw [quantise_near_one]
    norm_num [normalise, SHRT_MAX, abs_of_neg]
  · have henc : encodePCM [131071 / 131072] = [253, 127] := by
      simp only [encodePCM, quantise_near_one]
      decide
    rw [henc]
    have h := ReadWave_wavStream 1 (AudioSample.new ⟨0, 0, 0, 0, 0, 0, 0⟩) [0, 0, 0, 0] true
      [38, 0, 0, 0] tagFmt monoHeaderBytes [] 2 [253, 127]
      rfl rfl (by decide) (by decide) (by decide) (by decide)
      (by intro x hx; simp at hx)
      (fun h => absurd rfl h) (by decide) (by decide) (by decide)
    have hh : jpr_WAVEFORMATEX.ofBytes
        (overwrite (AudioSample.new ⟨0, 0, 0, 0, 0, 0, 0⟩).wavHeader.toBytes monoHeaderBytes) =
          monoHeader := by decide
    rw [hh] at h
    have e : IStream.ofFile (wavStream [38, 0, 0, 0] tagFmt monoHeaderBytes [] 2 [253, 127]) =
        goodStream (wavStream [38, 0, 0, 0] tagFmt monoHeaderBytes [] 2 [253, 127]) true := rfl
    rw [e, h]
    have hv0 : payloadValue [253, 127] 0 = 32765 := by decide
    simp [monoHeader, List.range_succ, hv0, normalise, SHRT_MAX]


theorem read_failed (s : IStream) (n : Nat) (h : s.failbit = true) :
    (s.read n).1 = [] ∧ (s.read n).2.failbit = true := by
  simp [IStream.read, h]

theorem seekg_failed (s : IStream) (n : Nat) (h : s.failbit = true) :
    (s.seekg n).failbit = true := by
  simp [IStream.seekg, h]

theorem overwrite_nil (d : List Nat) : overwrite d [] = d := by
  simp [overwrite]

theorem scanChunks_failed (fuel : Nat) (s : IStream) (dump size : List Nat)
    (h : s.failbit = true) (hd : dump.take 4 ≠ tagData) :
    scanChunks fuel s dump size = none := by
  induction fuel generalizing s size with
  | zero => rfl
  | succ f ih =>
    unfold scanChunks
    rw [if_neg hd]
    simp only []
    have h1 := seekg_failed s (le32 size 0) h
    have h2 := read_failed (s.seekg (le32 size 0)) 4 h1
    have h3 := read_failed ((s.seekg (le32 size 0)).read 4).2 4 h2.2
    rw [h2.1, h3.1, overwrite_nil]
    exact ih _ _ h3.2

theorem read_goodStream (bytes : List Nat) (sk : Bool) (n : Nat) :
    (goodStream bytes sk).read n =
      if n ≤ bytes.length then (bytes.take n, goodStream (bytes.drop n) sk)
      else (bytes, { rest := [], eofbit := true, failbit := true, seekable := sk }) := by
  simp [IStream.read, goodStream]


theorem tagWAVE_ne_tagData : tagWAVE ≠ tagData := by decide

theorem ReadWave_failed3 (fuel : Nat) (self : AudioSample) (dump0 : List Nat) (s0 : IStream)
    (h : (((s0.read 4).2.read 4).2.read 4).2.failbit = true) (a : AudioSample) :
    ReadWave fuel self dump0 s0 ≠ .ret (.OK, a) := by
  unfold ReadWave
  simp only []
  generalize hs3 : (((s0.read 4).2.read 4).2.read 4).2 = s3 at h ⊢
  generalize hd3 : overwrite (overwrite (overwrite dump0 (s0.read 4).1) ((s0.read 4).2.read 4).1)
    (((s0.read 4).2.read 4).2.read 4).1 = dump3
  split
  · simp
  · split
    · simp
    · rename_i hW
      have hW' : dump3.take 4 = tagWAVE := by simpa using hW
      have h4 := read_failed s3 4 h
      have h5 := read_failed (s3.read 4).2 4 h4.2
      rw [h4.1, h5.1]
      simp only [overwrite_nil]
      have h0 : le32 [0, 0, 0, 0] 0 = 0 := by decide
      rw [h0]
      have h6 := read_failed ((s3.read 4).2.read 4).2 0 h5.2
      rw [h6.1]
      simp only [overwrite_nil, List.length_nil]
      split
      · simp
      · split
        · simp
        · have h7 := read_failed (((s3.read 4).2.read 4).2.read 0).2 4 h6.2
          have h8 := read_failed ((((s3.read 4).2.read 4).2.read 0).2.read 4).2 4 h7.2
          rw [h7.1, h8.1]
          simp only [overwrite_nil]
          rw [scanChunks_failed fuel _ dump3 [0, 0, 0, 0] h8.2
            (by rw [hW']; exact tagWAVE_ne_tagData)]
          simp


theorem tagRIFF_ne_tagWAVE : tagRIFF ≠ tagWAVE := by decide

theorem ReadWave_not_RIFF (fuel : Nat) (self : AudioSample) (dump0 bytes : List Nat) (sk : Bool)
    (h : bytes.take 4 ≠ tagRIFF) :
    ReadWave fuel self dump0 (goodStream bytes sk) = .ret (.FAIL, self) := by
  unfold ReadWave
  simp only []
  rw [read_goodStream]
  by_cases hlen : 4 ≤ bytes.length
  · rw [if_pos hlen]
    simp only [take_overwrite dump0 (bytes.take 4) 4 (by simp [hlen])]
    rw [if_pos (by simpa using h)]
  · rw [if_neg hlen]
    simp only []
    split
    · rfl
    · rename_i hR
      have hR' : (overwrite dump0 bytes).take 4 = tagRIFF := by simpa using hR
      have hf : ({ rest := [], eofbit := true, failbit := true, seekable := sk } : IStream).failbit
          = true := rfl
      have h2 := read_failed _ 4 hf
      have h3 := read_failed _ 4 h2.2
      rw [h2.1, h3.1]
      simp only [overwrite_nil]
      rw [if_pos (by rw [hR']; exact tagRIFF_ne_tagWAVE)]

theorem ReadWave_not_WAVE (fuel : Nat) (self : AudioSample) (dump0 bytes : List Nat) (sk : Bool)
    (hlen : 12 ≤ bytes.length) (h : (bytes.drop 8).take 4 ≠ tagWAVE) :
    ReadWave fuel self dump0 (goodStream bytes sk) = .ret (.FAIL, self) := by
  have r1 : (goodStream bytes sk).read 4 = (bytes.take 4, goodStream (bytes.drop 4) sk) := by
    rw [read_goodStream, if_pos (show 4 ≤ bytes.length by omega)]
  have r2 : (goodStream (bytes.drop 4) sk).read 4 =
      ((bytes.drop 4).take 4, goodStream (bytes.drop 8) sk) := by
    rw [read_goodStream, if_pos (show 4 ≤ (bytes.drop 4).length by
      rw [List.length_drop]; omega), List.drop_drop]
  have r3 : (goodStream (bytes.drop 8) sk).read 4 =
      ((bytes.drop 8).take 4, goodStream (bytes.drop 12) sk) := by
    rw [read_goodStream, if_pos (show 4 ≤ (bytes.drop 8).length by
      rw [List.length_drop]; omega), List.drop_drop]
  unfold ReadWave
  simp only []
  rw [r1]
  simp only []
  rw [r2]
  simp only []
  rw [r3]
  simp only []
  split
  · rfl
  · rw [if_pos]
    rw [take_overwrite _ _ 4 (by rw [List.length_take, List.length_drop]; omega)]
    simpa using h


theorem read_short_failbit (bytes : List Nat) (sk : Bool) (n : Nat) (h : bytes.length < n) :
    ((goodStream bytes sk).read n).2.failbit = true := by
  rw [read_goodStream, if_neg (by omega)]

theorem read_full (bytes : List Nat) (sk : Bool) (n : Nat) (h : n ≤ bytes.length) :
    (goodStream bytes sk).read n = (bytes.take n, goodStream (bytes.drop n) sk) := by
  rw [read_goodStream, if_pos h]

theorem three_reads_fail (bytes : List Nat) (sk : Bool) (h : bytes.length < 12) :
    ((((goodStream bytes sk).read 4).2.read 4).2.read 4).2.failbit = true := by
  by_cases h1 : 4 ≤ bytes.length
  · rw [read_full bytes sk 4 h1]
    by_cases h2 : 4 ≤ (bytes.drop 4).length
    · rw [read_full _ sk 4 h2]
      exact read_short_failbit _ sk 4 (by
        rw [List.length_drop] at h2 ⊢
        rw [List.length_drop]
        omega)
    · exact (read_failed _ 4 (read_short_failbit _ sk 4 (by omega))).2
  · exact (read_failed _ 4 (read_failed _ 4 (read_short_failbit _ sk 4 (by omega))).2).2

theorem ReadWave_ok_header (fuel : Nat) (self : AudioSample) (dump0 : List Nat) (s0 : IStream)
    (a : AudioSample) (h : ReadWave fuel self dump0 s0 = .ret (.OK, a)) :
    a.wavHeader.wBitsPerSample = 16 ∧ a.wavHeader.nSamplesPerSec = 44100 ∧
      a.bSampleValid = true := by
  unfold ReadWave at h
  simp only [] at h
  split at h
  · cases h
  · split at h
    · cases h
    · split at h
      · cases h
      · split at h
        · cases h
        · rename_i hchk
          split at h
          · cases h
          · split at h
            · cases h
            · simp only [Outcome.ret.injEq, Prod.mk.injEq, true_and] at h
              subst h
              simp only [not_or, not_not] at hchk
              exact ⟨hchk.1, hchk.2, rfl⟩

theorem ReadWave_fail_valid (fuel : Nat) (self : AudioSample) (dump0 : List Nat) (s0 : IStream)
    (a : AudioSample) (h : ReadWave fuel self dump0 s0 = .ret (.FAIL, a)) :
    a.bSampleValid = self.bSampleValid ∧ a.fSample = self.fSample ∧
      a.nSamples = self.nSamples ∧ a.nChannels = self.nChannels := by
  unfold ReadWave at h
  simp only [] at h
  split at h
  · simp only [Outcome.ret.injEq, Prod.mk.injEq, true_and] at h
    subst h
    exact ⟨rfl, rfl, rfl, rfl⟩
  · split at h
    · simp only [Outcome.ret.injEq, Prod.mk.injEq, true_and] at h
      subst h
      exact ⟨rfl, rfl, rfl, rfl⟩
    · split at h
      · cases h
      · split at h
        · simp only [Outcome.ret.injEq, Prod.mk.injEq, true_and] at h
          subst h
          exact ⟨rfl, rfl, rfl, rfl⟩
        · split at h
          · cases h
          · split at h
            · cases h
            · simp at h


theorem ReadWave_bad_header (fuel : Nat) (self : AudioSample) (dump0 : List Nat) (sk : Bool)
    (riffSize fmtTag hdr rest : List Nat)
    (h1 : riffSize.length = 4) (h2 : fmtTag.length = 4) (h3 : hdr.length ≤ 18)
    (hbad : (jpr_WAVEFORMATEX.ofBytes (overwrite self.wavHeader.toBytes hdr)).wBitsPerSample ≠ 16 ∨
      (jpr_WAVEFORMATEX.ofBytes (overwrite self.wavHeader.toBytes hdr)).nSamplesPerSec ≠ 44100) :
    ReadWave fuel self dump0 (goodStream (headerStream riffSize fmtTag hdr rest) sk) =
      .ret (.FAIL, { self with
        wavHeader := jpr_WAVEFORMATEX.ofBytes (overwrite self.wavHeader.toBytes hdr) }) := by
  unfold ReadWave headerStream
  simp only []
  rw [read_good tagRIFF _ sk 4 rfl]
  simp only [take_overwrite dump0 tagRIFF 4 rfl, ne_eq, not_true_eq_false, if_false]
  rw [read_good riffSize _ sk 4 h1]
  simp only []
  rw [read_good tagWAVE _ sk 4 rfl]
  simp only [take_overwrite _ tagWAVE 4 rfl, ne_eq, not_true_eq_false, if_false]
  rw [read_good fmtTag _ sk 4 h2]
  simp only []
  rw [read_good (bytes32 hdr.length) _ sk 4 rfl]
  simp only [le32_overwrite [0, 0, 0, 0] hdr.length (by omega)]
  rw [read_good hdr _ sk hdr.length rfl]
  simp only [sizeofWaveFormat, not_lt.mpr h3, if_false]
  rw [if_pos hbad]

theorem read_empty (sk : Bool) (n : Nat) (hn : 0 < n) :
    ((goodStream [] sk).read n).1 = [] ∧ ((goodStream [] sk).read n).2.failbit = true := by
  rw [read_goodStream, if_neg (by simp; omega)]
  exact ⟨rfl, rfl⟩

theorem ReadWave_RIFFWAVE (fuel : Nat) (dump0 : List Nat) :
    ReadWave fuel (AudioSample.new monoHeader) dump0 (IStream.ofFile (tagRIFF ++ tagWAVE)) =
      .outOfFuel := by
  have r1 : (IStream.ofFile (tagRIFF ++ tagWAVE)).read 4 = (tagRIFF, goodStream tagWAVE true) := by
    decide
  have r2 : (goodStream tagWAVE true).read 4 = (tagWAVE, goodStream [] true) := by decide
  have r3 : ((goodStream [] true).read 4).1 = [] ∧ ((goodStream [] true).read 4).2.failbit = true :=
    read_empty true 4 (by norm_num)
  generalize hs3 : ((goodStream [] true).read 4).2 = s3 at r3
  have h4 := read_failed s3 4 r3.2
  have h5 := read_failed (s3.read 4).2 4 h4.2
  have h6 := read_failed ((s3.read 4).2.read 4).2 0 h5.2
  have h7 := read_failed (((s3.read 4).2.read 4).2.read 0).2 4 h6.2
  have h8 := read_failed ((((s3.read 4).2.read 4).2.read 0).2.read 4).2 4 h7.2
  have hhdr : jpr_WAVEFORMATEX.ofBytes (AudioSample.new monoHeader).wavHeader.toBytes
      = monoHeader := by decide
  unfold ReadWave
  simp only [r1, take_overwrite dump0 tagRIFF 4 rfl, ne_eq, not_true_eq_false, if_false, r2,
    r3.1, hs3, overwrite_nil, take_overwrite _ tagWAVE 4 rfl, h4.1, h5.1, h6.1, h7.1, h8.1]
  have h0 : le32 [0, 0, 0, 0] 0 = 0 := by decide
  simp only [h0, h6.1, overwrite_nil, List.length_nil, hhdr]
  rw [h7.1, h8.1]
  simp only [overwrite_nil]
  rw [scanChunks_failed fuel _ _ [0, 0, 0, 0] h8.2
    (by rw [take_overwrite _ tagWAVE 4 rfl]; exact tagWAVE_ne_tagData)]
  simp [monoHeader, sizeofWaveFormat]

/-- C11 (counterexample). The eight-byte stream `RIFFWAVE`, read as a file into a newly
constructed sample whose header memory holds a 16-bit 44100 Hz header, has no bytes 8-11, so
they are not `WAVE`; the third read delivers nothing and leaves `WAVE`, the bytes 4-7, in
`dump`, the tag test passes, the stale header passes the format test, and the chunk search
runs out of every amount of fuel: the decoder does not return FAIL. -/
theorem C11_counterexample :
    ((tagRIFF ++ tagWAVE).drop 8).take 4 ≠ tagWAVE ∧
      ∀ fuel : Nat, ReadWave fuel (AudioSample.new monoHeader) [0, 0, 0, 0]
        (IStream.ofFile (tagRIFF ++ tagWAVE)) = .outOfFuel :=
  ⟨by decide, fun fuel => ReadWave_RIFFWAVE fuel [0, 0, 0, 0]⟩

/-- C11 (amended). For every byte stream, fuel, prior content of the object and of `dump`: a successful
decode implies that bytes 0-3 are `RIFF`, bytes 8-11 are `WAVE`, and that the format structure
has `wBitsPerSample = 16` and `nSamplesPerSec = 44100` (the sample is then valid).  The decoder
returns FAIL, leaving the object as it was, when bytes 0-3 are not `RIFF` and when bytes 8-11
are present and are not `WAVE`; it returns FAIL when the format structure read from the stream
has `wBitsPerSample` other than 16 or `nSamplesPerSec` other than 44100; and a FAIL never
changes `bSampleValid`, which is false in a newly constructed sample. -/
theorem C11_header_checks (fuel : Nat) (self : AudioSample) (dump0 bytes : List Nat)
    (sk : Bool) :
    (∀ a, ReadWave fuel self dump0 (goodStream bytes sk) = .ret (.OK, a) →
        bytes.take 4 = tagRIFF ∧ 12 ≤ bytes.length ∧ (bytes.drop 8).take 4 = tagWAVE ∧
        a.wavHeader.wBitsPerSample = 16 ∧ a.wavHeader.nSamplesPerSec = 44100 ∧
        a.bSampleValid = true) ∧
      (bytes.take 4 ≠ tagRIFF →
        ReadWave fuel self dump0 (goodStream bytes sk) = .ret (.FAIL, self)) ∧
      (12 ≤ bytes.length → (bytes.drop 8).take 4 ≠ tagWAVE →
        ReadWave fuel self dump0 (goodStream bytes sk) = .ret (.FAIL, self)) ∧
      (∀ riffSize fmtTag hdr rest : List Nat, bytes = headerStream riffSize fmtTag hdr rest →
        riffSize.length = 4 → fmtTag.length = 4 → hdr.length ≤ 18 →
        (jpr_WAVEFORMATEX.ofBytes (overwrite self.wavHeader.toBytes hdr)).wBitsPerSample ≠ 16 ∨
          (jpr_WAVEFORMATEX.ofBytes
            (overwrite self.wavHeader.toBytes hdr)).nSamplesPerSec ≠ 44100 →
        ReadWave fuel self dump0 (goodStream bytes sk) =
          .ret (.FAIL, { self with
            wavHeader := jpr_WAVEFORMATEX.ofBytes (overwrite self.wavHeader.toBytes hdr) })) ∧
      (∀ a, ReadWave fuel self dump0 (goodStream bytes sk) = .ret (.FAIL, a) →
        a.bSampleValid = self.bSampleValid) ∧
      (AudioSample.new self.wavHeader).bSampleValid = false := by
  refine ⟨?_, ReadWave_not_RIFF fuel self dump0 bytes sk, ReadWave_not_WAVE fuel self dump0 bytes sk,
    ?_, fun a h => (ReadWave_fail_valid fuel self dump0 _ a h).1, rfl⟩
  · intro a h
    have hR : bytes.take 4 = tagRIFF := by
      by_contra hne
      rw [ReadWave_not_RIFF fuel self dump0 bytes sk hne] at h
      cases h
    have hlen : 12 ≤ bytes.length := by
      by_contra hlt
      exact ReadWave_failed3 fuel self dump0 _ (three_reads_fail bytes sk (by omega)) a h
    have hW : (bytes.drop 8).take 4 = tagWAVE := by
      by_contra hne
      rw [ReadWave_not_WAVE fuel self dump0 bytes sk hlen hne] at h
      cases h
    have hh := ReadWave_ok_header fuel self dump0 _ a h
    exact ⟨hR, hlen, hW, hh.1, hh.2.1, hh.2.2⟩
  · intro riffSize fmtTag hdr rest hb h1 h2 h3 hbad
    rw [hb]
    exact ReadWave_bad_header fuel self dump0 sk riffSize fmtTag hdr rest h1 h2 h3 hbad

/-- C11 (witness). A complete mono file decodes, so its bytes 0-3 are `RIFF` and its bytes
8-11 are `WAVE`; the stream `RIFX` is refused. -/
theorem C11_header_checks_witness :
    ((emptyWav.take 4 = tagRIFF ∧ 12 ≤ emptyWav.length ∧ (emptyWav.drop 8).take 4 = tagWAVE) ∧
      emptySample.wavHeader.wBitsPerSample = 16 ∧ emptySample.wavHeader.nSamplesPerSec = 44100 ∧
      emptySample.bSampleValid = true) ∧
    ReadWave 1 (AudioSample.new ⟨0, 0, 0, 0, 0, 0, 0⟩) [0, 0, 0, 0]
      (goodStream [82, 73, 70, 88] true) = .ret (.FAIL, AudioSample.new ⟨0, 0, 0, 0, 0, 0, 0⟩) := by
  have h := C11_header_checks 1 (AudioSample.new ⟨0, 0, 0, 0, 0, 0, 0⟩) [0, 0, 0, 0] emptyWav true
  have h2 := C11_header_checks 1 (AudioSample.new ⟨0, 0, 0, 0, 0, 0, 0⟩) [0, 0, 0, 0]
    [82, 73, 70, 88] true
  obtain ⟨a1, a2, a3, a4, a5, a6⟩ := h.1 emptySample emptyWav_decodes
  exact ⟨⟨⟨a1, a2, a3⟩, a4, a5, a6⟩, h2.2.1 (by decide)⟩


/-- The chunk search started on the chunks `cs` followed by the end of the stream never finds
`data`: it runs out of any fuel. -/
theorem scanChunks_no_data (sk : Bool) (chunks : List SkipChunk)
    (hch : ∀ c ∈ chunks, c.tag.length = 4 ∧ c.tag ≠ tagData ∧ c.body.length < 2 ^ 32)
    (fuel : Nat) (dumpP sizeP : List Nat) (hd : dumpP.take 4 ≠ tagData) :
    scanChunks fuel
        (((goodStream (chunkBytes chunks) sk).read 4).2.read 4).2
        (overwrite dumpP ((goodStream (chunkBytes chunks) sk).read 4).1)
        (overwrite sizeP (((goodStream (chunkBytes chunks) sk).read 4).2.read 4).1) = none := by
  induction chunks generalizing fuel dumpP sizeP with
  | nil =>
    have h1 := read_empty sk 4 (by norm_num)
    have h2 := read_failed ((goodStream [] sk).read 4).2 4 h1.2
    simp only [chunkBytes]
    rw [h1.1, h2.1, overwrite_nil, overwrite_nil]
    exact scanChunks_failed fuel _ dumpP sizeP h2.2 hd
  | cons c cs ih =>
    obtain ⟨ht, hne, hb⟩ := hch c (List.mem_cons_self _ _)
    have hshape : chunkBytes (c :: cs) =
        c.tag ++ (bytes32 c.body.length ++ (c.body ++ chunkBytes cs)) := by
      simp [chunkBytes, SkipChunk.bytes, List.append_assoc]
    rw [hshape, read_good c.tag _ sk 4 ht]
    simp only
    rw [read_good (bytes32 c.body.length) _ sk 4 rfl]
    cases fuel with
    | zero => rfl
    | succ f =>
      simp only [scanChunks, take_overwrite dumpP c.tag 4 ht, hne, if_false,
        le32_overwrite sizeP c.body.length hb]
      cases sk with
      | true =>
        rw [seekg_good c.body _ c.body.length rfl]
        exact ih (fun x hx => hch x (List.mem_cons_of_mem _ hx)) f _ _
          (by rw [take_overwrite dumpP c.tag 4 ht]; exact hne)
      | false =>
        have hf : ((goodStream (c.body ++ chunkBytes cs) false).seekg c.body.length).failbit
            = true := by
          simp [IStream.seekg, goodStream]
        have h1 := read_failed _ 4 hf
        have h2 := read_failed _ 4 h1.2
        rw [h1.1, h2.1, overwrite_nil, overwrite_nil]
        exact scanChunks_failed f _ _ _ h2.2
          (by rw [take_overwrite dumpP c.tag 4 ht]; exact hne)

theorem ReadWave_no_data (fuel : Nat) (self : AudioSample) (dump0 : List Nat) (sk : Bool)
    (riffSize fmtTag hdr : List Nat) (chunks : List SkipChunk)
    (h1 : riffSize.length = 4) (h2 : fmtTag.length = 4) (h2d : fmtTag ≠ tagData)
    (h3 : hdr.length ≤ 18)
    (hbits : (jpr_WAVEFORMATEX.ofBytes (overwrite self.wavHeader.toBytes hdr)).wBitsPerSample = 16)
    (hrate : (jpr_WAVEFORMATEX.ofBytes
      (overwrite self.wavHeader.toBytes hdr)).nSamplesPerSec = 44100)
    (hch : ∀ c ∈ chunks, c.tag.length = 4 ∧ c.tag ≠ tagData ∧ c.body.length < 2 ^ 32) :
    ReadWave fuel self dump0
      (goodStream (headerStream riffSize fmtTag hdr (chunkBytes chunks)) sk) = .outOfFuel := by
  unfold ReadWave headerStream
  simp only []
  rw [read_good tagRIFF _ sk 4 rfl]
  simp only [take_overwrite dump0 tagRIFF 4 rfl, ne_eq, not_true_eq_false, if_false]
  rw [read_good riffSize _ sk 4 h1]
  simp only []
  rw [read_good tagWAVE _ sk 4 rfl]
  simp only [take_overwrite _ tagWAVE 4 rfl, ne_eq, not_true_eq_false, if_false]
  rw [read_good fmtTag _ sk 4 h2]
  simp only []
  rw [read_good (bytes32 hdr.length) _ sk 4 rfl]
  simp only [le32_overwrite [0, 0, 0, 0] hdr.length (by omega)]
  rw [read_good hdr _ sk hdr.length rfl]
  simp only [sizeofWaveFormat, not_lt.mpr h3, if_false, hbits, hrate, ne_eq, not_true_eq_false,
    or_self]
  rw [scanChunks_no_data sk chunks hch fuel _ [0, 0, 0, 0]
    (by rw [take_overwrite _ fmtTag 4 h2]; exact h2d)]


/-- C12 (code at the failing input). A stream that passes the `RIFF`/`WAVE` and format checks
and then holds only chunks not tagged `data` (none, or any number of them) up to its end makes
the chunk search run without end: for every amount of fuel the decoder runs out of it, so it
never returns FAIL (nor OK).  The loop `while (strncmp(dump, "data", 4) != 0)` has no test for
the end of the stream; once a read fails `dump` keeps its last content. -/
theorem C12_scan_without_data_never_returns (fuel : Nat) (self : AudioSample)
    (dump0 : List Nat) (sk : Bool) (riffSize fmtTag hdr : List Nat) (chunks : List SkipChunk)
    (h1 : riffSize.length = 4) (h2 : fmtTag.length = 4) (h2d : fmtTag ≠ tagData)
    (h3 : hdr.length ≤ 18)
    (hbits : (jpr_WAVEFORMATEX.ofBytes (overwrite self.wavHeader.toBytes hdr)).wBitsPerSample = 16)
    (hrate : (jpr_WAVEFORMATEX.ofBytes
      (overwrite self.wavHeader.toBytes hdr)).nSamplesPerSec = 44100)
    (hch : ∀ c ∈ chunks, c.tag.length = 4 ∧ c.tag ≠ tagData ∧ c.body.length < 2 ^ 32) :
    ReadWave fuel self dump0
        (goodStream (headerStream riffSize fmtTag hdr (chunkBytes chunks)) sk) = .outOfFuel ∧
      ∀ r, ReadWave fuel self dump0
        (goodStream (headerStream riffSize fmtTag hdr (chunkBytes chunks)) sk) ≠ .ret r := by
  have h := ReadWave_no_data fuel self dump0 sk riffSize fmtTag hdr chunks h1 h2 h2d h3 hbits
    hrate hch
  refine ⟨h, fun r hr => ?_⟩
  rw [h] at hr
  cases hr

/-- C12 (witness). The files `noDataWav` and `headerOnlyWav`, read as files into a new sample:
with a million units of fuel the decoder has still not returned. -/
theorem C12_scan_without_data_never_returns_witness :
    ReadWave 1000000 (AudioSample.new ⟨0, 0, 0, 0, 0, 0, 0⟩) [0, 0, 0, 0]
        (IStream.ofFile noDataWav) = .outOfFuel ∧
      ReadWave 1000000 (AudioSample.new ⟨0, 0, 0, 0, 0, 0, 0⟩) [0, 0, 0, 0]
        (IStream.ofFile headerOnlyWav) = .outOfFuel :=
  ⟨(C12_scan_without_data_never_returns 1000000 (AudioSample.new ⟨0, 0, 0, 0, 0, 0, 0⟩)
      [0, 0, 0, 0] true [38, 0, 0, 0] tagFmt monoHeaderBytes [⟨[76, 73, 83, 84], [7, 8]⟩]
      rfl rfl (by decide) (by decide) (by decide) (by decide)
      (by
        intro x hx
        simp only [List.mem_singleton] at hx
        subst hx
        exact ⟨rfl, by decide, by decide⟩)).1,
    (C12_scan_without_data_never_returns 1000000 (AudioSample.new ⟨0, 0, 0, 0, 0, 0, 0⟩)
      [0, 0, 0, 0] true [28, 0, 0, 0] tagFmt monoHeaderBytes []
      rfl rfl (by decide) (by decide) (by decide) (by decide)
      (by intro x hx; simp at hx)).1⟩


theorem LoadAudioSample_ok (fuel : Nat) (st : SOUND) (hdr0 : jpr_WAVEFORMATEX)
    (dump0 : List Nat) (s : IStream) (a : AudioSample)
    (h : ReadWave fuel (AudioSample.new hdr0) dump0 s = .ret (.OK, a)) :
    LoadAudioSample fuel st hdr0 dump0 (some s) =
      .ret ((st.vecAudioSamples.length : Int) + 1,
        { st with vecAudioSamples := st.vecAudioSamples ++ [a] }) := by
  have hv := (ReadWave_ok_header fuel _ dump0 s a h).2.2
  simp [LoadAudioSample, AudioSample.construct, LoadFromFile, h, hv]

theorem LoadAudioSample_fail (fuel : Nat) (st : SOUND) (hdr0 : jpr_WAVEFORMATEX)
    (dump0 : List Nat) (s : IStream) (a : AudioSample)
    (h : ReadWave fuel (AudioSample.new hdr0) dump0 s = .ret (.FAIL, a)) :
    LoadAudioSample fuel st hdr0 dump0 (some s) = .ret (-1, st) := by
  have hv := (ReadWave_fail_valid fuel _ dump0 s a h).1
  have hv' : a.bSampleValid = false := by rw [hv]; rfl
  simp [LoadAudioSample, AudioSample.construct, LoadFromFile, h, hv']

theorem LoadAudioSample_not_open (fuel : Nat) (st : SOUND) (hdr0 : jpr_WAVEFORMATEX)
    (dump0 : List Nat) : LoadAudioSample fuel st hdr0 dump0 none = .ret (-1, st) := by
  simp [LoadAudioSample, AudioSample.construct, LoadFromFile, AudioSample.new]

/-- What one `LoadAudioSample` call that returns does: it appends one sample and returns the
new size, or returns -1 and changes nothing. -/
theorem LoadAudioSample_cases (fuel : Nat) (st st1 : SOUND) (hdr0 : jpr_WAVEFORMATEX)
    (dump0 : List Nat) (src : Option IStream) (id : Int)
    (h : LoadAudioSample fuel st hdr0 dump0 src = .ret (id, st1)) :
    (id = -1 ∧ st1 = st) ∨
      (id = (st.vecAudioSamples.length : Int) + 1 ∧
        ∃ a, a.bSampleValid = true ∧
          st1 = { st with vecAudioSamples := st.vecAudioSamples ++ [a] }) := by
  unfold LoadAudioSample at h
  cases hc : AudioSample.construct fuel hdr0 dump0 src with
  | ret a =>
    rw [hc] at h
    simp only at h
    by_cases hv : a.bSampleValid = true
    · rw [if_pos hv] at h
      simp only [Outcome.ret.injEq, Prod.mk.injEq] at h
      right
      refine ⟨?_, a, hv, h.2.symm⟩
      rw [← h.1]
      simp
    · rw [if_neg hv] at h
      simp only [Outcome.ret.injEq, Prod.mk.injEq] at h
      left
      exact ⟨h.1.symm, h.2.symm⟩
  | undefined => rw [hc] at h; cases h
  | outOfFuel => rw [hc] at h; cases h


theorem loadAll_ids (fuel : Nat) (qs : List LoadRequest) (st st1 : SOUND) (ids : List Int)
    (h : loadAll fuel st qs = .ret (ids, st1)) :
    ids.filter (fun i => i != -1) =
        (List.range (ids.filter (fun i => i != -1)).length).map
          (fun (j : Nat) => (st.vecAudioSamples.length : Int) + 1 + j) ∧
      ∃ added : List AudioSample, st1.vecAudioSamples = st.vecAudioSamples ++ added ∧
        added.length = (ids.filter (fun i => i != -1)).length ∧
        ∀ a ∈ added, a.bSampleValid = true := by
  induction qs generalizing st ids with
  | nil =>
    simp only [loadAll, Outcome.ret.injEq, Prod.mk.injEq] at h
    obtain ⟨rfl, rfl⟩ := h
    exact ⟨rfl, [], by simp, rfl, by simp⟩
  | cons q qs ih =>
    unfold loadAll at h
    cases h1 : LoadAudioSample fuel st q.hdr0 q.dump0 q.src with
    | undefined => rw [h1] at h; cases h
    | outOfFuel => rw [h1] at h; cases h
    | ret r =>
      obtain ⟨id, st2⟩ := r
      rw [h1] at h
      simp only at h
      cases h2 : loadAll fuel st2 qs with
      | undefined => rw [h2] at h; cases h
      | outOfFuel => rw [h2] at h; cases h
      | ret rs =>
        obtain ⟨ids2, st3⟩ := rs
        rw [h2] at h
        simp only [Outcome.ret.injEq, Prod.mk.injEq] at h
        obtain ⟨rfl, rfl⟩ := h
        obtain ⟨hids, added, hvec, hlen, hval⟩ := ih st2 ids2 h2
        rcases LoadAudioSample_cases fuel st st2 q.hdr0 q.dump0 q.src id h1 with
          ⟨rfl, rfl⟩ | ⟨rfl, a, hav, rfl⟩
        · have hf : List.filter (fun i => i != -1) ((-1 : Int) :: ids2) =
              List.filter (fun i => i != -1) ids2 := by
            simp [List.filter_cons]
          rw [hf]
          exact ⟨hids, added, hvec, hlen, hval⟩
        · have hne : (((st.vecAudioSamples.length : Int) + 1) != -1) = true := by
            simp only [bne_iff_ne, ne_eq]
            omega
          have hf : List.filter (fun i => i != -1)
              (((st.vecAudioSamples.length : Int) + 1) :: ids2) =
                ((st.vecAudioSamples.length : Int) + 1) ::
                  List.filter (fun i => i != -1) ids2 := by
            rw [List.filter_cons, if_pos hne]
          rw [hf]
          refine ⟨?_, a :: added, ?_, ?_, ?_⟩
          · rw [List.length_cons, List.range_succ_eq_map, List.map_cons, List.map_map]
            congr 1
            conv_lhs => rw [hids]
            apply List.map_congr_left
            intro j _
            simp only [List.length_append, List.length_singleton, Function.comp_apply]
            push_cast
            ring
          · rw [hvec]
            simp
          · simp [hlen]
          · intro x hx
            rcases List.mem_cons.mp hx with rfl | hx
            · exact hav
            · exact hval x hx


theorem emptyWav_decodes2 :
    ReadWave 2 (AudioSample.new ⟨0, 0, 0, 0, 0, 0, 0⟩) [0, 0, 0, 0] (IStream.ofFile emptyWav) =
      .ret (.OK, emptySample) := by
  decide

/-- C13. `LoadAudioSample` on a stream that decodes successfully appends exactly that one
sample to the store and returns the new store size; on a stream on which the decoder returns
FAIL, on a file that cannot be opened, and on every stream whose first four bytes are not
`RIFF` (the empty stream, a wrong magic) it returns -1 and leaves the state unchanged.  Hence
for every sequence of loads that return, the ids other than -1 are `n+1, n+2, ...` in order,
`n` being the store size at the start (so `1, 2, ...` from an empty store), whatever failed
loads lie in between, and the store only grows at its end by the valid samples loaded. -/
theorem C13_load_ids (fuel : Nat) (st : SOUND) (hdr0 : jpr_WAVEFORMATEX) (dump0 : List Nat) :
    (∀ s a, ReadWave fuel (AudioSample.new hdr0) dump0 s = .ret (.OK, a) →
        LoadAudioSample fuel st hdr0 dump0 (some s) =
          .ret ((st.vecAudioSamples.length : Int) + 1,
            { st with vecAudioSamples := st.vecAudioSamples ++ [a] })) ∧
      (∀ s a, ReadWave fuel (AudioSample.new hdr0) dump0 s = .ret (.FAIL, a) →
        LoadAudioSample fuel st hdr0 dump0 (some s) = .ret (-1, st)) ∧
      LoadAudioSample fuel st hdr0 dump0 none = .ret (-1, st) ∧
      (∀ bytes sk, bytes.take 4 ≠ tagRIFF →
        LoadAudioSample fuel st hdr0 dump0 (some (goodStream bytes sk)) = .ret (-1, st)) ∧
      ∀ qs ids st1, loadAll fuel st qs = .ret (ids, st1) →
        ids.filter (fun i => i != -1) =
            (List.range (ids.filter (fun i => i != -1)).length).map
              (fun (j : Nat) => (st.vecAudioSamples.length : Int) + 1 + j) ∧
          ∃ added : List AudioSample, st1.vecAudioSamples = st.vecAudioSamples ++ added ∧
            added.length = (ids.filter (fun i => i != -1)).length ∧
            ∀ a ∈ added, a.bSampleValid = true := by
  refine ⟨fun s a h => LoadAudioSample_ok fuel st hdr0 dump0 s a h,
    fun s a h => LoadAudioSample_fail fuel st hdr0 dump0 s a h,
    LoadAudioSample_not_open fuel st hdr0 dump0, ?_,
    fun qs ids st1 h => loadAll_ids fuel qs st st1 ids h⟩
  intro bytes sk hne
  exact LoadAudioSample_fail fuel st hdr0 dump0 _ _
    (ReadWave_not_RIFF fuel (AudioSample.new hdr0) dump0 bytes sk hne)

/-- C13 (witness). From an empty store, loading `smallWav`, then an empty stream, then
`emptyWav` returns the ids `1, -1, 2`. -/
theorem C13_load_ids_witness :
    loadAll 2 (engine [])
        [⟨⟨0, 0, 0, 0, 0, 0, 0⟩, [0, 0, 0, 0], some (goodStream smallWav true)⟩,
         ⟨⟨0, 0, 0, 0, 0, 0, 0⟩, [0, 0, 0, 0], some (goodStream [] true)⟩,
         ⟨⟨0, 0, 0, 0, 0, 0, 0⟩, [0, 0, 0, 0], some (IStream.ofFile emptyWav)⟩] =
      .ret ([1, -1, 2],
        engine [{ wavHeader := monoHeader, fSample := [1 / 32767, -32768 / 32767],
                  nSamples := 2, nChannels := 1, bSampleValid := true }, emptySample]) := by
  have h1 := (C13_load_ids 2 (engine []) ⟨0, 0, 0, 0, 0, 0, 0⟩ [0, 0, 0, 0]).1 _ _
    smallWav_decodes
  have h2 := (C13_load_ids 2
    (engine [{ wavHeader := monoHeader, fSample := [1 / 32767, -32768 / 32767],
               nSamples := 2, nChannels := 1, bSampleValid := true }])
    ⟨0, 0, 0, 0, 0, 0, 0⟩ [0, 0, 0, 0]).2.2.2.1 [] true (by decide)
  have h3 := (C13_load_ids 2
    (engine [{ wavHeader := monoHeader, fSample := [1 / 32767, -32768 / 32767],
               nSamples := 2, nChannels := 1, bSampleValid := true }])
    ⟨0, 0, 0, 0, 0, 0, 0⟩ [0, 0, 0, 0]).1 _ _ emptyWav_decodes2
  simp only [loadAll]
  rw [h1]
  simp only [engine, List.nil_append] at h2 h3 ⊢
  rw [h2]
  simp only []
  rw [h3]
  simp


theorem PlaySample_iterate (st : SOUND) (id : Int) (b : Bool) (n : Nat) :
    ((fun s => PlaySample s id b)^[n] st).listActiveSamples =
      st.listActiveSamples ++ List.replicate n (playing id 0 b) := by
  induction n generalizing st with
  | zero => simp
  | succ n ih =>
    rw [Function.iterate_succ_apply, ih]
    simp [PlaySample, playing, List.replicate_succ]

/-- C14. `PlaySample(id, loop)` changes nothing but the registry, which becomes the old
registry, every instance unchanged and in the same order, followed by exactly one new instance
with `nAudioSampleID = id`, `nSamplePosition = 0`, `bFinished = false`, `bFlagForStop = false`
and `bLoop = loop`; `n` calls in a row with the same arguments append `n` such instances, and
a `StopSample(id)` after them on an empty registry flags only one of them. -/
theorem C14_PlaySample_appends (st : SOUND) (id : Int) (bLoop : Bool) :
    (PlaySample st id bLoop).listActiveSamples =
        st.listActiveSamples ++
          [{ nAudioSampleID := id, nSamplePosition := 0, bFinished := false, bLoop := bLoop,
             bFlagForStop := false }] ∧
      (PlaySample st id bLoop).listActiveSamples.length = st.listActiveSamples.length + 1 ∧
      (PlaySample st id bLoop).vecAudioSamples = st.vecAudioSamples ∧
      (PlaySample st id bLoop).m_bAudioThreadActive = st.m_bAudioThreadActive ∧
      (PlaySample st id bLoop).funcUserSynth = st.funcUserSynth ∧
      (PlaySample st id bLoop).funcUserFilter = st.funcUserFilter ∧
      (∀ n : Nat, ((fun s => PlaySample s id bLoop)^[n] st).listActiveSamples =
        st.listActiveSamples ++ List.replicate n
          { nAudioSampleID := id, nSamplePosition := 0, bFinished := false, bLoop := bLoop,
            bFlagForStop := false }) ∧
      ∀ n : Nat, stopFirst id (List.replicate (n + 1)
          { nAudioSampleID := id, nSamplePosition := 0, bFinished := false, bLoop := bLoop,
            bFlagForStop := false }) =
        { nAudioSampleID := id, nSamplePosition := 0, bFinished := false, bLoop := bLoop,
          bFlagForStop := true } ::
          List.replicate n
            { nAudioSampleID := id, nSamplePosition := 0, bFinished := false, bLoop := bLoop,
              bFlagForStop := false } := by
  refine ⟨rfl, by simp [PlaySample], rfl, rfl, rfl, rfl,
    fun n => PlaySample_iterate st id bLoop n, ?_⟩
  intro n
  simp [List.replicate_succ, stopFirst]

theorem stopFirst_length (id : Int) (l : List sCurrentlyPlayingSample) :
    (stopFirst id l).length = l.length := by
  induction l with
  | nil => rfl
  | cons s rest ih =>
    unfold stopFirst
    split
    · rfl
    · simp [ih]

theorem stopFirst_no_match (id : Int) (l : List sCurrentlyPlayingSample)
    (h : ∀ x ∈ l, x.nAudioSampleID ≠ id) : stopFirst id l = l := by
  induction l with
  | nil => rfl
  | cons s rest ih =>
    unfold stopFirst
    rw [if_neg (h s (List.mem_cons_self _ _)), ih (fun x hx => h x (List.mem_cons_of_mem _ hx))]

theorem stopFirst_idem (id : Int) (l : List sCurrentlyPlayingSample) :
    stopFirst id (stopFirst id l) = stopFirst id l := by
  induction l with
  | nil => rfl
  | cons s rest ih =>
    by_cases hs : s.nAudioSampleID = id
    · simp [stopFirst, hs]
    · simp [stopFirst, hs, ih]

/-- C15. `StopSample(id)` changes nothing but the registry.  When `s` is the first instance of
the registry `l1 ++ s :: l2` whose sample id is `id`, the registry becomes
`l1 ++ s' :: l2` with `s'` equal to `s` except that its stop flag is set; when no instance has
that id the state is unchanged; the length never changes; and a second `StopSample(id)` in a
row changes nothing more. -/
theorem C15_StopSample_first_match (st : SOUND) (id : Int) :
    (∀ l1 l2 s, st.listActiveSamples = l1 ++ s :: l2 →
        (∀ x ∈ l1, x.nAudioSampleID ≠ id) → s.nAudioSampleID = id →
        (StopSample st id).listActiveSamples = l1 ++ { s with bFlagForStop := true } :: l2) ∧
      ((∀ x ∈ st.listActiveSamples, x.nAudioSampleID ≠ id) → StopSample st id = st) ∧
      (StopSample st id).listActiveSamples.length = st.listActiveSamples.length ∧
      (StopSample st id).vecAudioSamples = st.vecAudioSamples ∧
      (StopSample st id).m_bAudioThreadActive = st.m_bAudioThreadActive ∧
      (StopSample st id).funcUserSynth = st.funcUserSynth ∧
      (StopSample st id).funcUserFilter = st.funcUserFilter ∧
      StopSample (StopSample st id) id = StopSample st id := by
  refine ⟨?_, ?_, stopFirst_length id _, rfl, rfl, rfl, rfl, ?_⟩
  · intro l1 l2 s hl hfirst hs
    simp only [StopSample, hl]
    exact stopFirst_split id l1 l2 s hfirst hs
  · intro h
    simp only [StopSample, stopFirst_no_match id _ h]
  · simp only [StopSample, stopFirst_idem]

/-- C15 (witness). Three instances with ids 2, 1, 1: `StopSample(1)` flags the second entry
only, and a second call changes nothing. -/
theorem C15_StopSample_first_match_witness :
    (StopSample (engineWith [] [playing 2 0 false, playing 1 5 true, playing 1 0 false])
        1).listActiveSamples =
      [playing 2 0 false, { playing 1 5 true with bFlagForStop := true }, playing 1 0 false] ∧
    StopSample (StopSample
        (engineWith [] [playing 2 0 false, playing 1 5 true, playing 1 0 false]) 1) 1 =
      StopSample (engineWith [] [playing 2 0 false, playing 1 5 true, playing 1 0 false]) 1 :=
  ⟨(C15_StopSample_first_match
      (engineWith [] [playing 2 0 false, playing 1 5 true, playing 1 0 false]) 1).1
      [playing 2 0 false] [playing 1 0 false] (playing 1 5 true) rfl
      (by intro x hx; simp only [List.mem_singleton] at hx; subst hx; simp [playing]) rfl,
    (C15_StopSample_first_match
      (engineWith [] [playing 2 0 false, playing 1 5 true, playing 1 0 false]) 1).2.2.2.2.2.2.2⟩


theorem filter_all_flagged (l : List sCurrentlyPlayingSample)
    (h : ∀ s ∈ l, s.bFlagForStop = true) : l.filter (fun s => !s.bFlagForStop) = [] := by
  rw [List.filter_eq_nil_iff]
  intro s hs
  simp [h s hs]

theorem GetMixerOutput_all_flagged (st : SOUND) (ch : Int) (t dt : ℚ)
    (hact : st.m_bAudioThreadActive = true)
    (h : ∀ s ∈ st.listActiveSamples, s.bFlagForStop = true) :
    GetMixerOutput st ch t dt =
      some (applyHooks st ch t dt 0, { st with listActiveSamples := [] }) := by
  rw [← GetMixerOutput_filter_stop st ch t dt hact, filter_all_flagged _ h]
  have h2 := GetMixerOutput_active { st with listActiveSamples := [] } ch t dt hact
  rw [h2]
  simp [allContrib, sweep, applyHooks]

theorem StopAll_flagged (st : SOUND) : ∀ x ∈ (StopAll st).listActiveSamples,
    x.bFlagForStop = true := by
  intro x hx
  simp only [StopAll, List.mem_map] at hx
  obtain ⟨y, _, rfl⟩ := hx
  rfl

/-- C16. `StopAll` changes nothing but the registry, in which every instance, those appended
by a `PlaySample` just before included, gets its stop flag set while all other fields, the
order and the length stay as they were.  With the audio thread active the next
`GetMixerOutput` call then returns what it returns on an empty registry, the hooks applied to
the value 0, and leaves the registry empty. -/
theorem C16_StopAll_flags_all (st : SOUND) :
    (StopAll st).listActiveSamples =
        st.listActiveSamples.map (fun s => { s with bFlagForStop := true }) ∧
      (StopAll st).listActiveSamples.length = st.listActiveSamples.length ∧
      (∀ x ∈ (StopAll st).listActiveSamples, x.bFlagForStop = true) ∧
      (∀ id b, ∀ x ∈ (StopAll (PlaySample st id b)).listActiveSamples,
        x.bFlagForStop = true) ∧
      (StopAll st).vecAudioSamples = st.vecAudioSamples ∧
      (StopAll st).m_bAudioThreadActive = st.m_bAudioThreadActive ∧
      (StopAll st).funcUserSynth = st.funcUserSynth ∧
      (StopAll st).funcUserFilter = st.funcUserFilter ∧
      (st.m_bAudioThreadActive = true → ∀ (ch : Int) (t dt : ℚ),
        GetMixerOutput (StopAll st) ch t dt =
            some (applyHooks st ch t dt 0, { st with listActiveSamples := [] }) ∧
          GetMixerOutput (StopAll st) ch t dt =
            GetMixerOutput { st with listActiveSamples := [] } ch t dt) := by
  refine ⟨rfl, by simp [StopAll], StopAll_flagged st,
    fun id b => StopAll_flagged (PlaySample st id b), rfl, rfl, rfl, rfl, ?_⟩
  intro hact ch t dt
  have h1 := GetMixerOutput_all_flagged (StopAll st) ch t dt hact (StopAll_flagged st)
  have h2 := GetMixerOutput_all_flagged { st with listActiveSamples := [] } ch t dt hact
    (by intro s hs; simp at hs)
  refine ⟨h1, ?_⟩
  rw [h1, h2]
  rfl

/-- C16 (witness). Two instances of the sample `5, 7, 9`, the second just played: after
`StopAll` the next call returns 0 and empties the registry. -/
theorem C16_StopAll_flags_all_witness :
    GetMixerOutput
        (StopAll (PlaySample (engineWith [monoSample [5, 7, 9]] [playing 1 1 true]) 1 false))
        0 0 (1 / 44100) =
      some (0, engineWith [monoSample [5, 7, 9]] []) := by
  rw [((C16_StopAll_flags_all
    (PlaySample (engineWith [monoSample [5, 7, 9]] [playing 1 1 true]) 1 false)).2.2.2.2.2.2.2.2
    rfl 0 0 (1 / 44100)).1]
  rfl


/-- C18 (code at the failing input). The stream loop's scale factor is
`nMaxSample = (short)pow(2, 15) - 1 = 32767 - 1 = 32766`, not 32767: the conversion produces
`trunc(clip(x) * 32766)`, a value in `[-32766, 32766]`, and the mixer outputs `1`, `2` and
`-1` are converted to 32766, 32766 and -32766. -/
theorem C18_full_scale_is_32766 :
    nMaxSample = 32766 ∧ fMaxSample = 32766 ∧
    quantise 1 = 32766 ∧ quantise 2 = 32766 ∧ quantise (-1) = -32766 ∧
    ∀ x : ℚ, quantise x = (if 0 ≤ x then ⌊min x 1 * 32766⌋ else ⌈max x (-1) * 32766⌉) ∧
      -32766 ≤ quantise x ∧ quantise x ≤ 32766 := by
  refine ⟨nMaxSample_eq, fMaxSample_eq, ?_, ?_, ?_,
    fun x => ⟨quantise_eq x, (quantise_range x).1, (quantise_range x).2⟩⟩
  · rw [quantise_eq, if_pos (by norm_num), min_eq_right (by norm_num)]
    norm_num
  · rw [quantise_eq, if_pos (by norm_num), min_eq_right (by norm_num)]
    norm_num
  · rw [quantise_eq, if_neg (by norm_num), max_eq_right (by norm_num)]
    have : ((-1 : ℚ) * 32766) = ((-32766 : ℤ) : ℚ) := by norm_num
    rw [this, Int.ceil_intCast]


theorem fl32_timeStep_fix : fl32 (12466118 / 549755813888) = 12466118 / 549755813888 := by
  rw [fl32_eval (12466118 / 549755813888) (-16) 12466118 (by norm_num [abs_of_pos])
    (by norm_num [abs_of_pos]) (by norm_num) (roundEven_eval _ _ (by norm_num) (by norm_num))]
  norm_num

theorem fl32_timeStep_twice :
    fl32 (12466118 / 549755813888 + 12466118 / 549755813888) =
      2 * (12466118 / 549755813888) := by
  rw [fl32_eval (12466118 / 549755813888 + 12466118 / 549755813888) (-15) 12466118
    (by norm_num [abs_of_pos]) (by norm_num [abs_of_pos]) (by norm_num)
    (roundEven_eval _ _ (by norm_num) (by norm_num))]
  norm_num

/-- The time step of a 44100 Hz stream: the `float` nearest to 1/44100. -/
theorem timeStep_44100 :
    fl32 (1 / fl32 ((44100 : ℕ) : ℚ)) = 12466118 / 549755813888 := by
  have h : fl32 ((44100 : ℕ) : ℚ) = 44100 := by
    have := fl32_natCast 44100 (by norm_num)
    simpa using this
  rw [h, fl32_timeStep]

theorem stepFrames_timeStep : stepFrames 44100 (12466118 / 549755813888) = 1 := by
  unfold stepFrames
  have h : fl32 ((44100 : ℕ) : ℚ) = 44100 := by
    have := fl32_natCast 44100 (by norm_num)
    simpa using this
  rw [h, fl32_timeStep_fix, fl32_one_frame, roundf_one]

theorem advance_timeStep (p : Int) (hp : 0 ≤ p) (h : p < 16777216) :
    advance 44100 (12466118 / 549755813888) p = p + 1 := by
  rw [advance_exact 44100 _ p hp (by rw [stepFrames_timeStep]; norm_num)
    (by rw [stepFrames_timeStep]; omega), stepFrames_timeStep]

theorem tick_zero : tick (12466118 / 549755813888) 0 = 12466118 / 549755813888 := by
  unfold tick
  rw [zero_add, fl32_timeStep_fix]

theorem tick_one :
    tick (12466118 / 549755813888) (12466118 / 549755813888) =
      2 * (12466118 / 549755813888) := by
  unfold tick
  exact fl32_timeStep_twice

/-- C17 (counterexample). A frame of two channels on a registry holding one instance flagged
for stop: the call for channel 0, which is not the last channel of the frame, already removes
the instance, and the call for channel 1 of the same frame runs on the empty registry. -/
theorem C17_counterexample :
    GetMixerOutput (engineWith [monoSample [5, 7, 9]]
        [⟨1, 1, false, false, true⟩]) 0 0 (1 / 44100) =
      some (0, engineWith [monoSample [5, 7, 9]] []) ∧
    (channelLoop 0 0 2 0
        { snd := engineWith [monoSample [5, 7, 9]]
            [⟨1, 1, false, false, true⟩],
          m_nSampleRate := 44100, m_nChannels := 2, m_nBlockSamples := 2, m_fGlobalTime := 0,
          m_pBlockMemory := [0, 0] }).map (fun r => r.2.snd.listActiveSamples) = some [] := by
  have h1 : ∀ dt : ℚ, GetMixerOutput (engineWith [monoSample [5, 7, 9]]
      [⟨1, 1, false, false, true⟩]) 0 0 dt =
        some (0, engineWith [monoSample [5, 7, 9]] []) := by
    intro dt
    rw [GetMixerOutput_all_flagged _ 0 0 dt rfl
      (by intro s hs; simp only [List.mem_singleton, engineWith] at hs; subst hs; rfl)]
    rfl
  refine ⟨h1 _, ?_⟩
  have h2 := fun dt => GetMixerOutput_empty [monoSample [5, 7, 9]] 1 0 dt
  simp only [channelLoop, Nat.cast_zero, zero_add, Nat.cast_one, h1, h2,
    List.length_cons, List.length_nil, List.length_set]
  simp [engineWith, engine]

/-- C17 (amended). Finished instances are removed at the end of every `GetMixerOutput` call
that runs its loop (audio thread active), whatever the channel argument: the registry after
the call is the registry the loop left, without the instances marked finished, so it holds no
finished instance, and it is the same for every channel argument.  A call for channel 0 of a
frame of several channels removes instances like any other call. -/
theorem C17_removal_every_call (st st1 : SOUND) (ch : Int) (t dt v : ℚ)
    (hact : st.m_bAudioThreadActive = true)
    (h : GetMixerOutput st ch t dt = some (v, st1)) :
    (∃ acc l, mixLoop st.vecAudioSamples true ch dt st.listActiveSamples 0 =
        some (.completed acc l) ∧
      l = st.listActiveSamples.map (visit st.vecAudioSamples dt) ∧
      st1.listActiveSamples = l.filter (fun s => !s.bFinished)) ∧
      (∀ x ∈ st1.listActiveSamples, x.bFinished = false) ∧
      ∀ (ch2 : Int) (t2 v2 : ℚ) (st2 : SOUND), GetMixerOutput st ch2 t2 dt = some (v2, st2) →
        st2.listActiveSamples = st1.listActiveSamples := by
  have key : ∀ (c : Int) (t' v' : ℚ) (s' : SOUND), GetMixerOutput st c t' dt = some (v', s') →
      s'.listActiveSamples = sweep st.vecAudioSamples dt st.listActiveSamples := by
    intro c t' v' s' h'
    rw [GetMixerOutput_active st c t' dt hact] at h'
    cases hc : allContrib st.vecAudioSamples c dt st.listActiveSamples with
    | none => simp [hc] at h'
    | some w =>
      simp only [hc, Option.map_some', Option.some.injEq, Prod.mk.injEq] at h'
      rw [← h'.2]
  have h1 := key ch t v st1 h
  refine ⟨?_, ?_, ?_⟩
  · rw [mixLoop_active]
    rw [GetMixerOutput_active st ch t dt hact] at h
    cases hc : allContrib st.vecAudioSamples ch dt st.listActiveSamples with
    | none => simp [hc] at h
    | some w =>
      exact ⟨0 + w, _, rfl, rfl, h1⟩
  · intro x hx
    rw [h1] at hx
    simp only [sweep, List.mem_filter] at hx
    simpa using hx.2
  · intro ch2 t2 v2 st2 h2
    rw [key ch2 t2 v2 st2 h2, h1]

/-- C17 (witness). The sample `5, 7, 9` with an instance at its last frame and one at frame 0:
the call for channel 0 returns frame 1 and keeps only the second instance. -/
theorem C17_removal_every_call_witness :
    GetMixerOutput (engineWith [monoSample [5, 7, 9]]
        [playing 1 2 false, playing 1 0 false]) 0 0 (1 / 44100) =
      some (7, engineWith [monoSample [5, 7, 9]] [playing 1 1 false]) ∧
      ∀ x ∈ (engineWith [monoSample [5, 7, 9]] [playing 1 1 false]).listActiveSamples,
        x.bFinished = false := by
  have hrun : GetMixerOutput (engineWith [monoSample [5, 7, 9]]
      [playing 1 2 false, playing 1 0 false]) 0 0 (1 / 44100) =
        some (7, engineWith [monoSample [5, 7, 9]] [playing 1 1 false]) := by
    exact run_out_579 0
  exact ⟨hrun, (C17_removal_every_call _ _ 0 0 (1 / 44100) 7 rfl hrun).2.1⟩


theorem visit_frameReady (vec : List AudioSample) (C : Nat) (dt : ℚ) (hdt : 0 ≤ dt)
    (s : sCurrentlyPlayingSample)
    (h : 0 ≤ s.nSamplePosition ∧ ∃ a, sampleAt vec s.nAudioSampleID = some a ∧ Loaded a ∧
      (C : Int) ≤ a.nChannels)
    (hsv : survives vec dt s = true) :
    0 ≤ (visit vec dt s).nSamplePosition ∧
      ∃ a, sampleAt vec (visit vec dt s).nAudioSampleID = some a ∧ Loaded a ∧
        (C : Int) ≤ a.nChannels := by
  obtain ⟨h0, a, ha, hl, hc⟩ := h
  have hr : 0 ≤ advance a.wavHeader.nSamplesPerSec dt s.nSamplePosition :=
    advance_nonneg _ dt _ hdt h0
  have hflag := survives_not_flagged vec dt s hsv
  unfold visit
  simp only [hflag, Bool.false_eq_true, if_false, ha]
  by_cases hp : advance a.wavHeader.nSamplesPerSec dt s.nSamplePosition < a.nSamples
  · simp only [hp, if_true]
    exact ⟨hr, a, ha, hl, hc⟩
  · simp only [hp, if_false]
    split
    · exact ⟨le_refl 0, a, ha, hl, hc⟩
    · exact ⟨hr, a, ha, hl, hc⟩

theorem GetMixerOutput_frameReady (st : SOUND) (C c : Nat) (t dt : ℚ) (hc : c < C)
    (h : FrameReady st C dt) :
    ∃ v st1, GetMixerOutput st (c : Int) t dt = some (v, st1) ∧ FrameReady st1 C dt := by
  obtain ⟨hdt, hall⟩ := h
  by_cases hact : st.m_bAudioThreadActive = true
  · have hready : MixReady st (c : Int) dt := by
      refine ⟨by positivity, hdt, ?_⟩
      intro s hs
      obtain ⟨h0, a, ha, hl, hca⟩ := hall s hs
      exact ⟨h0, a, ha, hl, by omega⟩
    have hsome := GetMixerOutput_ready st c t dt hact hready
    obtain ⟨⟨v, st1⟩, hres⟩ := Option.isSome_iff_exists.mp hsome
    refine ⟨v, st1, hres, hdt, ?_⟩
    rw [GetMixerOutput_active st c t dt hact] at hres
    cases hcn : allContrib st.vecAudioSamples c dt st.listActiveSamples with
    | none => simp [hcn] at hres
    | some w =>
      simp only [hcn, Option.map_some', Option.some.injEq, Prod.mk.injEq] at hres
      obtain ⟨_, rfl⟩ := hres
      intro x hx
      simp only [sweep_eq, List.mem_map, List.mem_filter] at hx
      obtain ⟨y, ⟨hy, hsv⟩, rfl⟩ := hx
      exact visit_frameReady _ C dt hdt y (hall y hy) hsv
  · have hact' : st.m_bAudioThreadActive = false := by simpa using hact
    have hex : ∃ v st1, GetMixerOutput st (c : Int) t dt = some (v, st1) := by
      unfold GetMixerOutput
      rw [hact']
      cases st.listActiveSamples with
      | nil => simp [mixLoop]
      | cons s rest => simp [mixLoop]
    obtain ⟨v, st1, hres⟩ := hex
    obtain ⟨h1, h2⟩ := GetMixerOutput_inactive st st1 c t dt v hact' hres
    refine ⟨v, st1, hres, hdt, ?_⟩
    rw [h1, h2]
    exact hall


theorem channelLoop_spec (base n C : Nat) (k c : Nat) (s : Stream) (hk : c + k = C)
    (hrange : base + n + C ≤ s.m_pBlockMemory.length)
    (hr : FrameReady s.snd C s.fTimeStep) :
    ∃ s1, channelLoop base n k c s =
        some ((List.range k).map (fun (i : Nat) =>
          ⟨((c + i : Nat) : Int), s.m_fGlobalTime, s.fTimeStep⟩), s1) ∧
      s1.m_fGlobalTime = s.m_fGlobalTime ∧ s1.fTimeStep = s.fTimeStep ∧
      s1.m_nSampleRate = s.m_nSampleRate ∧
      s1.m_nChannels = s.m_nChannels ∧ s1.m_nBlockSamples = s.m_nBlockSamples ∧
      s1.m_pBlockMemory.length = s.m_pBlockMemory.length ∧
      FrameReady s1.snd C s1.fTimeStep := by
  induction k generalizing c s with
  | zero => exact ⟨s, by simp [channelLoop], rfl, rfl, rfl, rfl, rfl, rfl, hr⟩
  | succ k ih =>
    obtain ⟨v, st1, hres, hr1⟩ :=
      GetMixerOutput_frameReady s.snd C c s.m_fGlobalTime s.fTimeStep (by omega) hr
    have hlt : base + n + c < s.m_pBlockMemory.length := by omega
    obtain ⟨s1, h1, ht, hts, hrate, hch, hbs, hlen, hr2⟩ := ih (c + 1)
      { s with snd := st1
               m_pBlockMemory := s.m_pBlockMemory.set (base + n + c) (quantise v) }
      (by omega) (by simp only [List.length_set]; exact hrange) hr1
    refine ⟨s1, ?_, ht, hts, hrate, hch, hbs, by rw [hlen]; simp, hr2⟩
    simp only [channelLoop, hres, hlt, if_true, h1]
    rw [List.range_succ_eq_map, List.map_cons, List.map_map]
    simp only [Nat.add_zero, Function.comp_def, Nat.succ_eq_add_one,
      Option.some.injEq, Prod.mk.injEq, and_true, List.cons.injEq, true_and]
    apply List.map_congr_left
    intro i _
    congr 2
    omega

theorem callSeq_succ (C F : Nat) (t0 dt : ℚ) :
    callSeq C (F + 1) t0 dt =
      (List.range C).map (fun (c : Nat) => (⟨((0 + c : Nat) : Int), t0, dt⟩ : MixerCall)) ++
        callSeq C F (tick dt t0) dt := by
  unfold callSeq
  rw [List.range_succ_eq_map, List.flatMap_cons, List.flatMap_map]
  congr 1
  · apply List.map_congr_left
    intro c _
    simp

theorem callSeq_length (C F : Nat) (t0 dt : ℚ) : (callSeq C F t0 dt).length = F * C := by
  induction F generalizing t0 with
  | zero => simp [callSeq]
  | succ F ih =>
    rw [callSeq_succ, List.length_append, List.length_map, List.length_range, ih]
    ring

theorem frameLoop_spec (base C : Nat) (hC : 1 ≤ C) (F : Nat) (fuel n : Nat) (s : Stream)
    (hch : s.m_nChannels = C) (hB : s.m_nBlockSamples = n + F * C) (hfuel : F ≤ fuel)
    (hrange : base + n + F * C ≤ s.m_pBlockMemory.length)
    (hr : FrameReady s.snd C s.fTimeStep) :
    ∃ s1, frameLoop base fuel n s = .ret (callSeq C F s.m_fGlobalTime s.fTimeStep, s1) ∧
      s1.m_fGlobalTime = Nat.iterate (tick s.fTimeStep) F s.m_fGlobalTime ∧
      s1.fTimeStep = s.fTimeStep ∧
      s1.m_nSampleRate = s.m_nSampleRate ∧ s1.m_nChannels = s.m_nChannels ∧
      s1.m_nBlockSamples = s.m_nBlockSamples ∧
      s1.m_pBlockMemory.length = s.m_pBlockMemory.length := by
  induction F generalizing fuel n s with
  | zero =>
    have hn : ¬ (n < s.m_nBlockSamples) := by omega
    refine ⟨s, ?_, by simp, rfl, rfl, rfl, rfl, rfl⟩
    cases fuel with
    | zero => simp [frameLoop, hn, callSeq]
    | succ f => simp [frameLoop, hn, callSeq]
  | succ F ih =>
    obtain ⟨f, rfl⟩ : ∃ f, fuel = f + 1 := ⟨fuel - 1, by omega⟩
    have hmul : (F + 1) * C = F * C + C := by ring
    have hn : n < s.m_nBlockSamples := by rw [hB, hmul]; omega
    obtain ⟨s1, h1, ht, hts, hrate, hch1, hbs, hlen, hr1⟩ :=
      channelLoop_spec base n C C 0 s (by omega) (by rw [hmul] at hrange; omega) hr
    obtain ⟨s2, h2, ht2, hts2, hrate2, hch2, hbs2, hlen2⟩ := ih f (n + C)
      { s1 with m_fGlobalTime := tick s1.fTimeStep s1.m_fGlobalTime }
      (by simp only; rw [hch1, hch]) (by simp only; rw [hbs, hB, hmul]; omega) (by omega)
      (by
        have e : base + n + (F * C + C) ≤ s.m_pBlockMemory.length := hmul ▸ hrange
        show base + (n + C) + F * C ≤ s1.m_pBlockMemory.length
        rw [hlen]; omega) hr1
    simp only [ht, hts] at h2 ht2 hts2
    refine ⟨s2, ?_, ?_, hts2, by rw [hrate2]; exact hrate, by rw [hch2]; exact hch1,
      by rw [hbs2]; exact hbs, by rw [hlen2]; exact hlen⟩
    · rw [callSeq_succ]
      unfold frameLoop
      rw [if_pos hn, hch, h1]
      simp only []
      rw [ht, hts, h2]
    · rw [ht2, Function.iterate_succ_apply]

theorem quantise_zero : quantise 0 = 0 := by
  simp [quantise, clip, truncShort_eq]

theorem channelLoop_idle (base n : Nat) (t dt : ℚ) (mem : List Int) (B : Nat)
    (h : base + n + 2 ≤ mem.length) :
    channelLoop base n 2 0 ⟨engine [], 44100, 2, B, t, mem, dt⟩ =
      some ([⟨0, t, dt⟩, ⟨1, t, dt⟩],
        ⟨engine [], 44100, 2, B, t, (mem.set (base + n) 0).set (base + n + 1) 0, dt⟩) := by
  have h0 : ∀ (ch : Int), GetMixerOutput (engine []) ch t dt =
      some (0, engine []) := fun ch => GetMixerOutput_empty [] ch t dt
  have l0 : base + n < mem.length := by omega
  have l1 : base + n + 1 < (mem.set (base + n) 0).length := by rw [List.length_set]; omega
  simp only [channelLoop, h0, quantise_zero, l0, l1, if_true, add_zero,
    Nat.cast_zero, Nat.cast_one, zero_add]

theorem callSeq_get (C F : Nat) (t0 dt : ℚ) (j c : Nat) (hj : j < F) (hc : c < C) :
    (callSeq C F t0 dt)[j * C + c]? = some ⟨(c : Int), Nat.iterate (tick dt) j t0, dt⟩ := by
  induction F generalizing t0 j with
  | zero => omega
  | succ F ih =>
    rw [callSeq_succ]
    cases j with
    | zero =>
      rw [List.getElem?_append_left (by simpa using hc)]
      simp [List.getElem?_map, List.getElem?_range hc]
    | succ j =>
      have hi : (j + 1) * C + c = C + (j * C + c) := by ring
      rw [hi, List.getElem?_append_right (by simp)]
      simp only [List.length_map, List.length_range, Nat.add_sub_cancel_left]
      rw [ih (tick dt t0) j (by omega), Function.iterate_succ_apply]

theorem idleStream_timeStep (C B : Nat) (t : ℚ) :
    (idleStream C B t).fTimeStep = 12466118 / 549755813888 := by
  simp only [idleStream]
  exact timeStep_44100

theorem idleStream_eq (C B : Nat) (t : ℚ) :
    idleStream C B t =
      ⟨engine [], 44100, C, B, t, List.replicate B 0, 12466118 / 549755813888⟩ := by
  unfold idleStream
  rw [timeStep_44100]

theorem iterate_two (f : ℚ → ℚ) (x : ℚ) : Nat.iterate f 2 x = f (f x) := rfl

theorem iterate_one (f : ℚ → ℚ) (x : ℚ) : Nat.iterate f 1 x = f x := rfl

/-- C19 (counterexample). Two channels and four block samples at 44100 Hz, nothing playing:
filling the block makes four calls of `GetMixerOutput`, two frames of two channels, not the
eight calls of four frames, and the clock is advanced twice by the time step, the `float`
nearest to 1/44100, not four times. -/
theorem C19_counterexample :
    fillBlock 4 0 (idleStream 2 4 0) =
      .ret ([⟨0, 0, 12466118 / 549755813888⟩, ⟨1, 0, 12466118 / 549755813888⟩,
          ⟨0, 12466118 / 549755813888, 12466118 / 549755813888⟩,
          ⟨1, 12466118 / 549755813888, 12466118 / 549755813888⟩],
        idleStream 2 4 (2 * (12466118 / 549755813888))) ∧
      (idleStream 2 4 0).fTimeStep = 12466118 / 549755813888 ∧
      fl32 (1 / 44100) = 12466118 / 549755813888 ∧
      Nat.iterate (tick (12466118 / 549755813888)) 2 0 = 2 * (12466118 / 549755813888) ∧
      (2 * (12466118 / 549755813888) : ℚ) ≠ 0 + 4 * (12466118 / 549755813888) := by
  refine ⟨?_, idleStream_timeStep 2 4 0, fl32_timeStep, ?_, by norm_num⟩
  · have c1 := channelLoop_idle 0 0 0 (12466118 / 549755813888) [0, 0, 0, 0] 4 (by simp)
    have c2 := channelLoop_idle 0 2 (12466118 / 549755813888) (12466118 / 549755813888)
      [0, 0, 0, 0] 4 (by simp)
    simp only [zero_add, List.set_cons_zero, List.set_cons_succ] at c1 c2
    have r : List.replicate 4 (0 : Int) = [0, 0, 0, 0] := rfl
    rw [idleStream_eq, idleStream_eq, r]
    unfold fillBlock
    unfold frameLoop
    simp only [c1, zero_add, show (0 : Nat) < 4 from by decide, if_true, tick_zero]
    unfold frameLoop
    simp only [c2, zero_add, show (2 : Nat) < 4 from by decide, if_true, tick_one]
    unfold frameLoop
    simp only [Nat.lt_irrefl, if_false, List.append_nil, List.cons_append, List.nil_append]
  · rw [iterate_two, tick_zero, tick_one]

/-- C19 (amended). For a configuration with channel count `C >= 1` and `blockSamples = F * C`
(the block counts values, not frames), a block buffer that holds the block, and a registry whose
reads are defined for the channels `0..C-1`, filling one output block returns after exactly
`blockSamples` calls of `GetMixerOutput`: for each of the `F = blockSamples / C` frames `j` in
order, one call for each channel `0..C-1` in order, all calls of frame `j` with the clock value
reached after `j` clock updates and with the time step of the thread function.  The global
clock is updated `F` times, once per frame and not per channel, each update being the `float`
sum of the clock and the time step; the time step and the configuration are unchanged. -/
theorem C19_block_fill_calls (fuel base F : Nat) (s : Stream)
    (hC : 1 ≤ s.m_nChannels) (hB : s.m_nBlockSamples = F * s.m_nChannels) (hfuel : F ≤ fuel)
    (hrange : base + s.m_nBlockSamples ≤ s.m_pBlockMemory.length)
    (hr : FrameReady s.snd s.m_nChannels s.fTimeStep) :
    ∃ calls s1, fillBlock fuel base s = .ret (calls, s1) ∧
      calls.length = s.m_nBlockSamples ∧
      (∀ j c : Nat, j < F → c < s.m_nChannels →
        calls[j * s.m_nChannels + c]? =
          some ⟨(c : Int), Nat.iterate (tick s.fTimeStep) j s.m_fGlobalTime, s.fTimeStep⟩) ∧
      s1.m_fGlobalTime = Nat.iterate (tick s.fTimeStep) F s.m_fGlobalTime ∧
      s1.fTimeStep = s.fTimeStep ∧
      s1.m_nSampleRate = s.m_nSampleRate ∧ s1.m_nChannels = s.m_nChannels ∧
      s1.m_nBlockSamples = s.m_nBlockSamples ∧
      s1.m_pBlockMemory.length = s.m_pBlockMemory.length := by
  obtain ⟨s1, h1, ht, hrest⟩ := frameLoop_spec base s.m_nChannels hC F fuel 0 s rfl
    (by rw [hB]; omega) hfuel (by rw [hB] at hrange; omega) hr
  refine ⟨_, s1, h1, ?_, ?_, ht, hrest⟩
  · rw [callSeq_length, hB]
  · intro j c hj hc
    exact callSeq_get s.m_nChannels F s.m_fGlobalTime s.fTimeStep j c hj hc

/-- C19 (witness). Two channels and four block samples at 44100 Hz: four calls, the call for
channel 1 of frame 1 is made with the clock after one update, and the clock ends after two
updates at twice the time step. -/
theorem C19_block_fill_calls_witness :
    (1 ≤ (idleStream 2 4 0).m_nChannels ∧
      (idleStream 2 4 0).m_nBlockSamples = 2 * (idleStream 2 4 0).m_nChannels ∧
      FrameReady (idleStream 2 4 0).snd (idleStream 2 4 0).m_nChannels
        (idleStream 2 4 0).fTimeStep) ∧
    ∃ calls s1, fillBlock 2 0 (idleStream 2 4 0) = .ret (calls, s1) ∧
      calls.length = 4 ∧
      calls[1 * 2 + 1]? =
        some ⟨1, 12466118 / 549755813888, 12466118 / 549755813888⟩ ∧
      s1.m_fGlobalTime = 2 * (12466118 / 549755813888) := by
  have hC : 1 ≤ (idleStream 2 4 0).m_nChannels := by decide
  have hB : (idleStream 2 4 0).m_nBlockSamples = 2 * (idleStream 2 4 0).m_nChannels := by decide
  have hts : (idleStream 2 4 0).fTimeStep = 12466118 / 549755813888 :=
    idleStream_timeStep 2 4 0
  have hr : FrameReady (idleStream 2 4 0).snd (idleStream 2 4 0).m_nChannels
      (idleStream 2 4 0).fTimeStep :=
    ⟨by rw [hts]; norm_num, by intro x hx; simp [idleStream, engine] at hx⟩
  refine ⟨⟨hC, hB, hr⟩, ?_⟩
  obtain ⟨calls, s1, h1, hl, hget, ht, _⟩ := C19_block_fill_calls 2 0 2 (idleStream 2 4 0) hC hB
    (le_refl 2) (by simp [idleStream]) hr
  refine ⟨calls, s1, h1, hl, ?_, ?_⟩
  · have h := hget 1 1 (by decide) (by decide)
    have e0 : (idleStream 2 4 0).m_fGlobalTime = 0 := rfl
    rw [hts, e0, iterate_one, tick_zero] at h
    exact h
  · have e0 : (idleStream 2 4 0).m_fGlobalTime = 0 := rfl
    rw [hts, e0, iterate_two, tick_zero, tick_one] at ht
    exact ht


theorem visit_looping (vec : List AudioSample) (id : Int) (a : AudioSample) (p : Int)
    (ha : sampleAt vec id = some a) (hl : Loaded a) (hp0 : 0 ≤ p) (hp24 : p < 16777216) :
    visit vec (1 / 44100) (playing id p true) =
      playing id (if p + 1 < a.nSamples then p + 1 else 0) true := by
  have hrate : a.wavHeader.nSamplesPerSec = 44100 := hl.2.1
  simp only [visit, playing, ha, hrate, advance_frame p hp0 hp24]
  by_cases h : p + 1 < a.nSamples
  · simp [h]
  · simp [h]

theorem sweep_looping (vec : List AudioSample) (id : Int) (a : AudioSample)
    (ha : sampleAt vec id = some a) (hl : Loaded a) (hn : 1 ≤ a.nSamples)
    (h24 : a.nSamples ≤ 16777216) (ps : List Nat) :
    sweep vec (1 / 44100)
        (ps.map (fun (p : Nat) => playing id ((p % a.nSamples.toNat : Nat) : Int) true)) =
      ps.map (fun (p : Nat) => playing id (((p + 1) % a.nSamples.toNat : Nat) : Int) true) := by
  have hN0 : 0 < a.nSamples.toNat := by omega
  induction ps with
  | nil => simp [sweep]
  | cons p rest ih =>
    have hp : p % a.nSamples.toNat < a.nSamples.toNat := Nat.mod_lt p hN0
    unfold sweep at ih ⊢
    rw [List.map_cons, List.map_cons,
      visit_looping vec id a _ ha hl (by positivity) (by omega), List.filter_cons, ih]
    have hmod := succ_mod_cases p a.nSamples.toNat hN0
    have e : (if ((p % a.nSamples.toNat : Nat) : Int) + 1 < a.nSamples
        then ((p % a.nSamples.toNat : Nat) : Int) + 1 else 0) =
          (((p + 1) % a.nSamples.toNat : Nat) : Int) := by
      rw [hmod]
      by_cases h : p % a.nSamples.toNat + 1 < a.nSamples.toNat
      · rw [if_pos h, if_pos (by omega)]
        push_cast
        rfl
      · rw [if_neg h, if_neg (by omega)]
        rfl
    rw [e]
    simp [playing]

theorem GetMixerOutput_looping (vec : List AudioSample) (id : Int) (a : AudioSample) (ch : Int)
    (t : ℚ) (ha : sampleAt vec id = some a) (hl : Loaded a)
    (hch0 : 0 ≤ ch) (hch : ch < a.nChannels) (hn : 1 ≤ a.nSamples)
    (h24 : a.nSamples ≤ 16777216) (ps : List Nat) :
    ∃ v, GetMixerOutput (engineWith vec
        (ps.map (fun (p : Nat) => playing id ((p % a.nSamples.toNat : Nat) : Int) true)))
        ch t (1 / 44100) =
      some (v, engineWith vec
        (ps.map (fun (p : Nat) =>
          playing id (((p + 1) % a.nSamples.toNat : Nat) : Int) true))) := by
  rw [GetMixerOutput_active _ _ _ _ rfl]
  have hc := allContrib_ready vec ch (1 / 44100)
    (ps.map (fun (p : Nat) => playing id ((p % a.nSamples.toNat : Nat) : Int) true))
    hch0 (by norm_num)
    (by
      intro s hs
      obtain ⟨p, _, rfl⟩ := List.mem_map.mp hs
      exact ⟨Int.natCast_nonneg _, a, ha, hl, hch⟩)
  simp only [engineWith, engine] at hc ⊢
  rw [hc, sweep_looping vec id a ha hl hn h24 ps]
  exact ⟨_, rfl⟩

theorem runMixer_looping (vec : List AudioSample) (id : Int) (a : AudioSample) (ch : Int)
    (ts : Nat → ℚ) (ha : sampleAt vec id = some a) (hl : Loaded a)
    (hch0 : 0 ≤ ch) (hch : ch < a.nChannels) (hn : 1 ≤ a.nSamples)
    (h24 : a.nSamples ≤ 16777216) (ps : List Nat) (m : Nat) :
    ∃ outs, runMixer ch ts (1 / 44100) m (engineWith vec
        (ps.map (fun (p : Nat) => playing id ((p % a.nSamples.toNat : Nat) : Int) true))) =
      some (outs, engineWith vec
        (ps.map (fun (p : Nat) =>
          playing id (((p + m) % a.nSamples.toNat : Nat) : Int) true))) ∧
        outs.length = m := by
  induction m with
  | zero => exact ⟨[], by simp [runMixer], rfl⟩
  | succ m ih =>
    obtain ⟨outs, h1, hlen⟩ := ih
    obtain ⟨v, h2⟩ := GetMixerOutput_looping vec id a ch (ts m) ha hl hch0 hch hn h24
      (ps.map (fun p => p + m))
    rw [List.map_map, List.map_map] at h2
    refine ⟨outs ++ [v], ?_, by simp [hlen]⟩
    rw [runMixer_succ ch ts _ m _ _ _ _ _ h1 h2]
    rfl

theorem PlaySample_second (vec : List AudioSample) (id : Int) (N k : Nat) :
    PlaySample (engineWith vec [playing id ((k % N : Nat) : Int) true]) id true =
      engineWith vec ([k, 0].map (fun (p : Nat) => playing id ((p % N : Nat) : Int) true)) := by
  simp [PlaySample, engineWith, engine, playing]

/-- C20 (counterexample). A looping sample of three frames, played, stepped once (`k = 1`),
played again and stepped twice more: the first instance has wrapped to position 0 and the
second is at position 2, so the positions differ by two frames and not by `k = 1`. -/
theorem C20_counterexample :
    runMixer 0 (fun _ => 0) (1 / 44100) 1 (PlaySample (engine [monoSample [5, 7, 9]]) 1 true) =
      some ([7], engineWith [monoSample [5, 7, 9]] [playing 1 1 true]) ∧
    (runMixer 0 (fun _ => 0) (1 / 44100) 2
        (PlaySample (engineWith [monoSample [5, 7, 9]] [playing 1 1 true]) 1 true)).map
      (fun r => r.2.listActiveSamples) = some [playing 1 0 true, playing 1 2 true] := by
  have hl := monoSample_loaded [5, 7, 9]
  have hch : (0 : Int) < (monoSample [5, 7, 9]).nChannels := by simp [monoSample]
  have hn : 1 ≤ (monoSample [5, 7, 9]).nSamples := by simp [monoSample]
  have h24 : (monoSample [5, 7, 9]).nSamples ≤ 16777216 := by simp [monoSample]
  have hN : (monoSample [5, 7, 9]).nSamples.toNat = 3 := by simp [monoSample]
  constructor
  · rw [PlaySample_engine, runMixer_loop [monoSample [5, 7, 9]] 1 (monoSample [5, 7, 9]) 0
      (fun _ => 0) rfl hl (le_refl 0) hch hn h24 1]
    simp [loopOutput, List.range_succ, monoSample, frameValue, readSample]
  · have h2 := PlaySample_second [monoSample [5, 7, 9]] 1 3 1
    obtain ⟨outs, h, _⟩ := runMixer_looping [monoSample [5, 7, 9]] 1 (monoSample [5, 7, 9]) 0
      (fun _ => 0) rfl hl (le_refl 0) hch hn h24 [1, 0] 2
    rw [hN] at h
    simp only [Nat.one_mod, Nat.cast_one] at h2
    rw [h2, h]
    simp [engineWith, engine]

/-- C20 (amended). For a loaded sample `id` of `N` frames, `1 <= N <= 2^24 = 16777216` (the
range in which the `float` arithmetic of the position update is exact): after
`PlaySample(id, true)` on an engine with an empty registry, `k` mixer steps (channel 0, time
step 1/44100, thread active), a second `PlaySample(id, true)` and `m >= 0` further steps, every
step returns and the registry holds exactly two entries for `id`, the first at position
`(k + m) mod N` and the second at position `m mod N`.  Their positions differ by `k` modulo
`N`; the difference is exactly `k` frames when the first instance has not wrapped since the
second call (`k + (m mod N) < N`). -/
theorem C20_two_instances (vec : List AudioSample) (id : Int) (a : AudioSample)
    (ts1 ts2 : Nat → ℚ) (k m : Nat) (ha : sampleAt vec id = some a) (hl : Loaded a)
    (hch : 0 < a.nChannels) (hn : 1 ≤ a.nSamples) (h24 : a.nSamples ≤ 16777216) :
    ∃ outs1 outs2,
      runMixer 0 ts1 (1 / 44100) k (PlaySample (engine vec) id true) =
        some (outs1, engineWith vec [playing id ((k % a.nSamples.toNat : Nat) : Int) true]) ∧
      runMixer 0 ts2 (1 / 44100) m
          (PlaySample (engineWith vec [playing id ((k % a.nSamples.toNat : Nat) : Int) true])
            id true) =
        some (outs2, engineWith vec
          [playing id (((k + m) % a.nSamples.toNat : Nat) : Int) true,
           playing id ((m % a.nSamples.toNat : Nat) : Int) true]) ∧
      outs1.length = k ∧ outs2.length = m ∧
      ((((k + m) % a.nSamples.toNat : Nat) : Int) - ((m % a.nSamples.toNat : Nat) : Int)) %
          a.nSamples = ((k % a.nSamples.toNat : Nat) : Int) ∧
      (k + m % a.nSamples.toNat < a.nSamples.toNat →
        (((k + m) % a.nSamples.toNat : Nat) : Int) - ((m % a.nSamples.toNat : Nat) : Int) = k) := by
  have hN : ((a.nSamples.toNat : Nat) : Int) = a.nSamples := Int.toNat_of_nonneg (by omega)
  have h1 := runMixer_loop vec id a 0 ts1 ha hl (le_refl 0) hch hn h24 k
  obtain ⟨outs2, h2, hlen2⟩ :=
    runMixer_looping vec id a 0 ts2 ha hl (le_refl 0) hch hn h24 [k, 0] m
  refine ⟨(List.range k).map (loopOutput a 0), outs2, ?_, ?_, by simp, hlen2, ?_, ?_⟩
  · rw [PlaySample_engine]
    exact h1
  · rw [PlaySample_second, h2]
    simp
  · have key : ∀ N : Nat, ((((k + m) % N : Nat) : Int) - ((m % N : Nat) : Int)) % (N : Int) =
        ((k % N : Nat) : Int) := by
      intro N
      push_cast
      rw [← Int.sub_emod]
      simp
    have h := key a.nSamples.toNat
    rw [hN] at h
    exact h
  · intro h
    have e : (k + m) % a.nSamples.toNat = k + m % a.nSamples.toNat := by
      rw [← Nat.add_mod_mod, Nat.mod_eq_of_lt h]
    rw [e]
    push_cast
    ring

/-- C20 (witness). The sample `5, 7, 9`: played, stepped once, played again and stepped once
more, the entries are at positions 2 and 1. -/
theorem C20_two_instances_witness :
    (sampleAt [monoSample [5, 7, 9]] 1 = some (monoSample [5, 7, 9]) ∧
      Loaded (monoSample [5, 7, 9]) ∧ (monoSample [5, 7, 9]).nSamples ≤ 16777216) ∧
    ∃ outs1 outs2,
      runMixer 0 (fun _ => 0) (1 / 44100) 1 (PlaySample (engine [monoSample [5, 7, 9]]) 1 true) =
        some (outs1, engineWith [monoSample [5, 7, 9]] [playing 1 1 true]) ∧
      runMixer 0 (fun _ => 0) (1 / 44100) 1
          (PlaySample (engineWith [monoSample [5, 7, 9]] [playing 1 1 true]) 1 true) =
        some (outs2, engineWith [monoSample [5, 7, 9]] [playing 1 2 true, playing 1 1 true]) := by
  have hN : (monoSample [5, 7, 9]).nSamples.toNat = 3 := by simp [monoSample]
  have h24 : (monoSample [5, 7, 9]).nSamples ≤ 16777216 := by simp [monoSample]
  refine ⟨⟨rfl, monoSample_loaded _, h24⟩, ?_⟩
  obtain ⟨outs1, outs2, h1, h2, _⟩ := C20_two_instances [monoSample [5, 7, 9]] 1
    (monoSample [5, 7, 9]) (fun _ => 0) (fun _ => 0) 1 1 rfl (monoSample_loaded _)
    (by simp [monoSample]) (by simp [monoSample]) h24
  rw [hN] at h1 h2
  exact ⟨outs1, outs2, by simpa using h1, by simpa using h2⟩


theorem ofBytes_formatTag (mem : List Nat) (w : Nat) (body : List Nat) :
    jpr_WAVEFORMATEX.ofBytes (overwrite mem (bytes16 w ++ body)) =
      { jpr_WAVEFORMATEX.ofBytes (overwrite mem (bytes16 1 ++ body)) with
        wFormatTag := w % 65536 } := by
  simp only [jpr_WAVEFORMATEX.ofBytes, overwrite, bytes16, le16, le32, byteAt,
    List.cons_append, List.nil_append, List.getD_cons_succ, List.getD_cons_zero,
    List.length_cons, List.length_append, List.length_nil]
  simp only [jpr_WAVEFORMATEX.mk.injEq, and_true, true_and]
  omega

/-- C21 (counterexample). The file `junkFloatWav`, whose chunk after `WAVE` is tagged `JUNK`
and whose format structure has `wFormatTag = 3`, with 16 bits per sample and 44100 Hz, is
decoded successfully: the decoder returns OK with a valid sample of two frames. -/
theorem C21_counterexample :
    ReadWave 1 (AudioSample.new ⟨0, 0, 0, 0, 0, 0, 0⟩) [0, 0, 0, 0]
        (IStream.ofFile junkFloatWav) =
      .ret (.OK, { wavHeader := { monoHeader with wFormatTag := 3 },
                   fSample := [1 / 32767, -32768 / 32767],
                   nSamples := 2, nChannels := 1, bSampleValid := true }) := by
  have h := ReadWave_wavStream 1 (AudioSample.new ⟨0, 0, 0, 0, 0, 0, 0⟩) [0, 0, 0, 0] true
    [40, 0, 0, 0] [74, 85, 78, 75] [3, 0, 1, 0, 68, 172, 0, 0, 136, 88, 1, 0, 2, 0, 16, 0] []
    4 [1, 0, 0, 128]
    rfl rfl (by decide) (by decide) (by decide) (by decide)
    (by intro x hx; simp at hx)
    (fun h => absurd rfl h) (by decide) (by decide) (by decide)
  have hh : jpr_WAVEFORMATEX.ofBytes
      (overwrite (AudioSample.new ⟨0, 0, 0, 0, 0, 0, 0⟩).wavHeader.toBytes
        [3, 0, 1, 0, 68, 172, 0, 0, 136, 88, 1, 0, 2, 0, 16, 0]) =
        { monoHeader with wFormatTag := 3 } := by decide
  rw [hh] at h
  have e : IStream.ofFile junkFloatWav = goodStream junkFloatWav true := rfl
  rw [e]
  unfold junkFloatWav
  rw [h]
  have hv0 : payloadValue [1, 0, 0, 128] 0 = 1 := by decide
  have hv1 : payloadValue [1, 0, 0, 128] 1 = -32768 := by decide
  simp [monoHeader, List.range_succ, hv0, hv1, normalise, SHRT_MAX]

/-- C21 (amended). The decoder compares neither the four tag bytes that follow `WAVE` with
`fmt ` nor `wFormatTag` with 1.  Take a complete stream (any chunks to skip, a data chunk whose
declared bytes are all present) whose format chunk is tagged `fmt ` and whose structure starts
with `wFormatTag = 1` and has 16 bits per sample, 44100 Hz and at least one channel: it decodes
to a valid sample `a`.  The same stream with any four bytes `fmtTag` in place of `fmt ` and
any value `w` in place of the format tag also decodes successfully, to the same sample `a`
except that the stored header carries `w` as its `wFormatTag`. -/
theorem C21_tag_and_format_not_checked (fuel : Nat) (self : AudioSample) (dump0 : List Nat)
    (sk : Bool) (riffSize fmtTag : List Nat) (w : Nat) (body : List Nat)
    (chunks : List SkipChunk) (B : Nat) (tail : List Nat)
    (h1 : riffSize.length = 4) (h2 : fmtTag.length = 4) (h3 : body.length ≤ 16)
    (hbits : (jpr_WAVEFORMATEX.ofBytes
      (overwrite self.wavHeader.toBytes (bytes16 1 ++ body))).wBitsPerSample = 16)
    (hrate : (jpr_WAVEFORMATEX.ofBytes
      (overwrite self.wavHeader.toBytes (bytes16 1 ++ body))).nSamplesPerSec = 44100)
    (hc : 1 ≤ (jpr_WAVEFORMATEX.ofBytes
      (overwrite self.wavHeader.toBytes (bytes16 1 ++ body))).nChannels)
    (hch : ∀ c ∈ chunks, c.tag.length = 4 ∧ c.tag ≠ tagData ∧ c.body.length < 2 ^ 32)
    (hsk : chunks ≠ [] → sk = true) (hfuel : chunks.length < fuel)
    (hB : B < 2 ^ 32) (hpresent : B ≤ tail.length) :
    ∃ a, ReadWave fuel self dump0
          (goodStream (wavStream riffSize tagFmt (bytes16 1 ++ body) chunks B tail) sk) =
        .ret (.OK, a) ∧
      a.bSampleValid = true ∧ a.wavHeader.wFormatTag = 1 ∧
      ReadWave fuel self dump0
          (goodStream (wavStream riffSize fmtTag (bytes16 w ++ body) chunks B tail) sk) =
        .ret (.OK, { a with wavHeader := { a.wavHeader with wFormatTag := w % 65536 } }) := by
  have hlen : ∀ v : Nat, (bytes16 v ++ body).length ≤ 18 := by
    intro v
    simp only [bytes16, List.length_append, List.length_cons, List.length_nil]
    omega
  have hw := ofBytes_formatTag self.wavHeader.toBytes w body
  have ha := ReadWave_wavStream fuel self dump0 sk riffSize tagFmt (bytes16 1 ++ body) chunks B
    tail h1 rfl (hlen 1) hbits hrate hc hch hsk hfuel hB hpresent
  have hb := ReadWave_wavStream fuel self dump0 sk riffSize fmtTag (bytes16 w ++ body) chunks B
    tail h1 h2 (hlen w) (by rw [hw]; exact hbits) (by rw [hw]; exact hrate)
    (by rw [hw]; exact hc) hch hsk hfuel hB hpresent
  refine ⟨_, ha, rfl, ?_, ?_⟩
  · have h1' := ofBytes_formatTag self.wavHeader.toBytes 1 body
    rw [h1']
  · rw [hb, hw]

theorem C21_tag_and_format_not_checked_witness :
    ∃ a, ReadWave 1 (AudioSample.new ⟨0, 0, 0, 0, 0, 0, 0⟩) [0, 0, 0, 0]
          (goodStream (wavStream [40, 0, 0, 0] tagFmt
            (bytes16 1 ++ [1, 0, 68, 172, 0, 0, 136, 88, 1, 0, 2, 0, 16, 0]) [] 4
            [1, 0, 0, 128]) true) = .ret (.OK, a) ∧
      a.bSampleValid = true ∧ a.wavHeader.wFormatTag = 1 ∧
      ReadWave 1 (AudioSample.new ⟨0, 0, 0, 0, 0, 0, 0⟩) [0, 0, 0, 0]
          (goodStream (wavStream [40, 0, 0, 0] [74, 85, 78, 75]
            (bytes16 3 ++ [1, 0, 68, 172, 0, 0, 136, 88, 1, 0, 2, 0, 16, 0]) [] 4
            [1, 0, 0, 128]) true) =
        .ret (.OK, { a with wavHeader := { a.wavHeader with wFormatTag := 3 % 65536 } }) :=
  C21_tag_and_format_not_checked 1 (AudioSample.new ⟨0, 0, 0, 0, 0, 0, 0⟩) [0, 0, 0, 0] true
    [40, 0, 0, 0] [74, 85, 78, 75] 3 [1, 0, 68, 172, 0, 0, 136, 88, 1, 0, 2, 0, 16, 0] [] 4
    [1, 0, 0, 128] rfl rfl (by decide) (by decide) (by decide) (by decide)
    (by intro x hx; simp at hx) (fun h => absurd rfl h) (by decide) (by decide) (by decide)


theorem contribution_playing (vec : List AudioSample) (id : Int) (a : AudioSample) (ch : Int)
    (dt : ℚ) (b : Bool) (p q : Int) (ha : sampleAt vec id = some a)
    (hq : advance a.wavHeader.nSamplesPerSec dt p = q) (hlt : q < a.nSamples) :
    contribution vec ch dt (playing id p b) = readSample a (q * a.nChannels + ch) := by
  simp only [contribution, playing, Bool.false_eq_true, if_false, ha, hq, hlt, if_true]

theorem visit_playing (vec : List AudioSample) (id : Int) (a : AudioSample)
    (dt : ℚ) (b : Bool) (p q : Int) (ha : sampleAt vec id = some a)
    (hq : advance a.wavHeader.nSamplesPerSec dt p = q) (hlt : q < a.nSamples) :
    visit vec dt (playing id p b) = playing id q b := by
  simp only [visit, playing, Bool.false_eq_true, if_false, ha, hq, hlt, if_true]

/-- One call on a registry with a single instance whose advanced position `q` is below the
frame count: the call returns the value read at `q * nChannels + ch`, if there is one. -/
theorem GetMixerOutput_read (vec : List AudioSample) (id : Int) (a : AudioSample) (ch : Int)
    (t dt : ℚ) (b : Bool) (p q : Int) (ha : sampleAt vec id = some a)
    (hq : advance a.wavHeader.nSamplesPerSec dt p = q) (hlt : q < a.nSamples) :
    GetMixerOutput (engineWith vec [playing id p b]) ch t dt =
      (readSample a (q * a.nChannels + ch)).map
        (fun v => (v, engineWith vec [playing id q b])) := by
  rw [GetMixerOutput_active _ _ _ _ rfl]
  simp only [engineWith, engine, allContrib, sweep, List.map_cons, List.map_nil,
    contribution_playing vec id a ch dt b p q ha hq hlt,
    visit_playing vec id a dt b p q ha hq hlt]
  cases readSample a (q * a.nChannels + ch) with
  | none => rfl
  | some v => simp [applyHooks, playing]

theorem channelLoop_second_undefined (snd snd1 : SOUND) (rate B : Nat) (t dt v : ℚ)
    (h0 : GetMixerOutput snd 0 t dt = some (v, snd1))
    (h1 : GetMixerOutput snd1 1 t dt = none) :
    channelLoop 0 0 2 0 ⟨snd, rate, 2, B, t, [0, 0], dt⟩ = none := by
  simp only [channelLoop, Nat.cast_zero, Nat.cast_one, zero_add, h0,
    List.length_cons, List.length_nil, List.length_set, h1]
  rfl

/-- C25 (code at the failing input). A mono sample of three frames playing in a stream of two
channels: the call for channel 1 that advances the instance to the last frame (position 2)
reads `fSample[2 * 1 + 1]`, index 3 of a buffer of `3 * 1` values, which is outside the
buffer; the frame loop of a two-channel stream reaches that call in its first frame after
`PlaySample`. -/
theorem C25_mono_sample_read_out_of_bounds :
    GetMixerOutput (engineWith [monoSample [5, 7, 9]] [playing 1 1 false]) 1 0 (1 / 44100) =
      none ∧
    Loaded (monoSample [5, 7, 9]) ∧
    (monoSample [5, 7, 9]).nSamples * (monoSample [5, 7, 9]).nChannels = 3 ∧
    readSample (monoSample [5, 7, 9]) (2 * (monoSample [5, 7, 9]).nChannels + 1) = none ∧
    channelLoop 0 0 2 0
        { snd := PlaySample (engine [monoSample [5, 7, 9]]) 1 false,
          m_nSampleRate := 44100, m_nChannels := 2, m_nBlockSamples := 2, m_fGlobalTime := 0,
          m_pBlockMemory := [0, 0] } = none := by
  have hr : readSample (monoSample [5, 7, 9]) (2 * (monoSample [5, 7, 9]).nChannels + 1) =
      none := by simp [readSample, monoSample]
  have hn : (2 : Int) < (monoSample [5, 7, 9]).nSamples := by simp [monoSample]
  have h1 : ∀ dt : ℚ, advance 44100 dt 1 = 2 →
      GetMixerOutput (engineWith [monoSample [5, 7, 9]] [playing 1 1 false]) 1 0 dt = none := by
    intro dt hdt
    rw [GetMixerOutput_read [monoSample [5, 7, 9]] 1 (monoSample [5, 7, 9]) 1 0 dt false 1 2 rfl
      hdt hn, hr]
    rfl
  have a1 : advance 44100 (1 / 44100) 1 = 2 := by
    rw [advance_frame 1 (by norm_num) (by norm_num)]
    norm_num
  have b0 : advance 44100 (12466118 / 549755813888) 0 = 1 := by
    rw [advance_timeStep 0 (by norm_num) (by norm_num)]
    norm_num
  have b1 : advance 44100 (12466118 / 549755813888) 1 = 2 := by
    rw [advance_timeStep 1 (by norm_num) (by norm_num)]
    norm_num
  have h0 := GetMixerOutput_read [monoSample [5, 7, 9]] 1 (monoSample [5, 7, 9]) 0 0
    (12466118 / 549755813888) false 0 1 rfl b0 (by simp [monoSample])
  have hr0 : readSample (monoSample [5, 7, 9]) (1 * (monoSample [5, 7, 9]).nChannels + 0) =
      some 7 := by simp [readSample, monoSample]
  rw [hr0, Option.map_some'] at h0
  have h2 := h1 _ b1
  rw [← timeStep_44100] at h0 h2
  refine ⟨h1 _ a1, monoSample_loaded _, by simp [monoSample], hr, ?_⟩
  rw [PlaySample_engine]
  exact channelLoop_second_undefined _ _ 44100 2 0 _ 7 h0 h2


theorem ReadWave_wavStream_conv (fuel : Nat) (self : AudioSample) (dump0 : List Nat) (sk : Bool)
    (riffSize fmtTag hdr : List Nat) (chunks : List SkipChunk) (B : Nat) (tail : List Nat)
    (h1 : riffSize.length = 4) (h2 : fmtTag.length = 4) (h3 : hdr.length ≤ 18)
    (hbits : (jpr_WAVEFORMATEX.ofBytes (overwrite self.wavHeader.toBytes hdr)).wBitsPerSample = 16)
    (hrate : (jpr_WAVEFORMATEX.ofBytes
      (overwrite self.wavHeader.toBytes hdr)).nSamplesPerSec = 44100)
    (hc : 1 ≤ (jpr_WAVEFORMATEX.ofBytes (overwrite self.wavHeader.toBytes hdr)).nChannels)
    (hch : ∀ c ∈ chunks, c.tag.length = 4 ∧ c.tag ≠ tagData ∧ c.body.length < 2 ^ 32)
    (hsk : chunks ≠ [] → sk = true) (hfuel : chunks.length < fuel)
    (hB : B < 2 ^ 32) :
    ReadWave fuel self dump0 (goodStream (wavStream riffSize fmtTag hdr chunks B tail) sk) =
      .ret (.OK,
        { wavHeader := jpr_WAVEFORMATEX.ofBytes (overwrite self.wavHeader.toBytes hdr)
          fSample := (convertAll (B /
              ((jpr_WAVEFORMATEX.ofBytes (overwrite self.wavHeader.toBytes hdr)).nChannels * 2))
            (jpr_WAVEFORMATEX.ofBytes (overwrite self.wavHeader.toBytes hdr)).nChannels
            (goodStream tail sk, [])).2
          nSamples := ((B /
            ((jpr_WAVEFORMATEX.ofBytes (overwrite self.wavHeader.toBytes hdr)).nChannels * 2)
              : Nat) : Int)
          nChannels := (((jpr_WAVEFORMATEX.ofBytes
            (overwrite self.wavHeader.toBytes hdr)).nChannels : Nat) : Int)
          bSampleValid := true }) := by
  unfold ReadWave wavStream
  simp only []
  rw [read_good tagRIFF _ sk 4 rfl]
  simp only [take_overwrite dump0 tagRIFF 4 rfl, ne_eq, not_true_eq_false, if_false]
  rw [read_good riffSize _ sk 4 h1]
  simp only []
  rw [read_good tagWAVE _ sk 4 rfl]
  simp only [take_overwrite _ tagWAVE 4 rfl, ne_eq, not_true_eq_false, if_false]
  rw [read_good fmtTag _ sk 4 h2]
  simp only []
  rw [read_good (bytes32 hdr.length) _ sk 4 rfl]
  simp only [le32_overwrite [0, 0, 0, 0] hdr.length (by omega)]
  rw [read_good hdr _ sk hdr.length rfl]
  simp only [sizeofWaveFormat, not_lt.mpr h3, if_false, hbits, hrate, ne_eq, not_true_eq_false,
    or_self]
  obtain ⟨dump, size, hscan, hle⟩ := scanChunks_finds B hB tail sk chunks hch hsk fuel hfuel
    (overwrite (overwrite (overwrite (overwrite dump0 tagRIFF) riffSize) tagWAVE) fmtTag)
    [0, 0, 0, 0]
  rw [hscan]
  have h16 : (16 : Nat) >>> 3 = 2 := by decide
  simp only [hle, h16]
  rw [if_neg (by omega)]

theorem convertOne_at_end (sk : Bool) (acc : List ℚ) :
    convertOne (goodStream [] sk, acc) =
      ({ rest := [], eofbit := true, failbit := true, seekable := sk }, acc ++ [0]) := by
  simp [convertOne, IStream.eof, IStream.read, goodStream, overwrite, toShort, le16, byteAt,
    normalise]

theorem convertOne_eof (s : IStream) (acc : List ℚ) (h : s.eofbit = true) :
    convertOne (s, acc) = (s, acc) := by
  simp [convertOne, IStream.eof, h]

theorem convert_iterate_eof (s : IStream) (acc : List ℚ) (h : s.eofbit = true) (k : Nat) :
    convertOne^[k] (s, acc) = (s, acc) := by
  induction k with
  | zero => rfl
  | succ k ih => rw [Function.iterate_succ_apply', ih, convertOne_eof s acc h]

theorem convert_iterate_short (r : List Nat) (sk : Bool) (acc : List ℚ) (m k : Nat)
    (h : r.length = 2 * m) :
    convertOne^[m + 1 + k] (goodStream r sk, acc) =
      ({ rest := [], eofbit := true, failbit := true, seekable := sk },
        acc ++ (List.range m).map (fun j => normalise (payloadValue r j)) ++ [0]) := by
  rw [Nat.add_comm (m + 1) k, Function.iterate_add_apply, Function.iterate_succ_apply',
    convert_iterate r sk acc m (by omega)]
  have hd : r.drop (2 * m) = [] := by
    apply List.drop_eq_nil_of_le
    omega
  rw [hd, convertOne_at_end, convert_iterate_eof _ _ rfl]

theorem convertAll_short (r : List Nat) (sk : Bool) (n c m : Nat) (h : r.length = 2 * m)
    (hm : m < n * c) :
    (convertAll n c (goodStream r sk, [])).2 =
      (List.range m).map (fun j => normalise (payloadValue r j)) ++ [0] := by
  unfold convertAll
  obtain ⟨k, hk⟩ : ∃ k, c * n = m + 1 + k := ⟨c * n - (m + 1), by
    have : n * c = c * n := Nat.mul_comm n c
    omega⟩
  rw [← Function.iterate_mul, hk, convert_iterate_short r sk [] m k h]
  simp

/-- C28 (code at the failing input). A stream with a valid header whose data chunk declares
`B` bytes, that is `B / (2 * c) * c` values for `c` channels, while the stream ends after `m`
complete values with `m` below that count: the decoder returns OK with a valid sample and the
declared frame count, and it has written `m + 1` values, the `m` converted ones followed by
one zero.  The test `!is.eof()` of the conversion loop becomes true only after a read has
failed, and the value of that failed read, `s = 0`, is stored like the others. -/
theorem C28_truncated_data_extra_value (fuel : Nat) (self : AudioSample) (dump0 : List Nat)
    (sk : Bool) (riffSize fmtTag hdr : List Nat) (chunks : List SkipChunk) (B c m : Nat)
    (tail : List Nat)
    (h1 : riffSize.length = 4) (h2 : fmtTag.length = 4) (h3 : hdr.length ≤ 18)
    (hbits : (jpr_WAVEFORMATEX.ofBytes (overwrite self.wavHeader.toBytes hdr)).wBitsPerSample = 16)
    (hrate : (jpr_WAVEFORMATEX.ofBytes
      (overwrite self.wavHeader.toBytes hdr)).nSamplesPerSec = 44100)
    (hc : (jpr_WAVEFORMATEX.ofBytes (overwrite self.wavHeader.toBytes hdr)).nChannels = c)
    (hc1 : 1 ≤ c)
    (hch : ∀ x ∈ chunks, x.tag.length = 4 ∧ x.tag ≠ tagData ∧ x.body.length < 2 ^ 32)
    (hsk : chunks ≠ [] → sk = true) (hfuel : chunks.length < fuel)
    (hB : B < 2 ^ 32) (htail : tail.length = 2 * m) (hm : m < B / (2 * c) * c) :
    ∃ a, ReadWave fuel self dump0 (goodStream (wavStream riffSize fmtTag hdr chunks B tail) sk) =
        .ret (.OK, a) ∧
      a.bSampleValid = true ∧ a.nSamples = ((B / (2 * c) : Nat) : Int) ∧
      a.nChannels = (c : Int) ∧
      a.fSample = (List.range m).map (fun k => normalise (payloadValue tail k)) ++ [0] ∧
      a.fSample.length = m + 1 := by
  have h := ReadWave_wavStream_conv fuel self dump0 sk riffSize fmtTag hdr chunks B tail h1 h2 h3
    hbits hrate (by omega) hch hsk hfuel hB
  rw [hc, Nat.mul_comm c 2, convertAll_short tail sk (B / (2 * c)) c m htail hm] at h
  exact ⟨_, h, rfl, rfl, rfl, rfl, by simp⟩

/-- C28 (witness). The file `truncatedWav` declares two values and holds one: the decoded
sample has `nSamples = 2` and the two stored values `1/32767` and `0`. -/
theorem C28_truncated_data_extra_value_witness :
    ∃ a, ReadWave 1 (AudioSample.new ⟨0, 0, 0, 0, 0, 0, 0⟩) [0, 0, 0, 0]
        (goodStream truncatedWav true) = .ret (.OK, a) ∧
      a.bSampleValid = true ∧ a.nSamples = ((4 / (2 * 1) : Nat) : Int) ∧
      a.nChannels = ((1 : Nat) : Int) ∧
      a.fSample = (List.range 1).map (fun k => normalise (payloadValue [1, 0] k)) ++ [0] ∧
      a.fSample.length = 1 + 1 :=
  C28_truncated_data_extra_value 1 (AudioSample.new ⟨0, 0, 0, 0, 0, 0, 0⟩) [0, 0, 0, 0] true
    [38, 0, 0, 0] tagFmt monoHeaderBytes [] 4 1 1 [1, 0]
    rfl rfl (by decide) (by decide) (by decide) (by decide) (by decide)
    (by intro x hx; simp at hx) (fun h => absurd rfl h) (by decide) (by decide) rfl
    (by decide)


theorem writeBody_busy (C : Nat) (s : WriteState) :
    writeBody C (-EAGAIN) s = { s with writes := s.writes ++ [(s.pBlockPos, s.nLeft)] } := by
  simp [writeBody, EAGAIN]

theorem writeBody_underrun (C : Nat) (s : WriteState) :
    writeBody C (-EPIPE) s =
      { s with writes := s.writes ++ [(s.pBlockPos, s.nLeft)],
               nPrepares := s.nPrepares + 1 } := by
  simp [writeBody, EAGAIN, EPIPE]

theorem writeBody_accept (C : Nat) (s : WriteState) (rc : Int) (h1 : 1 ≤ rc)
    (h2 : rc ≤ (s.nLeft : Int)) (hB : s.nLeft < 2 ^ 32) :
    writeBody C rc s =
      { s with writes := s.writes ++ [(s.pBlockPos, s.nLeft)],
               pBlockPos := s.pBlockPos + (rc.toNat * C) % 2 ^ 32,
               nLeft := s.nLeft - rc.toNat } := by
  have hpos : rc > 0 := by omega
  have hne1 : rc ≠ -EAGAIN := by simp only [EAGAIN]; omega
  have hne2 : rc ≠ -EPIPE := by simp only [EPIPE]; omega
  have hrc : (rc % 2 ^ 32).toNat = rc.toNat := by omega
  have hleft : (((s.nLeft : Int) - rc) % 2 ^ 64).toNat = s.nLeft - rc.toNat := by omega
  simp only [writeBody, hpos, if_true, hne1, hne2, if_false, hrc, hleft]

theorem writeLoop_spec (C : Nat) (rcs : List Int) (s : WriteState)
    (hB : s.nLeft < 2 ^ 32) (h : SinkResponses s.nLeft rcs) :
    ∃ used, rcs = used ++ (writeLoop C rcs s).2 ∧
      ((writeLoop C rcs s).2 ≠ [] → (writeLoop C rcs s).1.nLeft = 0) ∧
      (writeLoop C rcs s).1.nLeft + acceptedFrames used = s.nLeft ∧
      (s.nLeft * C < 2 ^ 32 →
        (writeLoop C rcs s).1.pBlockPos = s.pBlockPos + acceptedFrames used * C) ∧
      (writeLoop C rcs s).1.nPrepares = s.nPrepares + used.count (-EPIPE) ∧
      (writeLoop C rcs s).1.writes.length = s.writes.length + used.length := by
  induction rcs generalizing s with
  | nil => exact ⟨[], by simp [writeLoop, acceptedFrames]⟩
  | cons rc rest ih =>
    by_cases hl : 0 < s.nLeft
    · have hstep : writeLoop C (rc :: rest) s = writeLoop C rest (writeBody C rc s) := by
        simp [writeLoop, hl]
      rw [hstep]
      unfold SinkResponses at h
      rcases h with ⟨rfl, hr⟩ | ⟨rfl, hr⟩ | ⟨hr1, hr2, hr⟩
      · have hb := writeBody_busy C s
        have e1 : (writeBody C (-EAGAIN) s).nLeft = s.nLeft := by rw [hb]
        have e2 : (writeBody C (-EAGAIN) s).pBlockPos = s.pBlockPos := by rw [hb]
        have e3 : (writeBody C (-EAGAIN) s).nPrepares = s.nPrepares := by rw [hb]
        have e4 : (writeBody C (-EAGAIN) s).writes.length = s.writes.length + 1 := by
          rw [hb]; simp
        obtain ⟨used, hu, hex, hleft, hpos, hprep, hw⟩ := ih (writeBody C (-EAGAIN) s)
          (by rw [e1]; exact hB) (by rw [e1]; exact hr)
        rw [e1] at hleft hpos
        rw [e2] at hpos
        rw [e3] at hprep
        rw [e4] at hw
        have hne : (-EAGAIN : Int) ≠ -EPIPE := by decide
        refine ⟨-EAGAIN :: used, by rw [List.cons_append, ← hu], hex, ?_, ?_, ?_, ?_⟩
        · simpa [acceptedFrames, EAGAIN] using hleft
        · intro h3
          simpa [acceptedFrames, EAGAIN] using hpos h3
        · rw [hprep, List.count_cons_of_ne hne.symm]
        · rw [hw, List.length_cons]; omega
      · have hb := writeBody_underrun C s
        have e1 : (writeBody C (-EPIPE) s).nLeft = s.nLeft := by rw [hb]
        have e2 : (writeBody C (-EPIPE) s).pBlockPos = s.pBlockPos := by rw [hb]
        have e3 : (writeBody C (-EPIPE) s).nPrepares = s.nPrepares + 1 := by rw [hb]
        have e4 : (writeBody C (-EPIPE) s).writes.length = s.writes.length + 1 := by
          rw [hb]; simp
        obtain ⟨used, hu, hex, hleft, hpos, hprep, hw⟩ := ih (writeBody C (-EPIPE) s)
          (by rw [e1]; exact hB) (by rw [e1]; exact hr)
        rw [e1] at hleft hpos
        rw [e2] at hpos
        rw [e3] at hprep
        rw [e4] at hw
        refine ⟨-EPIPE :: used, by rw [List.cons_append, ← hu], hex, ?_, ?_, ?_, ?_⟩
        · simpa [acceptedFrames, EPIPE] using hleft
        · intro h3
          simpa [acceptedFrames, EPIPE] using hpos h3
        · rw [hprep, List.count_cons_self]; omega
        · rw [hw, List.length_cons]; omega
      · have hb := writeBody_accept C s rc hr1 hr2 hB
        have e1 : (writeBody C rc s).nLeft = s.nLeft - rc.toNat := by rw [hb]
        have e2 : (writeBody C rc s).pBlockPos = s.pBlockPos + (rc.toNat * C) % 2 ^ 32 := by
          rw [hb]
        have e3 : (writeBody C rc s).nPrepares = s.nPrepares := by rw [hb]
        have e4 : (writeBody C rc s).writes.length = s.writes.length + 1 := by
          rw [hb]; simp
        have hle : s.nLeft - rc.toNat ≤ s.nLeft := Nat.sub_le _ _
        obtain ⟨used, hu, hex, hleft, hpos, hprep, hw⟩ := ih (writeBody C rc s)
          (by rw [e1]; exact lt_of_le_of_lt hle hB)
          (by rw [e1]; exact hr)
        rw [e1] at hleft hpos
        rw [e2] at hpos
        rw [e3] at hprep
        rw [e4] at hw
        have hgt : rc > 0 := by omega
        have hne : rc ≠ -EPIPE := by simp only [EPIPE]; omega
        refine ⟨rc :: used, by rw [List.cons_append, ← hu], hex, ?_, ?_, ?_, ?_⟩
        · simp only [acceptedFrames, hgt, if_true]
          omega
        · intro h3
          have hlt : rc.toNat * C < 2 ^ 32 := by
            have : rc.toNat ≤ s.nLeft := by omega
            calc rc.toNat * C ≤ s.nLeft * C := Nat.mul_le_mul_right C this
              _ < 2 ^ 32 := h3
          simp only [acceptedFrames, hgt, if_true]
          rw [hpos (lt_of_le_of_lt (Nat.mul_le_mul_right C hle) h3), Nat.mod_eq_of_lt hlt,
            Nat.add_mul]
          omega
        · rw [hprep, List.count_cons_of_ne hne.symm]
        · rw [hw, List.length_cons]; omega
    · have hstop : writeLoop C (rc :: rest) s = (s, rc :: rest) := by
        simp [writeLoop, hl]
      rw [hstop]
      exact ⟨[], by simp, fun _ => by simp only; omega, by simp [acceptedFrames],
        fun _ => by simp [acceptedFrames], by simp, by simp⟩

/-- C22. The loop that delivers a block of `B = m_nBlockSamples` frames, run on any finite
sequence of sink responses, each being busy (`-EAGAIN`), underrun (`-EPIPE`) or `r` frames
accepted with `1 <= r <=` the frames remaining.  A busy or underrun response leaves the
position in the block and the remaining count as they were, so the next `snd_pcm_writei` call
has the arguments of the one that failed; an underrun makes exactly one `snd_pcm_prepare`
call, a busy response none.  The responses the loop has used leave
`remaining = B - accepted frames`; the loop stops using responses only when the remaining
count is 0, so it has exited exactly when the accepted frame counts sum to `B`; the number of
`snd_pcm_prepare` calls is the number of underruns, and one `snd_pcm_writei` call was made per
response used.  (When `B * m_nChannels` fits `unsigned int`, the position has advanced by the
accepted frames times the channel count.) -/
theorem C22_delivery_loop (C B : Nat) (rcs : List Int) (hB : B < 2 ^ 32)
    (h : SinkResponses B rcs) :
    (∀ s : WriteState, (writeBody C (-EAGAIN) s).pBlockPos = s.pBlockPos ∧
      (writeBody C (-EAGAIN) s).nLeft = s.nLeft ∧
      (writeBody C (-EAGAIN) s).nPrepares = s.nPrepares ∧
      (writeBody C (-EAGAIN) s).writes = s.writes ++ [(s.pBlockPos, s.nLeft)]) ∧
    (∀ (s : WriteState) (rc : Int), (writeBody C (-EPIPE) s).pBlockPos = s.pBlockPos ∧
      (writeBody C (-EPIPE) s).nLeft = s.nLeft ∧
      (writeBody C (-EPIPE) s).nPrepares = s.nPrepares + 1 ∧
      (writeBody C rc (writeBody C (-EPIPE) s)).writes =
        s.writes ++ [(s.pBlockPos, s.nLeft), (s.pBlockPos, s.nLeft)]) ∧
    ∃ used, rcs = used ++ (writeLoop C rcs (writeStart B)).2 ∧
      ((writeLoop C rcs (writeStart B)).2 ≠ [] → (writeLoop C rcs (writeStart B)).1.nLeft = 0) ∧
      (writeLoop C rcs (writeStart B)).1.nLeft + acceptedFrames used = B ∧
      ((writeLoop C rcs (writeStart B)).1.nLeft = 0 ↔ acceptedFrames used = B) ∧
      (writeLoop C rcs (writeStart B)).1.nPrepares = used.count (-EPIPE) ∧
      (writeLoop C rcs (writeStart B)).1.writes.length = used.length ∧
      (B * C < 2 ^ 32 →
        (writeLoop C rcs (writeStart B)).1.pBlockPos = acceptedFrames used * C) := by
  refine ⟨fun s => ?_, fun s rc => ?_, ?_⟩
  · rw [writeBody_busy]
    exact ⟨rfl, rfl, rfl, rfl⟩
  · refine ⟨by rw [writeBody_underrun], by rw [writeBody_underrun],
      by rw [writeBody_underrun], ?_⟩
    rw [writeBody_underrun]
    unfold writeBody
    simp only []
    split_ifs <;> simp
  · obtain ⟨used, hu, hex, hleft, hpos, hprep, hw⟩ :=
      writeLoop_spec C rcs (writeStart B) hB h
    have hleft2 : (writeLoop C rcs (writeStart B)).1.nLeft + acceptedFrames used = B := hleft
    refine ⟨used, hu, hex, hleft2, by omega, ?_, ?_, ?_⟩
    · rw [hprep]
      simp [writeStart]
    · rw [hw]
      simp [writeStart]
    · intro hBC
      rw [hpos hBC]
      simp [writeStart]

/-- C22 (witness). A block of four frames, one channel: busy, two frames accepted, underrun,
two frames accepted.  The loop has exited with the position at 4, one `snd_pcm_prepare` call
and four `snd_pcm_writei` calls, the retried ones with unchanged arguments. -/
theorem C22_delivery_loop_witness :
    SinkResponses 4 [-EAGAIN, 2, -EPIPE, 2] ∧
    writeLoop 1 [-EAGAIN, 2, -EPIPE, 2] (writeStart 4) =
      ({ pBlockPos := 4, nLeft := 0, writes := [(0, 4), (0, 4), (2, 2), (2, 2)],
         nPrepares := 1 }, []) ∧
    ∃ used, [-EAGAIN, 2, -EPIPE, 2] = used ++ (writeLoop 1 [-EAGAIN, 2, -EPIPE, 2]
        (writeStart 4)).2 ∧
      ((writeLoop 1 [-EAGAIN, 2, -EPIPE, 2] (writeStart 4)).1.nLeft = 0 ↔
        acceptedFrames used = 4) := by
  have hs : SinkResponses 4 [-EAGAIN, 2, -EPIPE, 2] := by
    simp [SinkResponses, EAGAIN, EPIPE]
  refine ⟨hs, by decide, ?_⟩
  obtain ⟨used, hu, _, _, hiff, _⟩ :=
    (C22_delivery_loop 1 4 [-EAGAIN, 2, -EPIPE, 2] (by norm_num) hs).2.2
  exact ⟨used, hu, hiff⟩


theorem DestroyAudio_not_joinable (sys : AudioSystem) (h : sys.threadJoinable = false) :
    DestroyAudio sys = .error .system_error := by
  simp [DestroyAudio, threadJoin, h]

/-- C23 (code at the failing input). When no thread belongs to `m_AudioThread` (as before the
first successful `InitialiseAudio`) and `snd_pcm_open` or `snd_pcm_hw_params` returns a
negative value, `InitialiseAudio` does not return false: its rollback `DestroyAudio` calls
`m_AudioThread.join()` on a thread object that is not joinable, which throws
`std::system_error`, and the exception leaves `InitialiseAudio`. -/
theorem C23_rollback_joins_unstarted_thread (sys : AudioSystem)
    (nSampleRate nChannels nBlocks nBlockSamples : Nat) (rcOpen rcParams : Int)
    (hj : sys.threadJoinable = false) (hfail : rcOpen < 0 ∨ rcParams < 0) :
    InitialiseAudio sys nSampleRate nChannels nBlocks nBlockSamples rcOpen rcParams =
        .error .system_error ∧
      (∀ r, InitialiseAudio sys nSampleRate nChannels nBlocks nBlockSamples rcOpen rcParams ≠
        .ok r) ∧
      DestroyAudio sys = .error .system_error := by
  have h : InitialiseAudio sys nSampleRate nChannels nBlocks nBlockSamples rcOpen rcParams =
      .error .system_error := by
    unfold InitialiseAudio
    simp only []
    by_cases ho : rcOpen < 0
    · rw [if_pos ho]
      exact DestroyAudio_not_joinable _ hj
    · rw [if_neg ho]
      have hp : rcParams < 0 := by
        rcases hfail with h | h
        · exact absurd h ho
        · exact h
      rw [if_pos hp]
      exact DestroyAudio_not_joinable _ hj
  refine ⟨h, fun r hr => ?_, DestroyAudio_not_joinable sys hj⟩
  rw [h] at hr
  cases hr

/-- C23 (witness). The first `InitialiseAudio()` call with its default arguments when
`snd_pcm_open` fails with `-ENOENT`, and when `snd_pcm_hw_params` fails with `-EINVAL`. -/
theorem C23_rollback_joins_unstarted_thread_witness :
    InitialiseAudio AudioSystem.initial 44100 1 8 512 (-2) 0 = .error .system_error ∧
      InitialiseAudio AudioSystem.initial 44100 1 8 512 0 (-22) = .error .system_error :=
  ⟨(C23_rollback_joins_unstarted_thread AudioSystem.initial 44100 1 8 512 (-2) 0 rfl
      (Or.inl (by decide))).1,
    (C23_rollback_joins_unstarted_thread AudioSystem.initial 44100 1 8 512 0 (-22) rfl
      (Or.inr (by decide))).1⟩

end SOUND

namespace popup


theorem ceilRows_eq (n c : Nat) (hc : 1 ≤ c) :
    ceilRows n c = n / c + (if n % c > 0 then 1 else 0) := by
  unfold ceilRows
  have hdm := Nat.div_add_mod n c
  have hlt := Nat.mod_lt n (show 0 < c by omega)
  by_cases hr : n % c > 0
  · rw [if_pos hr]
    have e : n + c - 1 = (n % c - 1) + c * (n / c + 1) := by
      rw [Nat.mul_add]
      omega
    rw [e, Nat.add_mul_div_left _ _ (show 0 < c by omega), Nat.div_eq_of_lt (by omega)]
    omega
  · rw [if_neg hr]
    have e : n + c - 1 = (c - 1) + c * (n / c) := by omega
    rw [e, Nat.add_mul_div_left _ _ (show 0 < c by omega), Nat.div_eq_of_lt (by omega)]
    omega

theorem toInt32_of_range (v : Int) (h0 : -2 ^ 31 ≤ v) (h1 : v < 2 ^ 31) : toInt32 v = v := by
  unfold toInt32
  omega

theorem toSizeT_of_nat (c : Nat) (h : c < 2 ^ 64) : toSizeT (c : Int) = c := by
  unfold toSizeT
  omega

theorem clamp_arith (n c : Nat) (x y : Int) (hc : 1 ≤ c) (hx0 : 0 ≤ x) (hx : x < c)
    (hy0 : 0 ≤ y) (hy : y < ceilRows n c) :
    0 ≤ y * c + x ∧ y * c + x < n + c ∧
      (n ≤ y * c + x → 1 ≤ n % c ∧ ((n / c : Nat) : Int) < ceilRows n c ∧
        ((n / c : Nat) : Int) * c + (((n % c : Nat) : Int) - 1) = n - 1) := by
  have hdm := Nat.div_add_mod n c
  have hlt := Nat.mod_lt n (show 0 < c by omega)
  have hR := ceilRows_eq n c hc
  have hdmZ : (c : Int) * ((n / c : Nat) : Int) + ((n % c : Nat) : Int) = n := by
    exact_mod_cast hdm
  have hc0 : (0 : Int) ≤ c := by positivity
  have hP0 : 0 ≤ y * c := mul_nonneg hy0 hc0
  by_cases hr : n % c > 0
  · rw [if_pos hr] at hR
    have hyq : y ≤ ((n / c : Nat) : Int) := by
      rw [hR] at hy
      push_cast at hy
      omega
    have hP : y * c ≤ ((n / c : Nat) : Int) * c := mul_le_mul_of_nonneg_right hyq hc0
    have hcomm : ((n / c : Nat) : Int) * c = c * ((n / c : Nat) : Int) := mul_comm _ _
    refine ⟨by omega, by omega, fun _ => ⟨hr, ?_, by omega⟩⟩
    rw [hR]
    push_cast
    omega
  · rw [if_neg hr] at hR
    have hr0 : n % c = 0 := by omega
    have hyq : y + 1 ≤ ((n / c : Nat) : Int) := by
      rw [hR] at hy
      push_cast at hy
      omega
    have hP : (y + 1) * c ≤ ((n / c : Nat) : Int) * c := mul_le_mul_of_nonneg_right hyq hc0
    have hcomm : ((n / c : Nat) : Int) * c = c * ((n / c : Nat) : Int) := mul_comm _ _
    have hexp : (y + 1) * c = y * c + c := by ring
    have hr0Z : ((n % c : Nat) : Int) = 0 := by exact_mod_cast hr0
    refine ⟨by omega, by omega, fun h => ?_⟩
    exfalso
    omega

theorem ceilRows_le (n c : Nat) (hc : 1 ≤ c) : ceilRows n c ≤ n + 1 := by
  rw [ceilRows_eq n c hc]
  have := Nat.div_le_self n c
  split <;> omega

theorem clamp_vals (n c : Nat) (hc : 1 ≤ c) (hsmall : n + c < 2 ^ 31) (hr1 : 1 ≤ n % c) :
    toInt32 ((((n % c : Nat) : Int) - 1) % 2 ^ 64) = ((n % c : Nat) : Int) - 1 ∧
      toInt32 ((n / c : Nat) : Int) = ((n / c : Nat) : Int) ∧
      toInt32 (((n : Int) - 1) % 2 ^ 64) = (n : Int) - 1 ∧
      0 ≤ ((n % c : Nat) : Int) - 1 ∧ ((n % c : Nat) : Int) - 1 < (c : Int) ∧
      0 ≤ ((n / c : Nat) : Int) ∧ (0 : Int) ≤ (n : Int) - 1 := by
  have hlt := Nat.mod_lt n (show 0 < c by omega)
  have hdiv := Nat.div_le_self n c
  have hle := Nat.mod_le n c
  have b1 : (0 : Int) ≤ ((n % c : Nat) : Int) - 1 := by
    have : (1 : Int) ≤ ((n % c : Nat) : Int) := by exact_mod_cast hr1
    linarith
  have b0 : ((n % c : Nat) : Int) - 1 < (c : Int) := by
    have : ((n % c : Nat) : Int) < (c : Int) := by exact_mod_cast hlt
    linarith
  have bc : ((c : Nat) : Int) < 2 ^ 31 := by
    have : c < 2 ^ 31 := by linarith
    exact_mod_cast this
  have b3 : (0 : Int) ≤ (n : Int) - 1 := by
    have : (1 : Int) ≤ (n : Int) := by
      have : 1 ≤ n := le_trans hr1 hle
      exact_mod_cast this
    linarith
  have b4 : (n : Int) - 1 < 2 ^ 31 := by
    have : ((n : Nat) : Int) < 2 ^ 31 := by
      have : n < 2 ^ 31 := by linarith
      exact_mod_cast this
    linarith
  have b5 : ((n / c : Nat) : Int) < 2 ^ 31 := by
    have : n / c < 2 ^ 31 := by linarith
    exact_mod_cast this
  have b6 : (0 : Int) ≤ ((n / c : Nat) : Int) := by positivity
  refine ⟨?_, toInt32_of_range _ (by linarith) b5, ?_, b1, b0, b6, b3⟩
  · rw [Int.emod_eq_of_lt b1 (by linarith)]
    exact toInt32_of_range _ (by linarith) (by linarith)
  · rw [Int.emod_eq_of_lt b3 (by linarith)]
    exact toInt32_of_range _ (by linarith) b4

theorem ClampCursor_ok (m : Menu) (n c : Nat) (hcols : m.vCellTable.x = (c : Int))
    (hlen : m.items.length = n) (hrows : m.nTotalRows = (ceilRows n c : Int)) (hc : 1 ≤ c)
    (hsmall : n + c < 2 ^ 31)
    (hx0 : 0 ≤ m.vCellCursor.x) (hx : m.vCellCursor.x < (c : Int))
    (hy0 : 0 ≤ m.vCellCursor.y) (hy : m.vCellCursor.y < (ceilRows n c : Int)) :
    ∃ m1, m.ClampCursor = some m1 ∧ NavInv n c m1 ∧ m1.items = m.items ∧
      m1.vCellTable = m.vCellTable := by
  obtain ⟨hv0, hv1, hclamp⟩ := clamp_arith n c m.vCellCursor.x m.vCellCursor.y hc hx0 hx hy0 hy
  have hsz : toSizeT (c : Int) = c := toSizeT_of_nat c (by omega)
  have hsmallZ : ((n : Nat) : Int) + (c : Int) < 2 ^ 31 := by exact_mod_cast hsmall
  have hn0 : (0 : Int) ≤ (n : Int) := by positivity
  have hc0 : (0 : Int) ≤ (c : Int) := by positivity
  have hvi : toInt32 (m.vCellCursor.y * (c : Int) + m.vCellCursor.x) =
      m.vCellCursor.y * (c : Int) + m.vCellCursor.x :=
    toInt32_of_range _ (by linarith) (by linarith)
  have hni : toInt32 ((n : Nat) : Int) = n := toInt32_of_range _ (by linarith) (by linarith)
  have hcne : ¬ (c = 0) := by omega
  unfold Menu.ClampCursor
  simp only [hcols, hlen, hvi, hni, hsz]
  by_cases hge : (n : Int) ≤ m.vCellCursor.y * (c : Int) + m.vCellCursor.x
  · obtain ⟨hr1, hq, hidx⟩ := hclamp hge
    obtain ⟨e1, e2, e3, b1, b0, b6, b3⟩ := clamp_vals n c hc hsmall hr1
    rw [if_pos hge, if_neg hcne]
    simp only [e1, e2, e3]
    refine ⟨_, rfl, ⟨hcols, hlen, hrows, ?_⟩, rfl, rfl⟩
    simp only [CursorOk, hcols, hrows, hlen]
    exact ⟨b1, b0, b6, hq, by linarith, b3, by linarith⟩
  · rw [if_neg hge]
    refine ⟨_, rfl, ⟨hcols, hlen, hrows, ?_⟩, rfl, rfl⟩
    simp only [CursorOk, hcols, hrows, hlen]
    exact ⟨hx0, hx, hy0, hy, trivial, hv0, lt_of_not_le hge⟩

theorem buildItems_length (l : List Menu) :
    ∀ (cs : vi2d) (l1 : List Menu) (cs1 : vi2d), buildItems l cs = some (l1, cs1) →
      l1.length = l.length := by
  induction l with
  | nil =>
    intro cs l1 cs1 h
    simp only [buildItems, Option.some.injEq, Prod.mk.injEq] at h
    rw [← h.1]
  | cons m rest ih =>
    intro cs l1 cs1 h
    rw [buildItems] at h
    split at h
    · cases h
    · split at h
      · cases h
      · rename_i m1 _ rest1 cs2 hrest
        simp only [Option.some.injEq, Prod.mk.injEq] at h
        rw [← h.1, List.length_cons, List.length_cons, ih _ _ _ hrest]

theorem Build_fields (m0 m : Menu) (h : m0.Build = some m) :
    m.vCellTable = m0.vCellTable ∧ m.items.length = m0.items.length ∧
      m.vCellCursor = m0.vCellCursor ∧ m.nCursorItem = m0.nCursorItem ∧
      totalRows m0.items.length m0.vCellTable.x = some m.nTotalRows := by
  cases m0 with
  | mk nID vCellTable items vSizeInPatches vCellSize vCellPadding vCellCursor nCursorItem
      nTopVisibleRow nTotalRows sName bEnabled =>
    rw [Menu.Build] at h
    split at h
    · cases h
    · rename_i items1 cs1 hitems
      have hlen := buildItems_length items vCellSize items1 cs1 hitems
      split at h
      · cases h
      · rename_i rows hrows
        simp only [Option.some.injEq] at h
        subst h
        refine ⟨rfl, hlen, rfl, rfl, ?_⟩
        simp only
        rw [← hlen]
        exact hrows

theorem totalRows_eq (n c : Nat) (hc : 1 ≤ c) (hsmall : n + c < 2 ^ 31) :
    totalRows n (c : Int) = some ((ceilRows n c : Nat) : Int) := by
  have hsz : toSizeT (c : Int) = c := toSizeT_of_nat c (by omega)
  have hR := ceilRows_le n c hc
  have hb : ((ceilRows n c : Nat) : Int) < 2 ^ 31 := by
    have : ceilRows n c < 2 ^ 31 := by omega
    exact_mod_cast this
  unfold totalRows
  rw [hsz, if_neg (by omega), ← ceilRows_eq n c hc,
    toInt32_of_range _ (by have : (0 : Int) ≤ ((ceilRows n c : Nat) : Int) := by positivity
                           linarith) hb]

theorem dec_arith (v R : Int) (h0 : 0 ≤ v) (h : v < R) (hR : R < 2 ^ 31) :
    0 ≤ (if toInt32 (v - 1) < 0 then 0 else toInt32 (v - 1)) ∧
      (if toInt32 (v - 1) < 0 then 0 else toInt32 (v - 1)) < R := by
  rw [toInt32_of_range (v - 1) (by omega) (by omega)]
  split <;> constructor <;> omega

theorem inc_arith (v R : Int) (h0 : 0 ≤ v) (h : v < R) (hR : R < 2 ^ 31) :
    0 ≤ (if toInt32 (v + 1) = R then toInt32 (R - 1) else toInt32 (v + 1)) ∧
      (if toInt32 (v + 1) = R then toInt32 (R - 1) else toInt32 (v + 1)) < R := by
  rw [toInt32_of_range (v + 1) (by omega) (by omega),
    toInt32_of_range (R - 1) (by omega) (by omega)]
  split <;> constructor <;> omega

theorem rows_bound (n c : Nat) (hc : 1 ≤ c) (hsmall : n + c < 2 ^ 31) :
    ((ceilRows n c : Nat) : Int) < 2 ^ 31 ∧ ((c : Nat) : Int) < 2 ^ 31 := by
  have hR := ceilRows_le n c hc
  have h1 : ceilRows n c < 2 ^ 31 := by omega
  have h2 : c < 2 ^ 31 := by omega
  exact ⟨by exact_mod_cast h1, by exact_mod_cast h2⟩

theorem OnUp_ok (m : Menu) (n c : Nat) (hinv : NavInv n c m) (hc : 1 ≤ c)
    (hsmall : n + c < 2 ^ 31) :
    ∃ m1, m.OnUp = some m1 ∧ NavInv n c m1 ∧ m1.items = m.items ∧
      m1.vCellTable = m.vCellTable := by
  obtain ⟨hcols, hlen, hrows, hx0, hx, hy0, hy, _⟩ := hinv
  rw [hcols] at hx
  rw [hrows] at hy
  obtain ⟨hRb, hcb⟩ := rows_bound n c hc hsmall
  obtain ⟨a0, a1⟩ := dec_arith m.vCellCursor.y _ hy0 hy hRb
  unfold Menu.OnUp
  exact ClampCursor_ok _ n c hcols hlen hrows hc hsmall hx0 hx a0 a1

theorem OnDown_ok (m : Menu) (n c : Nat) (hinv : NavInv n c m) (hc : 1 ≤ c)
    (hsmall : n + c < 2 ^ 31) :
    ∃ m1, m.OnDown = some m1 ∧ NavInv n c m1 ∧ m1.items = m.items ∧
      m1.vCellTable = m.vCellTable := by
  obtain ⟨hcols, hlen, hrows, hx0, hx, hy0, hy, _⟩ := hinv
  rw [hcols] at hx
  obtain ⟨hRb, hcb⟩ := rows_bound n c hc hsmall
  obtain ⟨a0, a1⟩ := inc_arith m.vCellCursor.y m.nTotalRows hy0 hy (by rw [hrows]; exact hRb)
  unfold Menu.OnDown
  exact ClampCursor_ok _ n c hcols hlen hrows hc hsmall hx0 hx a0 (hrows ▸ a1)

theorem OnLeft_ok (m : Menu) (n c : Nat) (hinv : NavInv n c m) (hc : 1 ≤ c)
    (hsmall : n + c < 2 ^ 31) :
    ∃ m1, m.OnLeft = some m1 ∧ NavInv n c m1 ∧ m1.items = m.items ∧
      m1.vCellTable = m.vCellTable := by
  obtain ⟨hcols, hlen, hrows, hx0, hx, hy0, hy, _⟩ := hinv
  rw [hcols] at hx
  rw [hrows] at hy
  obtain ⟨hRb, hcb⟩ := rows_bound n c hc hsmall
  obtain ⟨a0, a1⟩ := dec_arith m.vCellCursor.x _ hx0 hx hcb
  unfold Menu.OnLeft
  exact ClampCursor_ok _ n c hcols hlen hrows hc hsmall a0 a1 hy0 hy

theorem OnRight_ok (m : Menu) (n c : Nat) (hinv : NavInv n c m) (hc : 1 ≤ c)
    (hsmall : n + c < 2 ^ 31) :
    ∃ m1, m.OnRight = some m1 ∧ NavInv n c m1 ∧ m1.items = m.items ∧
      m1.vCellTable = m.vCellTable := by
  obtain ⟨hcols, hlen, hrows, hx0, hx, hy0, hy, _⟩ := hinv
  rw [hrows] at hy
  obtain ⟨hRb, hcb⟩ := rows_bound n c hc hsmall
  obtain ⟨a0, a1⟩ := inc_arith m.vCellCursor.x m.vCellTable.x hx0 hx (by rw [hcols]; exact hcb)
  unfold Menu.OnRight
  exact ClampCursor_ok _ n c hcols hlen hrows hc hsmall a0 (hcols ▸ a1) hy0 hy

theorem press_ok (m : Menu) (n c : Nat) (k : Key) (hinv : NavInv n c m) (hc : 1 ≤ c)
    (hsmall : n + c < 2 ^ 31) :
    ∃ m1, m.press k = some m1 ∧ NavInv n c m1 ∧ m1.items = m.items ∧
      m1.vCellTable = m.vCellTable := by
  cases k with
  | up => exact OnUp_ok m n c hinv hc hsmall
  | down => exact OnDown_ok m n c hinv hc hsmall
  | left => exact OnLeft_ok m n c hinv hc hsmall
  | right => exact OnRight_ok m n c hinv hc hsmall

theorem pressAll_ok (keys : List Key) (m : Menu) (n c : Nat) (hinv : NavInv n c m)
    (hc : 1 ≤ c) (hsmall : n + c < 2 ^ 31) :
    ∃ m1, m.pressAll keys = some m1 ∧ NavInv n c m1 ∧ m1.items = m.items ∧
      m1.vCellTable = m.vCellTable := by
  induction keys generalizing m with
  | nil => exact ⟨m, rfl, hinv, rfl, rfl⟩
  | cons k ks ih =>
    obtain ⟨m1, h1, hinv1, hi1, ht1⟩ := press_ok m n c k hinv hc hsmall
    obtain ⟨m2, h2, hinv2, hi2, ht2⟩ := ih m1 hinv1
    refine ⟨m2, ?_, hinv2, by rw [hi2, hi1], by rw [ht2, ht1]⟩
    simp only [Menu.pressAll, h1, h2]

theorem selected_ok (m : Menu) (n c : Nat) (hinv : NavInv n c m) (hsmall : n + c < 2 ^ 31) :
    (∃ it, m.GetSelectedItem = some it ∧ m.items[m.nCursorItem.toNat]? = some it) ∧
      m.OnConfirm.isSome = true := by
  obtain ⟨_, hlen, _, _, _, _, _, _, hi0, hi⟩ := hinv
  have hlt : m.nCursorItem.toNat < m.items.length := by omega
  have hsz : toSizeT m.nCursorItem = m.nCursorItem.toNat := by
    unfold toSizeT
    omega
  have hget : m.items[m.nCursorItem.toNat]? = some (m.items.get ⟨_, hlt⟩) :=
    List.getElem?_eq_getElem hlt
  refine ⟨⟨_, ?_, hget⟩, ?_⟩
  · simp only [Menu.GetSelectedItem, Menu.itemAtCursor, hsz, hget]
  · simp only [Menu.OnConfirm, Menu.itemAtCursor, hsz, hget]
    split <;> rfl

theorem ceilRows_pos (n c : Nat) (hn : 1 ≤ n) (hc : 1 ≤ c) : 1 ≤ ceilRows n c := by
  unfold ceilRows
  rw [Nat.le_div_iff_mul_le (by omega)]
  omega

theorem Build_navInv (m0 m : Menu) (c : Nat) (hcols : m0.vCellTable.x = (c : Int))
    (hc : 1 ≤ c) (hitems : 1 ≤ m0.items.length) (hsmall : m0.items.length + c < 2 ^ 31)
    (hcur : m0.vCellCursor = ⟨0, 0⟩) (hci : m0.nCursorItem = 0) (hb : m0.Build = some m) :
    NavInv m0.items.length c m := by
  obtain ⟨ht, hlen, hcu, hni, hrows⟩ := Build_fields m0 m hb
  rw [hcols, totalRows_eq _ c hc hsmall] at hrows
  have hR : m.nTotalRows = ((ceilRows m0.items.length c : Nat) : Int) :=
    (Option.some.inj hrows).symm
  have hpos := ceilRows_pos m0.items.length c hitems hc
  refine ⟨by rw [ht, hcols], hlen, hR, ?_⟩
  simp only [CursorOk, hcu, hcur, hni, hci, hR, ht, hcols, hlen]
  refine ⟨le_refl 0, by exact_mod_cast hc, le_refl 0, by exact_mod_cast hpos, by ring,
    le_refl 0, by exact_mod_cast hitems⟩

/-- C29. For a menu with `cols >= 1` columns and at least one item (item and column counts
within the range of `int32_t`), with the cursor at cell (0,0) and `nCursorItem = 0` as the
constructor leaves them, on which `Build()` has been called: `Build` returns with
`nTotalRows = ceil(items / cols)`, and after any sequence of `OnUp`, `OnDown`, `OnLeft` and
`OnRight` every handler has returned, `0 <= vCellCursor.x < cols`,
`0 <= vCellCursor.y < nTotalRows`, `nCursorItem = vCellCursor.y * cols + vCellCursor.x` and
`0 <= nCursorItem < items.size()`, the items and the row count being unchanged; so
`GetSelectedItem` and `OnConfirm` index an existing item. -/
theorem C29_cursor_stays_on_item (m0 m : Menu) (keys : List Key) (c : Nat)
    (hcols : m0.vCellTable.x = (c : Int)) (hc : 1 ≤ c) (hitems : 1 ≤ m0.items.length)
    (hsmall : m0.items.length + c < 2 ^ 31)
    (hcur : m0.vCellCursor = ⟨0, 0⟩) (hci : m0.nCursorItem = 0) (hb : m0.Build = some m) :
    m.nTotalRows = ((ceilRows m0.items.length c : Nat) : Int) ∧
    m.items.length = m0.items.length ∧
    ∃ m1, m.pressAll keys = some m1 ∧
      0 ≤ m1.vCellCursor.x ∧ m1.vCellCursor.x < (c : Int) ∧
      0 ≤ m1.vCellCursor.y ∧ m1.vCellCursor.y < m1.nTotalRows ∧
      m1.nCursorItem = m1.vCellCursor.y * (c : Int) + m1.vCellCursor.x ∧
      0 ≤ m1.nCursorItem ∧ m1.nCursorItem < (m1.items.length : Int) ∧
      m1.items = m.items ∧ m1.nTotalRows = m.nTotalRows ∧ m1.vCellTable = m.vCellTable ∧
      (∃ it, m1.GetSelectedItem = some it ∧ m1.items[m1.nCursorItem.toNat]? = some it) ∧
      m1.OnConfirm.isSome = true := by
  have hinv := Build_navInv m0 m c hcols hc hitems hsmall hcur hci hb
  obtain ⟨m1, hp, hinv1, hi1, ht1⟩ := pressAll_ok keys m _ c hinv hc hsmall
  obtain ⟨hsel, hconf⟩ := selected_ok m1 _ c hinv1 hsmall
  have hinv1b := hinv1
  obtain ⟨hcols1, hlen1, hrows1, hx0, hx, hy0, hy, hidx, hi0, hi⟩ := hinv1b
  refine ⟨hinv.2.2.1, hinv.2.1, m1, hp, hx0, by rw [← hcols1]; exact hx, hy0, hy,
    by rw [← hcols1]; exact hidx, hi0, hi, hi1, by rw [hrows1, hinv.2.2.1], ht1, hsel, hconf⟩

theorem sampleMenu_builds : ∃ m, sampleMenu.Build = some m ∧ m.nTotalRows = 3 := by
  refine ⟨_, rfl, ?_⟩
  rfl

/-- C29 (witness). The menu `sampleMenu` (five items, two columns): `Build` gives three rows,
and after down, down, right, right, up, left the cursor is on an existing item. -/
theorem C29_cursor_stays_on_item_witness :
    ∃ m, sampleMenu.Build = some m ∧
      m.nTotalRows = ((ceilRows sampleMenu.items.length 2 : Nat) : Int) ∧
      ∃ m1, m.pressAll [Key.down, Key.down, Key.right, Key.right, Key.up, Key.left] = some m1 ∧
        0 ≤ m1.nCursorItem ∧ m1.nCursorItem < (m1.items.length : Int) ∧
        m1.OnConfirm.isSome = true := by
  obtain ⟨m, hb, _⟩ := sampleMenu_builds
  obtain ⟨hrows, _, m1, hp, _, _, _, _, _, hi0, hi, _, _, _, _, hconf⟩ :=
    C29_cursor_stays_on_item sampleMenu m
      [Key.down, Key.down, Key.right, Key.right, Key.up, Key.left] 2 rfl (by decide)
      (by decide) (by decide) rfl rfl hb
  exact ⟨m, hb, hrows, m1, hp, hi0, hi, hconf⟩

theorem sampleMenu_clamps :
    (sampleMenu.Build.bind (fun m => m.pressAll [Key.down, Key.down, Key.right])).map
        (fun m => (m.vCellCursor, m.nCursorItem, m.nTotalRows)) = some (⟨0, 2⟩, 4, 3) := by
  decide

end popup

end jpr
